import Mathlib

/-!
Verification development for the popcornvault ingestion/reconciliation engine.

The Go source is shallowly embedded:
* the PostgreSQL catalog store (`internal/store/postgres.go`) becomes a pure
  state type `DB` with one Lean function per SQL statement;
* the ingest orchestrator (`internal/service/ingest.go`) is written against an
  abstract store interface (`StoreOps`), exactly as the Go code is written
  against `store.Store`; Go's `(value, error)` returns are modelled with
  `Option` (`none` = the call returned an error);
* the VoyageAI embedding client (`internal/embedding/voyage.go`) is modelled
  with the remote HTTP response supplied as explicit data;
* the Redis cache decorator (`CachedStore`) becomes a pure key/value map with
  the wrapped store abstract, as in the Go code.

Go `int64` database ids are modelled as `Nat` (PostgreSQL BIGSERIAL ids; no
overflow behaviour is relevant), `int16` enumerations and Go `int` as `Int`.
-/

namespace PV

/-- A channel row (table `channels`).  `embedding` is the pgvector column
(vector payloads are opaque data here, modelled as `List Int`). -/
structure Channel where
  id : Nat
  name : String
  url : String
  image : Option String
  mediaType : Int
  sourceId : Nat
  groupId : Option Nat
  favorite : Bool
  embedding : Option (List Int)
deriving Repr, DecidableEq

/-- A group row (table `groups`). -/
structure Group where
  id : Nat
  name : String
  image : Option String
  sourceId : Nat
deriving Repr, DecidableEq

/-- A source row (table `sources`). -/
structure Source where
  id : Nat
  name : String
  url : String
  sourceType : Int
  userAgent : Option String
  enabled : Bool
  lastUpdated : Option Nat
deriving Repr, DecidableEq

/-- A channel-headers row (table `channel_http_headers`), at most one per
channel. -/
structure HeaderRow where
  channelId : Nat
  referrer : Option String
  userAgent : Option String
  httpOrigin : Option String
  ignoreSsl : Bool
deriving Repr, DecidableEq

/-- The relational state: the four tables plus the id sequences. -/
structure DB where
  sources : List Source
  groups : List Group
  channels : List Channel
  headers : List HeaderRow
  nextSourceId : Nat
  nextGroupId : Nat
  nextChannelId : Nat
deriving Repr, DecidableEq

/-- SQL `COALESCE(a, b)`. -/
def coalesce (a b : Option α) : Option α :=
  match a with
  | some v => some v
  | none => b

/-- SQL `NULLIF(s, '')`. -/
def nullifEmpty (s : String) : Option String :=
  if s = "" then none else some s

/-- The `(name, source_id, url)` unique key of a channel row. -/
def Channel.key (c : Channel) : String × Nat × String := (c.name, c.sourceId, c.url)

/-- The `(name, source_id)` unique key of a group row. -/
def Group.key (g : Group) : String × Nat := (g.name, g.sourceId)

/-- Well-formedness guaranteed by the PostgreSQL schema: primary keys are
distinct and below the sequences, and the unique constraints
`channels(name, source_id, url)`, `groups(name, source_id)`, `sources(name)`
hold. -/
structure WF (db : DB) : Prop where
  chanIdsNodup : (db.channels.map Channel.id).Nodup
  chanIdsLt : ∀ c ∈ db.channels, c.id < db.nextChannelId
  chanKeysNodup : (db.channels.map Channel.key).Nodup
  grpIdsNodup : (db.groups.map Group.id).Nodup
  grpIdsLt : ∀ g ∈ db.groups, g.id < db.nextGroupId
  grpKeysNodup : (db.groups.map Group.key).Nodup
  srcIdsNodup : (db.sources.map Source.id).Nodup
  srcIdsLt : ∀ s ∈ db.sources, s.id < db.nextSourceId
  srcNamesNodup : (db.sources.map Source.name).Nodup

/-! ### Store operations (`internal/store/postgres.go`)

Each function mirrors one SQL statement.  `INSERT ... ON CONFLICT ... DO
UPDATE ... RETURNING id` becomes: look the row up by its unique key; update it
in place if found, else append a fresh row and advance the sequence. -/

/-- `CreateOrGetSource`: insert by unique name, on conflict update `url` and
`user_agent` (the inserted user agent is `NULLIF($4,'')`). -/
def CreateOrGetSource (db : DB) (name url : String) (sourceType : Int)
    (userAgent : String) : Nat × DB :=
  match db.sources.find? (fun s => s.name == name) with
  | some s =>
    (s.id, { db with
      sources := db.sources.map (fun t =>
        if t.name == name then
          { t with url := url, userAgent := nullifEmpty userAgent }
        else t) })
  | none =>
    (db.nextSourceId, { db with
      sources := db.sources ++
        [{ id := db.nextSourceId, name := name, url := url,
           sourceType := sourceType, userAgent := nullifEmpty userAgent,
           enabled := true, lastUpdated := none }],
      nextSourceId := db.nextSourceId + 1 })

/-- `GetOrCreateGroup`: insert by `(name, source_id)`, on conflict
`image = COALESCE(EXCLUDED.image, groups.image)`. -/
def GetOrCreateGroup (db : DB) (sourceId : Nat) (name : String)
    (image : Option String) : Nat × DB :=
  match db.groups.find? (fun g => g.name == name && g.sourceId == sourceId) with
  | some g =>
    (g.id, { db with
      groups := db.groups.map (fun h =>
        if h.name == name && h.sourceId == sourceId then
          { h with image := coalesce image h.image }
        else h) })
  | none =>
    (db.nextGroupId, { db with
      groups := db.groups ++
        [{ id := db.nextGroupId, name := name, image := image,
           sourceId := sourceId }],
      nextGroupId := db.nextGroupId + 1 })

/-- The fields of `models.Channel` that `UpsertChannel` sends as SQL
parameters. -/
structure ChannelInput where
  name : String
  image : Option String
  url : String
  mediaType : Int
  sourceId : Nat
  groupId : Option Nat
  favorite : Bool
deriving Repr, DecidableEq

/-- `UpsertChannel`: insert by `(name, source_id, url)`; on conflict update
only `image`, `media_type` and `group_id` — `favorite` and `embedding` are not
in the `DO UPDATE SET` list. -/
def UpsertChannel (db : DB) (ch : ChannelInput) : Nat × DB :=
  match db.channels.find? (fun c =>
      c.name == ch.name && c.sourceId == ch.sourceId && c.url == ch.url) with
  | some c =>
    (c.id, { db with
      channels := db.channels.map (fun d =>
        if d.name == ch.name && d.sourceId == ch.sourceId && d.url == ch.url then
          { d with image := ch.image, mediaType := ch.mediaType,
                   groupId := ch.groupId }
        else d) })
  | none =>
    (db.nextChannelId, { db with
      channels := db.channels ++
        [{ id := db.nextChannelId, name := ch.name, url := ch.url,
           image := ch.image, mediaType := ch.mediaType,
           sourceId := ch.sourceId, groupId := ch.groupId,
           favorite := ch.favorite, embedding := none }],
      nextChannelId := db.nextChannelId + 1 })

/-- The header fields Ingest passes to `UpsertChannelHeaders`. -/
structure HeadersInput where
  referrer : Option String
  userAgent : Option String
  httpOrigin : Option String
  ignoreSsl : Option Bool
deriving Repr, DecidableEq

/-- `UpsertChannelHeaders`: insert by `channel_id`, on conflict replace all
header fields; a `nil` IgnoreSSL is sent as `false`. -/
def UpsertChannelHeaders (db : DB) (channelId : Nat) (h : HeadersInput) : DB :=
  let ssl := h.ignoreSsl.getD false
  match db.headers.find? (fun r => r.channelId == channelId) with
  | some _ =>
    { db with headers := db.headers.map (fun r =>
        if r.channelId == channelId then
          { r with referrer := h.referrer, userAgent := h.userAgent,
                   httpOrigin := h.httpOrigin, ignoreSsl := ssl }
        else r) }
  | none =>
    { db with headers := db.headers ++
        [{ channelId := channelId, referrer := h.referrer,
           userAgent := h.userAgent, httpOrigin := h.httpOrigin,
           ignoreSsl := ssl }] }

/-- Whether `RemoveStaleChannels` deletes channel `c`. -/
def staleFor (sourceId : Nat) (keepIds : List Nat) (c : Channel) : Bool :=
  c.sourceId == sourceId && !(keepIds.contains c.id)

/-- `RemoveStaleChannels`: with an empty keep list, `DELETE FROM channels
WHERE source_id = $1`; otherwise delete the channels of the source whose id is
not in the keep set (in SQL via a `_keep_ids` temp table and an anti-join).
Headers of deleted channels go with them (`ON DELETE CASCADE`).  Returns the
number of deleted rows. -/
def RemoveStaleChannels (db : DB) (sourceId : Nat) (keepIds : List Nat) :
    Nat × DB :=
  if keepIds.isEmpty then
    let deleted := db.channels.filter (fun c => c.sourceId == sourceId)
    (deleted.length, { db with
      channels := db.channels.filter (fun c => !(c.sourceId == sourceId)),
      headers := db.headers.filter (fun r =>
        !(deleted.any (fun c => c.id == r.channelId))) })
  else
    let deleted := db.channels.filter (staleFor sourceId keepIds)
    (deleted.length, { db with
      channels := db.channels.filter (fun c => !(staleFor sourceId keepIds c)),
      headers := db.headers.filter (fun r =>
        !(deleted.any (fun c => c.id == r.channelId))) })

/-- The `SELECT DISTINCT group_id FROM channels WHERE source_id = $1 AND
group_id IS NOT NULL` subquery (as a list; only membership matters). -/
def usedGroupIds (db : DB) (sourceId : Nat) : List Nat :=
  (db.channels.filter (fun c => c.sourceId == sourceId)).filterMap Channel.groupId

/-- `RemoveOrphanedGroups`: delete the groups of the source whose id is not
referenced by any remaining channel of the source.  Returns the number of
deleted rows. -/
def RemoveOrphanedGroups (db : DB) (sourceId : Nat) : Nat × DB :=
  let used := usedGroupIds db sourceId
  let deleted := db.groups.filter (fun g =>
    g.sourceId == sourceId && !(used.contains g.id))
  (deleted.length, { db with
    groups := db.groups.filter (fun g =>
      !(g.sourceId == sourceId && !(used.contains g.id))) })

/-- `UpdateSourceLastUpdated`: `UPDATE sources SET last_updated = NOW()`;
the clock is an explicit parameter `now`. -/
def UpdateSourceLastUpdated (db : DB) (sourceId : Nat) (now : Nat) : DB :=
  { db with sources := db.sources.map (fun s =>
      if s.id == sourceId then { s with lastUpdated := some now } else s) }

/-- `CountChannelsBySource`: `SELECT COUNT(*) FROM channels WHERE
source_id = $1`. -/
def CountChannelsBySource (db : DB) (sourceId : Nat) : Nat :=
  (db.channels.filter (fun c => c.sourceId == sourceId)).length

/-- `ToggleChannelFavorite`: `UPDATE channels SET favorite = $1 WHERE
id = $2`; errors with `ErrNotFound` when no row is affected. -/
def ToggleChannelFavorite (db : DB) (channelId : Nat) (favorite : Bool) :
    Option DB :=
  if db.channels.any (fun c => c.id == channelId) then
    some { db with channels := db.channels.map (fun c =>
      if c.id == channelId then { c with favorite := favorite } else c) }
  else
    none

end PV

namespace PV

/-! ### The ingest orchestrator (`internal/service/ingest.go`)

`Ingest` is written against the `store.Store` interface; the embedding mirrors
that with a `StoreOps` record over an abstract state `σ`.  Every operation
returns `(Option result) × σ`: `none` models a Go error return; the state is
threaded through even on failure (the store outlives a failed call).
`CountChannelsBySource` is total because Ingest discards its error. -/

structure StoreOps (σ : Type) where
  createOrGetSource : σ → String → String → Int → String → Option Nat × σ
  getOrCreateGroup : σ → Nat → String → Option String → Option Nat × σ
  upsertChannel : σ → ChannelInput → Option Nat × σ
  upsertChannelHeaders : σ → Nat → HeadersInput → Option Unit × σ
  countChannelsBySource : σ → Nat → Nat × σ
  removeStaleChannels : σ → Nat → List Nat → Option Nat × σ
  removeOrphanedGroups : σ → Nat → Option Nat × σ
  updateSourceLastUpdated : σ → Nat → Option Unit × σ

/-- One parsed M3U entry (`fetcher.ParsedEntry`): the parsed channel fields
plus optional per-entry headers.  The parser leaves `SourceID`/`GroupID`
unset; Ingest fills them in. -/
structure Entry where
  name : String
  url : String
  image : Option String
  mediaType : Int
  group : Option String
  favorite : Bool
  headers : Option HeadersInput
deriving Repr, DecidableEq

/-- `models.SourceTypeM3ULink`. -/
def SourceTypeM3ULink : Int := 1

/-- The group-resolution step at the top of Ingest's upsert loop: a non-empty
group name is looked up in the per-run memo map `groupIDs` first, and only on
a miss is `GetOrCreateGroup` called and the memo extended; a `nil` or empty
group leaves the channel ungrouped.  Returns the group id to link (if any)
and the updated memo map. -/
def resolveGroup (ops : StoreOps σ) (sourceId : Nat) (e : Entry)
    (groupIDs : List (String × Nat)) (st : σ) :
    Option (Option Nat × List (String × Nat)) × σ :=
  match e.group with
  | some gname =>
    if gname = "" then (some (none, groupIDs), st)
    else
      match groupIDs.lookup gname with
      | some gid => (some (some gid, groupIDs), st)
      | none =>
        match ops.getOrCreateGroup st sourceId gname e.image with
        | (none, st) => (none, st)
        | (some gid, st) => (some (some gid, (gname, gid) :: groupIDs), st)
  | none => (some (none, groupIDs), st)

/-- The `ChannelInput` the loop sends to `UpsertChannel` for entry `e`
(`ch.SourceID = sourceID`, `ch.GroupID` from group resolution). -/
def entryInput (sourceId : Nat) (e : Entry) (gid : Option Nat) : ChannelInput :=
  { name := e.name, image := e.image, url := e.url, mediaType := e.mediaType,
    sourceId := sourceId, groupId := gid, favorite := e.favorite }

/-- The per-entry body of Ingest's upsert loop, as a recursive function over
the remaining entries.  Carries the keep list, the per-run group-name → id
memo map (`groupIDs`) and the channel count; checks the cancellation signal
between iterations; any store error aborts the whole run. -/
def ingestLoop (ops : StoreOps σ) (cancel : Nat → Bool) (sourceId : Nat) :
    List Entry → σ → List Nat → List (String × Nat) → Nat →
    Option (List Nat × List (String × Nat) × Nat) × σ
  | [], st, keepIDs, groupIDs, count => (some (keepIDs, groupIDs, count), st)
  | e :: rest, st, keepIDs, groupIDs, count =>
    if cancel count then (none, st)
    else
      match resolveGroup ops sourceId e groupIDs st with
      | (none, st) => (none, st)
      | (some (gid, groupIDs), st) =>
        match ops.upsertChannel st (entryInput sourceId e gid) with
        | (none, st) => (none, st)
        | (some cid, st) =>
          match e.headers with
          | some h =>
            (match ops.upsertChannelHeaders st cid h with
             | (none, st) => (none, st)
             | (some _, st) =>
               ingestLoop ops cancel sourceId rest st (keepIDs ++ [cid])
                 groupIDs (count + 1))
          | none =>
            ingestLoop ops cancel sourceId rest st (keepIDs ++ [cid])
              groupIDs (count + 1)

/-- `service.Ingest` (the store-mutating run: phases 1–3 and the last-sync
commit).  The fetch result is passed in (`none` = fetch failed); the context
is the cancellation predicate; the background embedding dispatch of phase 4
runs detached after the function returns and is modelled separately
(`generateEmbeddingsTrace`).  Returns `(sourceID, channelCount)` on
success. -/
def Ingest (ops : StoreOps σ) (cancel : Nat → Bool)
    (fetched : Option (List Entry)) (m3uURL sourceName userAgent : String)
    (st : σ) : Option (Nat × Nat) × σ :=
  if m3uURL = "" then (none, st)
  else
    let sourceName := if sourceName = "" then "m3u" else sourceName
    match fetched with
    | none => (none, st)
    | some entries =>
      match ops.createOrGetSource st sourceName m3uURL SourceTypeM3ULink
          userAgent with
      | (none, st) => (none, st)
      | (some sourceID, st) =>
        match ingestLoop ops cancel sourceID entries st [] [] 0 with
        | (none, st) => (none, st)
        | (some (keepIDs, _, channelCount), st) =>
          let (_totalInDB, st) := ops.countChannelsBySource st sourceID
          match ops.removeStaleChannels st sourceID keepIDs with
          | (none, st) => (none, st)
          | (some _, st) =>
            match ops.removeOrphanedGroups st sourceID with
            | (none, st) => (none, st)
            | (some _, st) =>
              match ops.updateSourceLastUpdated st sourceID with
              | (none, st) => (none, st)
              | (some _, st) => (some (sourceID, channelCount), st)

/-- The PostgreSQL store as a `StoreOps` instance: the pure table operations,
which never fail.  The commit clock is the parameter `now`. -/
def dbOps (now : Nat) : StoreOps DB where
  createOrGetSource := fun db name url ty ua =>
    let (id, db) := CreateOrGetSource db name url ty ua
    (some id, db)
  getOrCreateGroup := fun db sid name img =>
    let (id, db) := GetOrCreateGroup db sid name img
    (some id, db)
  upsertChannel := fun db ch =>
    let (id, db) := UpsertChannel db ch
    (some id, db)
  upsertChannelHeaders := fun db cid h => (some (), UpsertChannelHeaders db cid h)
  countChannelsBySource := fun db sid => (CountChannelsBySource db sid, db)
  removeStaleChannels := fun db sid keep =>
    let (n, db) := RemoveStaleChannels db sid keep
    (some n, db)
  removeOrphanedGroups := fun db sid =>
    let (n, db) := RemoveOrphanedGroups db sid
    (some n, db)
  updateSourceLastUpdated := fun db sid =>
    (some (), UpdateSourceLastUpdated db sid now)

end PV

namespace PV

/-! ### C5: group image upsert semantics -/

/-- A concrete store for the C5 counterexample: one group whose image is
already set. -/
def dbC5 : DB :=
  { sources := [], groups := [{ id := 1, name := "News", image := some "old.png", sourceId := 7 }],
    channels := [], headers := [],
    nextSourceId := 1, nextGroupId := 2, nextChannelId := 1 }

/-- C5 counterexample: calling `GetOrCreateGroup` for an existing group with a
present-but-empty image (`&""`, a non-NULL empty string) does **not** leave the
stored image unchanged: `COALESCE(EXCLUDED.image, groups.image)` only skips
NULL, so the empty string overwrites `"old.png"`. -/
theorem C5_counterexample :
    (GetOrCreateGroup dbC5 7 "News" (some "")).2.groups.map Group.image = [some ""] ∧
    dbC5.groups.map Group.image = [some "old.png"] := by
  constructor <;> rfl

/-- C5 (amended): for an existing group matched by `(name, source)`,
`GetOrCreateGroup` returns the stored id and sets the image to
`COALESCE(new, old)`: an absent (NULL) image leaves the stored image
unchanged, while any present image — including the empty string — overwrites
it. -/
theorem C5_group_image_coalesce (db : DB) (sid : Nat) (name : String)
    (img : Option String) (g : Group)
    (hg : db.groups.find? (fun h => h.name == name && h.sourceId == sid) = some g) :
    (GetOrCreateGroup db sid name img).1 = g.id ∧
    (GetOrCreateGroup db sid name img).2.groups =
      db.groups.map (fun h =>
        if h.name == name && h.sourceId == sid then
          { h with image := coalesce img h.image }
        else h) ∧
    (img = none → (GetOrCreateGroup db sid name img).2.groups = db.groups) := by
  refine ⟨?_, ?_, ?_⟩
  · simp [GetOrCreateGroup, hg]
  · simp [GetOrCreateGroup, hg]
  · rintro rfl
    simp only [GetOrCreateGroup, hg]
    have h2 : db.groups.map (fun h : Group =>
        if h.name == name && h.sourceId == sid then
          { h with image := coalesce none h.image } else h) = db.groups.map id :=
      List.map_congr_left (fun h _ => by
        by_cases hh : h.name == name && h.sourceId == sid <;> simp [hh, coalesce])
    rw [h2, List.map_id]

/-- Witness for `C5_group_image_coalesce` at the concrete store `dbC5`. -/
theorem C5_group_image_coalesce_witness :
    (GetOrCreateGroup dbC5 7 "News" none).2.groups = dbC5.groups :=
  (C5_group_image_coalesce dbC5 7 "News" none
    { id := 1, name := "News", image := some "old.png", sourceId := 7 }
    (by decide)).2.2 rfl

end PV

namespace PV

/-! ### C3: stale-channel pruning -/

/-- Both branches of `RemoveStaleChannels` delete exactly the channels of the
source whose id is outside the keep set (with an empty keep set the `contains`
test is vacuous, matching the `DELETE ... WHERE source_id = $1` branch). -/
theorem RemoveStaleChannels_channels (db : DB) (sid : Nat) (keep : List Nat) :
    (RemoveStaleChannels db sid keep).2.channels =
      db.channels.filter (fun c => !(staleFor sid keep c)) := by
  unfold RemoveStaleChannels
  by_cases hk : keep.isEmpty
  · rw [List.isEmpty_iff] at hk
    subst hk
    simp only [List.isEmpty_nil, if_true]
    exact List.filter_congr (fun c _ => by simp [staleFor])
  · simp [hk]

/-- The count returned by `RemoveStaleChannels` is the number of deleted
rows. -/
theorem RemoveStaleChannels_count (db : DB) (sid : Nat) (keep : List Nat) :
    (RemoveStaleChannels db sid keep).1 =
      (db.channels.filter (staleFor sid keep)).length := by
  unfold RemoveStaleChannels
  by_cases hk : keep.isEmpty
  · rw [List.isEmpty_iff] at hk
    subst hk
    simp only [List.isEmpty_nil, if_true]
    congr 1
    exact (List.filter_congr (fun c _ => by simp [staleFor])).symm
  · simp [hk]

/-- C3: `RemoveStaleChannels` deletes exactly the channels of the source whose
id is not in `keepIDs`; the returned count is `N - |keep ∩ existing|`;
channels of the source in the keep set survive unchanged; and an empty keep
set wipes every channel of the source. -/
theorem C3_remove_stale_channels (db : DB) (sid : Nat) (keep : List Nat)
    (hwf : WF db) :
    (RemoveStaleChannels db sid keep).2.channels =
      db.channels.filter (fun c => !(staleFor sid keep c)) ∧
    (RemoveStaleChannels db sid keep).1 =
      ((db.channels.filter (fun c => c.sourceId == sid)).map Channel.id).length -
        (((db.channels.filter (fun c => c.sourceId == sid)).map Channel.id).toFinset ∩
          keep.toFinset).card ∧
    (∀ c ∈ db.channels, c.sourceId = sid → c.id ∈ keep →
      c ∈ (RemoveStaleChannels db sid keep).2.channels) ∧
    (keep = [] → ∀ c ∈ (RemoveStaleChannels db sid keep).2.channels,
      c.sourceId ≠ sid) := by
  set A := db.channels.filter (fun c => c.sourceId == sid) with hA
  have hnodup : (A.map Channel.id).Nodup :=
    ((List.filter_sublist db.channels).map Channel.id).nodup hwf.chanIdsNodup
  refine ⟨RemoveStaleChannels_channels db sid keep, ?_, ?_, ?_⟩
  · rw [RemoveStaleChannels_count]
    have h1 : db.channels.filter (staleFor sid keep) =
        A.filter (fun c => !(keep.contains c.id)) := by
      rw [hA, List.filter_filter]
      exact List.filter_congr (fun c _ => by simp [staleFor, Bool.and_comm])
    have h2 : (A.map Channel.id).length =
        (A.filter (fun c => keep.contains c.id)).length +
        (A.filter (fun c => !(keep.contains c.id))).length := by
      rw [List.length_map]
      exact List.length_eq_length_filter_add _
    have h3 : ((A.map Channel.id).toFinset ∩ keep.toFinset).card =
        (A.filter (fun c => keep.contains c.id)).length := by
      rw [← Finset.filter_mem_eq_inter]
      have h4 : (A.map Channel.id).toFinset.filter (fun i => i ∈ keep.toFinset) =
          ((A.map Channel.id).filter (fun i => keep.contains i)).toFinset := by
        rw [List.toFinset_filter]
        exact (Finset.filter_congr (fun x _ => by simp)).symm
      rw [h4, List.card_toFinset,
        (hnodup.filter (fun i => keep.contains i)).dedup,
        List.filter_map, List.length_map]
      exact congrArg List.length (List.filter_congr (fun c _ => rfl))
    rw [h1, h3]
    omega
  · intro c hc hs hk
    rw [RemoveStaleChannels_channels]
    refine List.mem_filter.2 ⟨hc, ?_⟩
    simp [staleFor, hs, hk]
  · rintro rfl c hc
    rw [RemoveStaleChannels_channels] at hc
    have := (List.mem_filter.1 hc).2
    simp [staleFor] at this
    exact fun h => by simp [h] at this

/-- Witness for `C3_remove_stale_channels` at a concrete store. -/
def dbC3 : DB :=
  { sources := [], groups := [],
    channels :=
      [{ id := 1, name := "a", url := "u1", image := none, mediaType := 0,
         sourceId := 5, groupId := none, favorite := false, embedding := none },
       { id := 2, name := "b", url := "u2", image := none, mediaType := 0,
         sourceId := 5, groupId := none, favorite := true, embedding := none },
       { id := 3, name := "c", url := "u3", image := none, mediaType := 1,
         sourceId := 6, groupId := none, favorite := false, embedding := none }],
    headers := [],
    nextSourceId := 7, nextGroupId := 1, nextChannelId := 4 }

theorem C3_remove_stale_channels_witness :
    (RemoveStaleChannels dbC3 5 [2, 9]).1 = 1 := by
  have h := C3_remove_stale_channels dbC3 5 [2, 9]
    { chanIdsNodup := by decide
      chanIdsLt := by decide
      chanKeysNodup := by decide
      grpIdsNodup := by decide
      grpIdsLt := by decide
      grpKeysNodup := by decide
      srcIdsNodup := by decide
      srcIdsLt := by decide
      srcNamesNodup := by decide }
  rw [h.2.1]
  decide

end PV

namespace PV

/-! ### Embedding client (`internal/embedding/voyage.go`)

`Embed` performs one HTTP POST; the parsed 200-response body (`data`, a list
of `{embedding, index}` pairs in arbitrary arrival order) is supplied as an
explicit argument.  `EmbedBatch` takes the remote behaviour as a function from
request input to response data. -/

/-- An embedding vector (`[]float32`); vector payloads are only shuttled,
never computed with, so they are opaque data. -/
abbrev Vec := List Int

/-- The placement loop of `Embed`:
`embeddings := make([][]float32, len(texts))`, then
`embeddings[d.Index] = d.Embedding` for every datum whose index is in range
(a missing cell stays the zero value `nil`, modelled as `none`).  The
response index `embeddingData.Index` is a Go `int`; this version restricts it
to `Nat` and is exact for non-negative indices — the full signed model, with
the panic a negative index causes, is `placeEmbeddingsZ` below. -/
def placeEmbeddings (n : Nat) (data : List (Nat × Vec)) : List (Option Vec) :=
  data.foldl (fun acc d => if d.1 < n then acc.set d.1 (some d.2) else acc)
    (List.replicate n none)

/-- `Embed`: an empty text list returns `nil` without issuing a request;
otherwise the response data is placed by its index field.  Restriction of the
signed model `EmbedZ` (below) to non-negative response indices. -/
def Embed (texts : List String) (respData : List (Nat × Vec)) :
    List (Option Vec) :=
  if texts.isEmpty then [] else placeEmbeddings texts.length respData

/-- The HTTP requests `Embed` issues: none for an empty input, otherwise a
single request carrying the full text list. -/
def EmbedRequests (texts : List String) : List (List String) :=
  if texts.isEmpty then [] else [texts]

/-- The batch split of `EmbedBatch`'s loop
(`for i := 0; i < len(texts); i += batchSize`). -/
def chunksOf (n : Nat) (l : List α) : List (List α) :=
  if h : l.isEmpty ∨ n = 0 then [] else l.take n :: chunksOf n (l.drop n)
termination_by l.length
decreasing_by
  push_neg at h
  have h1 : l ≠ [] := fun he => by simp [he] at h
  simp only [List.length_drop]
  have := List.length_pos.2 h1
  omega

/-- `EmbedBatch`: normalise the batch size (`<= 0` falls back to 128), embed
each batch with its own response, and append the batch results in order. -/
def EmbedBatch (texts : List String) (batchSize : Int)
    (api : List String → List (Nat × Vec)) : List (Option Vec) :=
  let bs := if batchSize ≤ 0 then (128 : Int) else batchSize
  (chunksOf bs.toNat texts).flatMap (fun b => Embed b (api b))

/-- The value the placement loop leaves at index `j`: the embedding of the
last response datum with index `j`, if any. -/
def latestHit (data : List (Nat × Vec)) (j : Nat) : Option Vec :=
  data.foldl (fun r d => if d.1 == j then some d.2 else r) none

/-- A remote behaviour that embeds each text of the request by `f` and tags it
with its position; an actual response is any permutation of this. -/
def indexedEmbeddings (f : String → Vec) (ts : List String) :
    List (Nat × Vec) :=
  (List.range ts.length).map (fun i => (i, f (ts.getD i "")))

theorem latestHit_nil (j : Nat) : latestHit [] j = none := rfl

/-- Folding the hit accumulator from an arbitrary start. -/
theorem foldl_latestHit (data : List (Nat × Vec)) (j : Nat) :
    ∀ init : Option Vec,
      data.foldl (fun r d => if d.1 == j then some d.2 else r) init =
      match latestHit data j with
      | some v => some v
      | none => init := by
  induction data with
  | nil => intro init; simp [latestHit]
  | cons d rest ih =>
    intro init
    show rest.foldl _ (if d.1 == j then some d.2 else init) = _
    rw [ih]
    have hlh : latestHit (d :: rest) j =
        match latestHit rest j with
        | some v => some v
        | none => if d.1 == j then some d.2 else none := by
      show rest.foldl _ (if d.1 == j then some d.2 else none) = _
      rw [ih]
    rw [hlh]
    cases latestHit rest j with
    | some v => rfl
    | none => by_cases hd : d.1 == j <;> simp [hd]

/-- If index `j` never occurs in the response, the cell keeps its default. -/
theorem latestHit_eq_none (data : List (Nat × Vec)) (j : Nat)
    (h : j ∉ data.map Prod.fst) : latestHit data j = none := by
  induction data with
  | nil => rfl
  | cons d rest ih =>
    simp only [List.map_cons, List.mem_cons] at h
    push_neg at h
    show rest.foldl _ (if d.1 == j then some d.2 else none) = none
    rw [foldl_latestHit, ih h.2]
    simp [Ne.symm h.1]

/-- With distinct response indices, the datum for index `j` wins the cell. -/
theorem latestHit_eq_some (data : List (Nat × Vec)) (j : Nat) (v : Vec)
    (hnd : (data.map Prod.fst).Nodup) (hm : (j, v) ∈ data) :
    latestHit data j = some v := by
  induction data with
  | nil => cases hm
  | cons d rest ih =>
    simp only [List.map_cons, List.nodup_cons] at hnd
    show rest.foldl _ (if d.1 == j then some d.2 else none) = some v
    rw [foldl_latestHit]
    rcases List.mem_cons.1 hm with h | h
    · subst h
      have : latestHit rest j = none :=
        latestHit_eq_none rest j (by simpa using hnd.1)
      simp [this]
    · have hj : j ∈ rest.map Prod.fst := List.mem_map.2 ⟨(j, v), h, rfl⟩
      have : d.1 ≠ j := fun e => hnd.1 (e ▸ hj)
      rw [ih hnd.2 h]

theorem placeEmbeddings_length (n : Nat) (data : List (Nat × Vec)) :
    (placeEmbeddings n data).length = n := by
  suffices h : ∀ (data : List (Nat × Vec)) (acc : List (Option Vec)),
      (data.foldl (fun acc d => if d.1 < n then acc.set d.1 (some d.2) else acc)
        acc).length = acc.length by
    simpa [placeEmbeddings] using h data (List.replicate n none)
  intro data
  induction data with
  | nil => intro acc; rfl
  | cons d rest ih =>
    intro acc
    show (rest.foldl _ (if d.1 < n then acc.set d.1 (some d.2) else acc)).length = _
    rw [ih]
    by_cases hd : d.1 < n <;> simp [hd]

theorem placeEmbeddings_getElem? (n : Nat) (data : List (Nat × Vec)) (j : Nat)
    (hj : j < n) :
    (placeEmbeddings n data)[j]? = some (latestHit data j) := by
  suffices h : ∀ (data : List (Nat × Vec)) (acc : List (Option Vec)),
      acc.length = n →
      (data.foldl (fun acc d => if d.1 < n then acc.set d.1 (some d.2) else acc)
        acc)[j]? =
      match latestHit data j with
      | some v => some (some v)
      | none => acc[j]? by
    rw [placeEmbeddings, h data (List.replicate n none) (List.length_replicate n none)]
    cases hl : latestHit data j <;> simp [List.getElem?_replicate, hj]
  intro data
  induction data with
  | nil => intro acc _; simp [latestHit]
  | cons d rest ih =>
    intro acc hacc
    show (rest.foldl _ (if d.1 < n then acc.set d.1 (some d.2) else acc))[j]? = _
    have hlen : (if d.1 < n then acc.set d.1 (some d.2) else acc).length = n := by
      by_cases hd : d.1 < n <;> simp [hd, hacc]
    rw [ih _ hlen]
    have hlh : latestHit (d :: rest) j =
        match latestHit rest j with
        | some v => some v
        | none => if d.1 == j then some d.2 else none := by
      show rest.foldl _ (if d.1 == j then some d.2 else none) = _
      rw [foldl_latestHit]
    rw [hlh]
    cases hr : latestHit rest j with
    | some v => rfl
    | none =>
      by_cases he : d.1 == j
      · have hdj : d.1 = j := by simpa using he
        subst hdj
        simp only [he, if_pos (hacc ▸ hj : d.1 < n)]
        simp [List.getElem?_set_self (hacc ▸ hj : d.1 < acc.length)]
      · have hdj : d.1 ≠ j := by simpa using he
        simp only [he]
        by_cases hd : d.1 < n <;> simp [hd, List.getElem?_set_ne hdj]

end PV

namespace PV

theorem Embed_length (texts : List String) (respData : List (Nat × Vec))
    (h : texts ≠ []) : (Embed texts respData).length = texts.length := by
  rw [Embed, if_neg (by simpa using h)]
  exact placeEmbeddings_length _ _

theorem Embed_getElem? (texts : List String) (respData : List (Nat × Vec))
    (h : texts ≠ []) (j : Nat) (hj : j < texts.length) :
    (Embed texts respData)[j]? = some (latestHit respData j) := by
  rw [Embed, if_neg (by simpa using h)]
  exact placeEmbeddings_getElem? _ _ _ hj

/-- The placement properties of `Embed` over non-negative response indices:
one slot per input text; a datum with in-range index lands at that index
(indices assumed distinct); indices `≥ len(texts)` are discarded without
effect; slots with no datum stay `nil`; an empty text list yields `nil` and
issues no HTTP request.  (The response index is really a Go `int`; the signed
model and the negative-index case live in the C10 section below.) -/
theorem Embed_placement_props (texts : List String) (respData : List (Nat × Vec)) :
    (texts ≠ [] → (Embed texts respData).length = texts.length) ∧
    (∀ j v, (respData.map Prod.fst).Nodup → (j, v) ∈ respData →
      j < texts.length → (Embed texts respData)[j]? = some (some v)) ∧
    (Embed texts respData =
      Embed texts (respData.filter (fun d => d.1 < texts.length))) ∧
    (∀ j, j < texts.length → j ∉ respData.map Prod.fst →
      (Embed texts respData)[j]? = some none) ∧
    (Embed [] respData = [] ∧ EmbedRequests [] = []) := by
  have hne : ∀ j, j < texts.length → texts ≠ [] := by
    intro j hj he
    subst he
    simp at hj
  refine ⟨Embed_length texts respData, ?_, ?_, ?_, rfl, rfl⟩
  · intro j v hnd hm hj
    rw [Embed_getElem? texts respData (hne j hj) j hj,
      latestHit_eq_some respData j v hnd hm]
  · by_cases he : texts = []
    · subst he; rfl
    · refine List.ext_getElem? fun j => ?_
      by_cases hj : j < texts.length
      · rw [Embed_getElem? _ _ he j hj, Embed_getElem? _ _ he j hj]
        congr 1
        have : ∀ data : List (Nat × Vec),
            latestHit data j =
            latestHit (data.filter (fun d => d.1 < texts.length)) j := by
          intro data
          induction data with
          | nil => rfl
          | cons d rest ih =>
            show rest.foldl _ (if d.1 == j then some d.2 else none) = _
            rw [foldl_latestHit]
            by_cases hd : d.1 < texts.length
            · have : (d :: rest).filter (fun d => d.1 < texts.length) =
                  d :: rest.filter (fun d => d.1 < texts.length) := by
                simp [List.filter_cons, hd]
              rw [this]
              show _ = (rest.filter _).foldl _ (if d.1 == j then some d.2 else none)
              rw [foldl_latestHit, ← ih]
            · have hne2 : (d.1 == j) = false := by
                simp only [beq_eq_false_iff_ne]
                intro e
                exact hd (e ▸ hj)
              have : (d :: rest).filter (fun d => d.1 < texts.length) =
                  rest.filter (fun d => d.1 < texts.length) := by
                simp [List.filter_cons, hd]
              rw [this, ← ih, hne2]
              cases latestHit rest j <;> rfl
        exact this respData
      · have h1 : (Embed texts respData).length ≤ j := by
          rw [Embed_length _ _ he]; omega
        have h2 : (Embed texts (respData.filter (fun d => d.1 < texts.length))).length ≤ j := by
          rw [Embed_length _ _ he]; omega
        rw [List.getElem?_eq_none h1, List.getElem?_eq_none h2]
  · intro j hj hnm
    rw [Embed_getElem? texts respData (hne j hj) j hj,
      latestHit_eq_none respData j hnm]

end PV

namespace PV

/-- The batches of `EmbedBatch` cover the input exactly. -/
theorem chunksOf_flatten (n : Nat) (hn : n ≠ 0) :
    ∀ l : List α, (chunksOf n l).flatten = l := by
  suffices h : ∀ (k : Nat) (l : List α), l.length ≤ k →
      (chunksOf n l).flatten = l by
    exact fun l => h l.length l le_rfl
  intro k
  induction k with
  | zero =>
    intro l hl
    have : l = [] := List.length_eq_zero.1 (Nat.le_zero.1 hl)
    subst this
    rw [chunksOf, dif_pos (Or.inl (by simp))]
    rfl
  | succ k ih =>
    intro l hl
    rw [chunksOf]
    by_cases he : l.isEmpty ∨ n = 0
    · rcases he with he | he
      · rw [dif_pos (Or.inl he)]
        rw [List.isEmpty_iff] at he
        simp [he]
      · exact absurd he hn
    · rw [dif_neg he]
      push_neg at he
      have h1 : l ≠ [] := fun e => by simp [e] at he
      have h2 : (l.drop n).length ≤ k := by
        have := List.length_pos.2 h1
        simp only [List.length_drop]
        omega
      rw [List.flatten_cons, ih (l.drop n) h2, List.take_append_drop]

/-- A successful, index-tagged (but arbitrarily ordered) response makes
`Embed` return exactly the per-text embeddings, in input order. -/
theorem Embed_of_perm (f : String → Vec) (ts : List String)
    (resp : List (Nat × Vec)) (hp : resp.Perm (indexedEmbeddings f ts)) :
    Embed ts resp = ts.map (fun t => some (f t)) := by
  by_cases he : ts = []
  · subst he
    have : resp = [] :=
      List.length_eq_zero.1 (by simpa [indexedEmbeddings] using hp.length_eq)
    subst this
    rfl
  · have hnd : (resp.map Prod.fst).Nodup := by
      have h1 : (resp.map Prod.fst).Perm
          ((indexedEmbeddings f ts).map Prod.fst) := hp.map _
      have h2 : (indexedEmbeddings f ts).map Prod.fst =
          List.range ts.length := by
        rw [indexedEmbeddings, List.map_map]
        exact (List.map_congr_left fun i _ => rfl).trans (List.map_id _)
      exact (h1.nodup_iff).2 (h2 ▸ List.nodup_range _)
    refine List.ext_getElem? fun j => ?_
    by_cases hj : j < ts.length
    · rw [Embed_getElem? ts resp he j hj]
      obtain ⟨t, ht⟩ : ∃ t, ts[j]? = some t :=
        ⟨ts.get ⟨j, hj⟩, List.getElem?_eq_getElem hj⟩
      have hmem : (j, f t) ∈ resp := by
        refine hp.mem_iff.2 ?_
        refine List.mem_map.2 ⟨j, List.mem_range.2 hj, ?_⟩
        have : ts.getD j "" = t := by
          rw [List.getD_eq_getElem?_getD, ht]
          rfl
        rw [this]
      rw [latestHit_eq_some resp j (f t) hnd hmem, List.getElem?_map, ht]
      rfl
    · rw [List.getElem?_eq_none, List.getElem?_eq_none]
      · simpa using Nat.le_of_not_lt hj
      · rw [Embed_length ts resp he]
        exact Nat.le_of_not_lt hj

/-- C6: when every request succeeds and the remote tags each embedding with
its input index (in arbitrary arrival order), `EmbedBatch` over any batch size
returns, index for index, exactly what a single whole-input `Embed` call
returns — namely the per-text embeddings in input order, re-associated by the
index field. -/
theorem C6_embedBatch_eq_embed (f : String → Vec)
    (api : List String → List (Nat × Vec))
    (hapi : ∀ ts, (api ts).Perm (indexedEmbeddings f ts))
    (texts : List String) (batchSize : Int) :
    EmbedBatch texts batchSize api = Embed texts (api texts) ∧
    EmbedBatch texts batchSize api = texts.map (fun t => some (f t)) := by
  have hbs : (if batchSize ≤ 0 then (128 : Int) else batchSize).toNat ≠ 0 := by
    by_cases hb : batchSize ≤ 0
    · simp [hb]
    · simp only [if_neg hb]
      omega
  have hbatch : EmbedBatch texts batchSize api =
      texts.map (fun t => some (f t)) := by
    rw [EmbedBatch]
    have h1 : ∀ b, Embed b (api b) = b.map (fun t => some (f t)) :=
      fun b => Embed_of_perm f b (api b) (hapi b)
    calc (chunksOf _ texts).flatMap (fun b => Embed b (api b))
        = (chunksOf _ texts).flatMap (fun b => b.map (fun t => some (f t))) := by
          rw [List.flatMap_def, List.flatMap_def]
          congr 1
          exact List.map_congr_left (fun b _ => h1 b)
      _ = texts.map (fun t => some (f t)) := by
          rw [List.flatMap_def, ← List.map_flatten, chunksOf_flatten _ hbs]
  exact ⟨hbatch.trans (Embed_of_perm f texts (api texts) (hapi texts)).symm, hbatch⟩

/-- Witness for `C6_embedBatch_eq_embed`: three texts, batch size 2, responses
arriving in reverse order within each request. -/
theorem C6_embedBatch_eq_embed_witness :
    EmbedBatch ["ab", "c", "def"] 2
        (fun ts => (indexedEmbeddings (fun s => [Int.ofNat s.length]) ts).reverse) =
      Embed ["ab", "c", "def"]
        ((indexedEmbeddings (fun s => [Int.ofNat s.length]) ["ab", "c", "def"]).reverse) :=
  (C6_embedBatch_eq_embed (fun s => [Int.ofNat s.length])
    (fun ts => (indexedEmbeddings (fun s => [Int.ofNat s.length]) ts).reverse)
    (fun ts => List.reverse_perm _) ["ab", "c", "def"] 2).1

end PV

namespace PV

/-! ### C7: when the embedding pipeline writes vectors

`generateEmbeddings` and `RefreshEmbeddings` both call `EmbedBatch` once and
then call `StoreEmbeddings` in chunks of 10000 over the full result.  To talk
about the order of remote calls and store writes, the two functions are
embedded as trace generators: one event per embedding HTTP request and one per
store write, with a per-batch success oracle for the remote API. -/

inductive EmbEvent where
  | loadChannels : EmbEvent
  | embedReq : Nat → EmbEvent
  | storeWrite : Nat → EmbEvent
deriving Repr, DecidableEq

/-- `mediaTypeLabel` (ingest.go). -/
def mediaTypeLabel (mt : Int) : String :=
  if mt = 0 then "Livestream"
  else if mt = 1 then "Movie"
  else if mt = 2 then "Serie"
  else "Unknown"

/-- The embedding input string `"{name} | {group-or-empty} | {label}"` built
by `generateEmbeddings` from a parsed entry. -/
def entryEmbedText (e : Entry) : String :=
  let group := match e.group with
    | some g => if g = "" then "" else g
    | none => ""
  e.name ++ " | " ++ group ++ " | " ++ mediaTypeLabel e.mediaType

/-- The embedding input string built by `RefreshEmbeddings` from a loaded
channel row (with its joined group name). -/
def joinedEmbedText (c : Channel) (groupName : Option String) : String :=
  let group := match groupName with
    | some g => if g = "" then "" else g
    | none => ""
  c.name ++ " | " ++ group ++ " | " ++ mediaTypeLabel c.mediaType

/-- The remote calls `EmbedBatch` makes: one request per batch, starting at
batch index `i` with `k` batches left; a failing batch aborts the rest.
Returns the events and whether all batches succeeded. -/
def embedBatchTrace (ok : Nat → Bool) : Nat → Nat → List EmbEvent × Bool
  | _, 0 => ([], true)
  | i, k + 1 =>
    if ok i then
      let (es, s) := embedBatchTrace ok (i + 1) k
      (EmbEvent.embedReq i :: es, s)
    else ([EmbEvent.embedReq i], false)

/-- The chunk start offsets of a `for start := 0; start < total; start +=
chunkSize` loop. -/
def chunkStarts (total chunkSize : Nat) : List Nat :=
  (List.range ((total + chunkSize - 1) / chunkSize)).map (fun i => i * chunkSize)

/-- The store-call trace of `generateEmbeddings`: embed all batches
(`batchSize = 128`); only if every batch succeeded, write the vectors in
chunks of 10000. -/
def generateEmbeddingsTrace (channelIDs : List Nat) (entries : List Entry)
    (ok : Nat → Bool) : List EmbEvent :=
  let texts := entries.map entryEmbedText
  let (es, success) := embedBatchTrace ok 0 ((texts.length + 128 - 1) / 128)
  if success then
    es ++ (chunkStarts channelIDs.length 10000).map EmbEvent.storeWrite
  else es

/-- The store-call trace of `RefreshEmbeddings`: load the channels, return
early when there are none, else embed all batches and (on success) write the
vectors in chunks of 10000. -/
def RefreshEmbeddingsTrace (rows : List (Channel × Option String))
    (ok : Nat → Bool) : List EmbEvent :=
  EmbEvent.loadChannels ::
    (if rows.isEmpty then []
     else
       let texts := rows.map (fun r => joinedEmbedText r.1 r.2)
       let (es, success) := embedBatchTrace ok 0 ((texts.length + 128 - 1) / 128)
       if success then
         es ++ (chunkStarts rows.length 10000).map EmbEvent.storeWrite
       else es)

/-- Whether an event is a store write. -/
def isStore : EmbEvent → Bool
  | EmbEvent.storeWrite _ => true
  | _ => false

/-- A fixed groupless entry for the C7 counterexample. -/
def entryC7 : Entry :=
  { name := "ch", url := "u", image := none, mediaType := 0, group := none,
    favorite := false, headers := none }

set_option maxRecDepth 8000 in
/-- C7 counterexample: a 130-entry ingest produces two embedding batches, and
the trace is embed batch 0, embed batch 1, then a single store write — batch
0's vectors are **not** written before batch 1 is vectorized, contradicting
the claim.  No store write occurs anywhere before the second embed request. -/
theorem C7_counterexample :
    generateEmbeddingsTrace (List.range 130) (List.replicate 130 entryC7)
        (fun _ => true) =
      [EmbEvent.embedReq 0, EmbEvent.embedReq 1, EmbEvent.storeWrite 0] ∧
    ¬ (∃ xs ys, generateEmbeddingsTrace (List.range 130)
        (List.replicate 130 entryC7) (fun _ => true) =
          xs ++ EmbEvent.embedReq 1 :: ys ∧ ∃ s, EmbEvent.storeWrite s ∈ xs) := by
  have htr : generateEmbeddingsTrace (List.range 130)
      (List.replicate 130 entryC7) (fun _ => true) =
      [EmbEvent.embedReq 0, EmbEvent.embedReq 1, EmbEvent.storeWrite 0] := by
    decide
  refine ⟨htr, ?_⟩
  rintro ⟨xs, ys, heq, s, hs⟩
  rw [htr] at heq
  match xs, heq with
  | [], h => simp at h
  | [a], h =>
    simp only [List.cons_append, List.nil_append, List.cons.injEq] at h
    rcases h with ⟨rfl, -⟩
    simp at hs
  | a :: b :: xs, h =>
    simp only [List.cons_append, List.cons.injEq] at h
    rcases h with ⟨rfl, rfl, h⟩
    rcases xs with - | ⟨c, xs⟩ <;> simp at h

/-- All events of `embedBatchTrace` are embed requests. -/
theorem embedBatchTrace_all_embed (ok : Nat → Bool) :
    ∀ k i, ∀ e ∈ (embedBatchTrace ok i k).1, ∃ b, e = EmbEvent.embedReq b := by
  intro k
  induction k with
  | zero => intro i e he; cases he
  | succ k ih =>
    intro i e he
    rw [embedBatchTrace] at he
    by_cases hok : ok i
    · simp only [hok, if_true] at he
      rcases List.mem_cons.1 he with h | h
      · exact ⟨i, h⟩
      · exact ih (i + 1) e h
    · simp only [hok] at he
      simp at he
      exact ⟨i, he⟩

/-- A trace that is a store-free part followed by a store-only part filters
into exactly those parts. -/
theorem trace_split_filter (tr pre post : List EmbEvent) (h : tr = pre ++ post)
    (hpre : ∀ e ∈ pre, isStore e = false)
    (hpost : ∀ e ∈ post, isStore e = true) :
    tr = tr.filter (fun e => !isStore e) ++ tr.filter isStore ∧
    tr.filter isStore = post := by
  subst h
  rw [List.filter_append, List.filter_append,
    List.filter_eq_self.2 (fun e he => by simp [hpre e he]),
    List.filter_eq_nil_iff.2 (fun e he => by simp [hpost e he]),
    List.filter_eq_nil_iff.2 (fun e he => by simp [hpre e he]),
    List.filter_eq_self.2 (fun e he => hpost e he),
    List.append_nil, List.nil_append]
  exact ⟨rfl, rfl⟩

/-- C7 (amended): in both embedding passes every store write happens only
after **all** batches have been vectorized (the trace is the embed requests
followed by the store writes, nothing interleaved), and if any batch fails no
vector is written at all — partial batch progress is not persisted. -/
theorem C7_stores_after_all_embeds (channelIDs : List Nat)
    (entries : List Entry) (rows : List (Channel × Option String))
    (ok ok2 : Nat → Bool) :
    (generateEmbeddingsTrace channelIDs entries ok =
      (generateEmbeddingsTrace channelIDs entries ok).filter
        (fun e => !isStore e) ++
      (generateEmbeddingsTrace channelIDs entries ok).filter isStore) ∧
    ((embedBatchTrace ok 0 ((entries.length + 128 - 1) / 128)).2 = false →
      (generateEmbeddingsTrace channelIDs entries ok).filter isStore = []) ∧
    (RefreshEmbeddingsTrace rows ok2 =
      (RefreshEmbeddingsTrace rows ok2).filter (fun e => !isStore e) ++
      (RefreshEmbeddingsTrace rows ok2).filter isStore) ∧
    ((embedBatchTrace ok2 0 ((rows.length + 128 - 1) / 128)).2 = false →
      (RefreshEmbeddingsTrace rows ok2).filter isStore = []) := by
  have hstores : ∀ n : Nat, ∀ e ∈ (chunkStarts n 10000).map EmbEvent.storeWrite,
      isStore e = true := by
    intro n e he
    obtain ⟨b, -, rfl⟩ := List.mem_map.1 he
    rfl
  have hgen : generateEmbeddingsTrace channelIDs entries ok =
        (embedBatchTrace ok 0 ((entries.length + 128 - 1) / 128)).1 ++
        (if (embedBatchTrace ok 0 ((entries.length + 128 - 1) / 128)).2 then
          (chunkStarts channelIDs.length 10000).map EmbEvent.storeWrite
        else []) := by
    rw [generateEmbeddingsTrace]
    simp only [List.length_map]
    rcases embedBatchTrace ok 0 ((entries.length + 128 - 1) / 128) with ⟨es, s⟩
    cases s <;> simp
  have hrefresh : RefreshEmbeddingsTrace rows ok2 =
        (EmbEvent.loadChannels ::
          (if rows.isEmpty then []
           else (embedBatchTrace ok2 0 ((rows.length + 128 - 1) / 128)).1)) ++
        (if !rows.isEmpty ∧
            (embedBatchTrace ok2 0 ((rows.length + 128 - 1) / 128)).2 then
          (chunkStarts rows.length 10000).map EmbEvent.storeWrite
        else []) := by
    rw [RefreshEmbeddingsTrace]
    simp only [List.length_map]
    by_cases hemp : rows.isEmpty
    · simp [hemp]
    · simp only [hemp, if_false, Bool.not_false]
      rcases embedBatchTrace ok2 0 ((rows.length + 128 - 1) / 128) with ⟨es, s⟩
      cases s <;> simp
  have hpre1 : ∀ e ∈ (embedBatchTrace ok 0 ((entries.length + 128 - 1) / 128)).1,
      isStore e = false := by
    intro e he
    obtain ⟨b, rfl⟩ :=
      embedBatchTrace_all_embed ok ((entries.length + 128 - 1) / 128) 0 e he
    rfl
  have hpre2 : ∀ e ∈ EmbEvent.loadChannels ::
      (if rows.isEmpty then []
       else (embedBatchTrace ok2 0 ((rows.length + 128 - 1) / 128)).1),
      isStore e = false := by
    intro e he
    rcases List.mem_cons.1 he with h | h
    · subst h; rfl
    · by_cases hemp : rows.isEmpty
      · rw [if_pos hemp] at h; cases h
      · rw [if_neg hemp] at h
        obtain ⟨b, rfl⟩ :=
          embedBatchTrace_all_embed ok2 ((rows.length + 128 - 1) / 128) 0 e h
        rfl
  have hpost1 : ∀ e ∈ (if (embedBatchTrace ok 0
        ((entries.length + 128 - 1) / 128)).2 then
        (chunkStarts channelIDs.length 10000).map EmbEvent.storeWrite
      else []), isStore e = true := by
    intro e he
    by_cases hs : (embedBatchTrace ok 0 ((entries.length + 128 - 1) / 128)).2
    · rw [if_pos hs] at he; exact hstores _ e he
    · rw [if_neg hs] at he; cases he
  have hpost2 : ∀ e ∈ (if !rows.isEmpty ∧
        (embedBatchTrace ok2 0 ((rows.length + 128 - 1) / 128)).2 then
        (chunkStarts rows.length 10000).map EmbEvent.storeWrite
      else []), isStore e = true := by
    intro e he
    by_cases hs : !rows.isEmpty ∧
        (embedBatchTrace ok2 0 ((rows.length + 128 - 1) / 128)).2
    · rw [if_pos hs] at he; exact hstores _ e he
    · rw [if_neg hs] at he; cases he
  have h1 := trace_split_filter _ _ _ hgen hpre1 hpost1
  have h2 := trace_split_filter _ _ _ hrefresh hpre2 hpost2
  refine ⟨h1.1, ?_, h2.1, ?_⟩
  · intro hfail
    rw [h1.2, hfail]
    simp
  · intro hfail
    rw [h2.2, hfail]
    simp

end PV

namespace PV

/-! ### C4: order of store operations inside one Ingest run

The `StoreOps` interface is instantiated with a store that records one event
per **successful** call and consults a failure oracle (`fail n` makes the
`n`-th store call return an error), so the recorded trace is exactly the
sequence of store mutations the run performed. -/

inductive StoreEv where
  | createSource : StoreEv
  | getGroup : StoreEv
  | upsertChan : StoreEv
  | upsertHeaders : StoreEv
  | countChans : StoreEv
  | removeStale : StoreEv
  | removeOrphans : StoreEv
  | touch : StoreEv
deriving Repr, DecidableEq

/-- Trace-store state: the events so far and the call counter. -/
abbrev TraceSt := List StoreEv × Nat

/-- One id-returning store call against the trace store. -/
def tcall (fail : Nat → Bool) (ev : StoreEv) (st : TraceSt) :
    Option Nat × TraceSt :=
  if fail st.2 then (none, (st.1, st.2 + 1))
  else (some st.2, (st.1 ++ [ev], st.2 + 1))

/-- One unit-returning store call against the trace store. -/
def tcallU (fail : Nat → Bool) (ev : StoreEv) (st : TraceSt) :
    Option Unit × TraceSt :=
  if fail st.2 then (none, (st.1, st.2 + 1))
  else (some (), (st.1 ++ [ev], st.2 + 1))

/-- The event-recording store. -/
def traceOps (fail : Nat → Bool) : StoreOps TraceSt where
  createOrGetSource := fun st _ _ _ _ => tcall fail StoreEv.createSource st
  getOrCreateGroup := fun st _ _ _ => tcall fail StoreEv.getGroup st
  upsertChannel := fun st _ => tcall fail StoreEv.upsertChan st
  upsertChannelHeaders := fun st _ _ => tcallU fail StoreEv.upsertHeaders st
  countChannelsBySource := fun st _ => (0, (st.1 ++ [StoreEv.countChans], st.2 + 1))
  removeStaleChannels := fun st _ _ => tcall fail StoreEv.removeStale st
  removeOrphanedGroups := fun st _ => tcall fail StoreEv.removeOrphans st
  updateSourceLastUpdated := fun st _ => tcallU fail StoreEv.touch st

theorem traceOps_createOrGetSource (fail : Nat → Bool) (st : TraceSt)
    (a b : String) (c : Int) (d : String) :
    (traceOps fail).createOrGetSource st a b c d =
      tcall fail StoreEv.createSource st := rfl

theorem traceOps_getOrCreateGroup (fail : Nat → Bool) (st : TraceSt) (a : Nat)
    (b : String) (c : Option String) :
    (traceOps fail).getOrCreateGroup st a b c =
      tcall fail StoreEv.getGroup st := rfl

theorem traceOps_upsertChannel (fail : Nat → Bool) (st : TraceSt)
    (ch : ChannelInput) :
    (traceOps fail).upsertChannel st ch = tcall fail StoreEv.upsertChan st := rfl

theorem traceOps_upsertChannelHeaders (fail : Nat → Bool) (st : TraceSt)
    (cid : Nat) (h : HeadersInput) :
    (traceOps fail).upsertChannelHeaders st cid h =
      tcallU fail StoreEv.upsertHeaders st := rfl

theorem traceOps_countChannelsBySource (fail : Nat → Bool) (st : TraceSt)
    (sid : Nat) :
    (traceOps fail).countChannelsBySource st sid =
      (0, (st.1 ++ [StoreEv.countChans], st.2 + 1)) := rfl

theorem traceOps_removeStaleChannels (fail : Nat → Bool) (st : TraceSt)
    (sid : Nat) (keep : List Nat) :
    (traceOps fail).removeStaleChannels st sid keep =
      tcall fail StoreEv.removeStale st := rfl

theorem traceOps_removeOrphanedGroups (fail : Nat → Bool) (st : TraceSt)
    (sid : Nat) :
    (traceOps fail).removeOrphanedGroups st sid =
      tcall fail StoreEv.removeOrphans st := rfl

theorem traceOps_updateSourceLastUpdated (fail : Nat → Bool) (st : TraceSt)
    (sid : Nat) :
    (traceOps fail).updateSourceLastUpdated st sid =
      tcallU fail StoreEv.touch st := rfl

/-- The phase rank of an event inside one run. -/
def evRank : StoreEv → Nat
  | StoreEv.createSource => 0
  | StoreEv.getGroup => 1
  | StoreEv.upsertChan => 1
  | StoreEv.upsertHeaders => 1
  | StoreEv.countChans => 2
  | StoreEv.removeStale => 3
  | StoreEv.removeOrphans => 4
  | StoreEv.touch => 5

/-- Whether an event belongs to the upsert loop. -/
def isLoopEv (e : StoreEv) : Prop :=
  e = StoreEv.getGroup ∨ e = StoreEv.upsertChan ∨ e = StoreEv.upsertHeaders

/-- Group resolution appends at most one `getGroup` event to the trace. -/
theorem resolveGroup_trace (fail : Nat → Bool) (sid : Nat) (e : Entry)
    (memo : List (String × Nat)) (st : TraceSt) :
    ∃ δ, (resolveGroup (traceOps fail) sid e memo st).2.1 = st.1 ++ δ ∧
      ∀ x ∈ δ, isLoopEv x := by
  rw [resolveGroup]
  rcases e.group with - | gname
  · exact ⟨[], by simp, fun x hx => absurd hx (List.not_mem_nil x)⟩
  · simp only
    by_cases hg : gname = ""
    · rw [if_pos hg]
      exact ⟨[], by simp, fun x hx => absurd hx (List.not_mem_nil x)⟩
    · rw [if_neg hg]
      rcases memo.lookup gname with - | gid
      · rw [traceOps_getOrCreateGroup, tcall]
        by_cases hf : fail st.2
        · rw [if_pos hf]
          exact ⟨[], by simp, fun x hx => absurd hx (List.not_mem_nil x)⟩
        · rw [if_neg hf]
          refine ⟨[StoreEv.getGroup], by simp, ?_⟩
          intro x hx
          rw [List.mem_singleton] at hx
          subst hx
          exact Or.inl rfl
      · exact ⟨[], by simp, fun x hx => absurd hx (List.not_mem_nil x)⟩

/-- The upsert loop only appends loop events to the trace. -/
theorem ingestLoop_trace (fail : Nat → Bool) (cancel : Nat → Bool) (sid : Nat) :
    ∀ (entries : List Entry) (st : TraceSt) (keep : List Nat)
      (memo : List (String × Nat)) (count : Nat),
      ∃ δ, (ingestLoop (traceOps fail) cancel sid entries st keep memo
          count).2.1 = st.1 ++ δ ∧ ∀ e ∈ δ, isLoopEv e := by
  intro entries
  induction entries with
  | nil =>
    intro st keep memo count
    exact ⟨[], by simp [ingestLoop], fun x hx => absurd hx (List.not_mem_nil x)⟩
  | cons e rest ih =>
    intro st keep memo count
    rw [ingestLoop]
    by_cases hc : cancel count
    · rw [if_pos hc]
      exact ⟨[], by simp, fun x hx => absurd hx (List.not_mem_nil x)⟩
    · rw [if_neg hc]
      obtain ⟨δ₁, hδ₁, hδ₁k⟩ := resolveGroup_trace fail sid e memo st
      rcases hres : resolveGroup (traceOps fail) sid e memo st with ⟨r, st₁⟩
      rw [hres] at hδ₁
      simp only at hδ₁
      rcases r with - | ⟨gid, memo'⟩
      · exact ⟨δ₁, hδ₁, hδ₁k⟩
      · simp only []
        rw [traceOps_upsertChannel, tcall]
        by_cases hf : fail st₁.2
        · rw [if_pos hf]
          exact ⟨δ₁, hδ₁, hδ₁k⟩
        · rw [if_neg hf]
          simp only []
          have hloopev : ∀ x ∈ δ₁ ++ [StoreEv.upsertChan], isLoopEv x := by
            intro x hx
            rcases List.mem_append.1 hx with hx | hx
            · exact hδ₁k x hx
            · rw [List.mem_singleton] at hx
              subst hx
              exact Or.inr (Or.inl rfl)
          rcases e.headers with - | h
          · simp only
            obtain ⟨δ₂, hδ₂, hδ₂k⟩ := ih (st₁.1 ++ [StoreEv.upsertChan], st₁.2 + 1)
              (keep ++ [st₁.2]) memo' (count + 1)
            refine ⟨δ₁ ++ [StoreEv.upsertChan] ++ δ₂, ?_, ?_⟩
            · rw [hδ₂]
              simp [hδ₁]
            · intro x hx
              rcases List.mem_append.1 hx with hx | hx
              · exact hloopev x hx
              · exact hδ₂k x hx
          · simp only []
            rw [traceOps_upsertChannelHeaders, tcallU]
            by_cases hf2 : fail (st₁.2 + 1)
            · rw [if_pos hf2]
              refine ⟨δ₁ ++ [StoreEv.upsertChan], by simp [hδ₁], hloopev⟩
            · rw [if_neg hf2]
              simp only []
              obtain ⟨δ₂, hδ₂, hδ₂k⟩ := ih
                ((st₁.1 ++ [StoreEv.upsertChan]) ++ [StoreEv.upsertHeaders],
                  st₁.2 + 1 + 1) (keep ++ [st₁.2]) memo' (count + 1)
              refine ⟨δ₁ ++ [StoreEv.upsertChan] ++ [StoreEv.upsertHeaders] ++ δ₂,
                ?_, ?_⟩
              · rw [hδ₂]
                simp [hδ₁]
              · intro x hx
                rcases List.mem_append.1 hx with hx | hx
                · rcases List.mem_append.1 hx with hx | hx
                  · exact hloopev x hx
                  · rw [List.mem_singleton] at hx
                    subst hx
                    exact Or.inr (Or.inr rfl)
                · exact hδ₂k x hx

end PV

namespace PV

/-- The shape of a full Ingest trace: a `createSource` event, the loop events,
then (as far as the run got) `countChans`, `removeStale`, `removeOrphans`,
and — exactly when the run returned success — `touch`. -/
theorem Ingest_trace_structure (fail cancel : Nat → Bool)
    (fetched : Option (List Entry)) (url name ua : String) :
    ∃ δ, (∀ e ∈ δ, isLoopEv e) ∧
      (((Ingest (traceOps fail) cancel fetched url name ua ([], 0)).1 = none ∧
        ((Ingest (traceOps fail) cancel fetched url name ua ([], 0)).2.1 = [] ∨
         (Ingest (traceOps fail) cancel fetched url name ua ([], 0)).2.1 =
           StoreEv.createSource :: δ ∨
         (Ingest (traceOps fail) cancel fetched url name ua ([], 0)).2.1 =
           StoreEv.createSource :: δ ++ [StoreEv.countChans] ∨
         (Ingest (traceOps fail) cancel fetched url name ua ([], 0)).2.1 =
           StoreEv.createSource :: δ ++ [StoreEv.countChans, StoreEv.removeStale] ∨
         (Ingest (traceOps fail) cancel fetched url name ua ([], 0)).2.1 =
           StoreEv.createSource :: δ ++
             [StoreEv.countChans, StoreEv.removeStale, StoreEv.removeOrphans])) ∨
       ((∃ p, (Ingest (traceOps fail) cancel fetched url name ua ([], 0)).1 =
           some p) ∧
        (Ingest (traceOps fail) cancel fetched url name ua ([], 0)).2.1 =
          StoreEv.createSource :: δ ++
            [StoreEv.countChans, StoreEv.removeStale, StoreEv.removeOrphans,
             StoreEv.touch])) := by
  rw [Ingest]
  by_cases hurl : url = ""
  · rw [if_pos hurl]
    exact ⟨[], fun x hx => absurd hx (List.not_mem_nil x), Or.inl ⟨rfl, Or.inl rfl⟩⟩
  · rw [if_neg hurl]
    rcases fetched with - | entries
    · exact ⟨[], fun x hx => absurd hx (List.not_mem_nil x), Or.inl ⟨rfl, Or.inl rfl⟩⟩
    · simp only [traceOps_createOrGetSource, tcall]
      by_cases hf0 : fail (([], 0) : TraceSt).2
      · rw [if_pos hf0]
        exact ⟨[], fun x hx => absurd hx (List.not_mem_nil x), Or.inl ⟨rfl, Or.inl rfl⟩⟩
      · rw [if_neg hf0]
        simp only [List.nil_append, Nat.zero_add]
        obtain ⟨δ, hδ, hδk⟩ := ingestLoop_trace fail cancel 0 entries
          ([StoreEv.createSource], 1) [] [] 0
        rcases hloop : ingestLoop (traceOps fail) cancel 0 entries
          ([StoreEv.createSource], 1) [] [] 0 with ⟨lr, st₂⟩
        rw [hloop] at hδ
        simp only [List.singleton_append] at hδ
        refine ⟨δ, hδk, ?_⟩
        rcases lr with - | ⟨keep, memo, cnt⟩
        · exact Or.inl ⟨rfl, Or.inr (Or.inl hδ)⟩
        · simp only [traceOps_countChannelsBySource]
          simp only [traceOps_removeStaleChannels, tcall]
          by_cases hf1 : fail (st₂.2 + 1)
          · rw [if_pos hf1]
            refine Or.inl ⟨rfl, Or.inr (Or.inr (Or.inl ?_))⟩
            simp [hδ]
          · rw [if_neg hf1]
            simp only [traceOps_removeOrphanedGroups, tcall]
            by_cases hf2 : fail (st₂.2 + 1 + 1)
            · rw [if_pos hf2]
              refine Or.inl ⟨rfl, Or.inr (Or.inr (Or.inr (Or.inl ?_)))⟩
              simp [hδ]
            · rw [if_neg hf2]
              simp only [traceOps_updateSourceLastUpdated, tcallU]
              by_cases hf3 : fail (st₂.2 + 1 + 1 + 1)
              · rw [if_pos hf3]
                refine Or.inl ⟨rfl, Or.inr (Or.inr (Or.inr (Or.inr ?_)))⟩
                simp [hδ]
              · rw [if_neg hf3]
                refine Or.inr ⟨⟨(0, cnt), rfl⟩, ?_⟩
                simp [hδ]

end PV

namespace PV

/-- Loop events sit strictly between source resolution and the prune/commit
phases. -/
theorem evRank_loop {e : StoreEv} (h : isLoopEv e) : evRank e = 1 := by
  rcases h with h | h | h <;> subst h <;> rfl

/-- The trace of a run is sorted by phase rank. -/
theorem Ingest_trace_sorted (fail cancel : Nat → Bool)
    (fetched : Option (List Entry)) (url name ua : String) :
    List.Pairwise (fun a b => evRank a ≤ evRank b)
      (Ingest (traceOps fail) cancel fetched url name ua ([], 0)).2.1 := by
  obtain ⟨δ, hδk, hstruct⟩ := Ingest_trace_structure fail cancel fetched url name ua
  have hparts : ∀ tail : List StoreEv,
      List.Pairwise (fun a b => evRank a ≤ evRank b) tail →
      (∀ e ∈ tail, 1 ≤ evRank e) →
      List.Pairwise (fun a b => evRank a ≤ evRank b)
        (StoreEv.createSource :: δ ++ tail) := by
    intro tail htail hge
    rw [List.pairwise_append]
    refine ⟨?_, htail, ?_⟩
    · rw [List.pairwise_cons]
      refine ⟨fun y _ => Nat.zero_le _, List.pairwise_of_forall_mem_list ?_⟩
      intro a ha b hb
      rw [evRank_loop (hδk a ha), evRank_loop (hδk b hb)]
    · intro a ha b hb
      rcases List.mem_cons.1 ha with h | h
      · subst h
        exact Nat.zero_le _
      · rw [evRank_loop (hδk a h)]
        exact hge b hb
  have h1 : ∀ e ∈ ([] : List StoreEv), 1 ≤ evRank e := fun e he => absurd he (List.not_mem_nil e)
  rcases hstruct with ⟨-, htr | htr | htr | htr | htr⟩ | ⟨-, htr⟩ <;> rw [htr]
  · exact List.Pairwise.nil
  · have := hparts [] List.Pairwise.nil h1
    simpa using this
  · exact hparts [StoreEv.countChans] (by decide) (by decide)
  · exact hparts [StoreEv.countChans, StoreEv.removeStale] (by decide) (by decide)
  · exact hparts [StoreEv.countChans, StoreEv.removeStale, StoreEv.removeOrphans]
      (by decide) (by decide)
  · exact hparts [StoreEv.countChans, StoreEv.removeStale, StoreEv.removeOrphans,
      StoreEv.touch] (by decide) (by decide)

/-- Splitting a rank-sorted trace at an occurrence bounds the ranks on both
sides. -/
theorem pairwise_rank_split (tr xs ys : List StoreEv) (a : StoreEv)
    (hp : List.Pairwise (fun a b => evRank a ≤ evRank b) tr)
    (h : tr = xs ++ a :: ys) :
    (∀ y ∈ xs, evRank y ≤ evRank a) ∧ (∀ y ∈ ys, evRank a ≤ evRank y) := by
  subst h
  obtain ⟨hxs, hcons, hcross⟩ := List.pairwise_append.1 hp
  rw [List.pairwise_cons] at hcons
  exact ⟨fun y hy => hcross y hy a (List.mem_cons_self a ys), hcons.1⟩

/-- C4: within one run the store operations are strictly phased — no channel
upsert after the stale prune, no stale prune or upsert after the orphan prune,
no prune or upsert after the last-sync stamp; the stamp is recorded only when
both prunes succeeded first (the trace holds successful calls only), and a run
that returns an error never records the stamp. -/
theorem C4_ingest_op_order (fail cancel : Nat → Bool)
    (fetched : Option (List Entry)) (url name ua : String) :
    (∀ xs ys, (Ingest (traceOps fail) cancel fetched url name ua ([], 0)).2.1 =
        xs ++ StoreEv.removeStale :: ys →
      StoreEv.upsertChan ∉ ys ∧ StoreEv.removeOrphans ∉ xs ∧
        StoreEv.touch ∉ xs) ∧
    (∀ xs ys, (Ingest (traceOps fail) cancel fetched url name ua ([], 0)).2.1 =
        xs ++ StoreEv.removeOrphans :: ys →
      StoreEv.removeStale ∉ ys ∧ StoreEv.upsertChan ∉ ys) ∧
    (∀ xs ys, (Ingest (traceOps fail) cancel fetched url name ua ([], 0)).2.1 =
        xs ++ StoreEv.touch :: ys →
      StoreEv.upsertChan ∉ ys ∧ StoreEv.removeStale ∉ ys ∧
        StoreEv.removeOrphans ∉ ys) ∧
    (StoreEv.touch ∈ (Ingest (traceOps fail) cancel fetched url name ua
        ([], 0)).2.1 →
      StoreEv.removeStale ∈ (Ingest (traceOps fail) cancel fetched url name ua
        ([], 0)).2.1 ∧
      StoreEv.removeOrphans ∈ (Ingest (traceOps fail) cancel fetched url name ua
        ([], 0)).2.1) ∧
    ((Ingest (traceOps fail) cancel fetched url name ua ([], 0)).1 = none →
      StoreEv.touch ∉ (Ingest (traceOps fail) cancel fetched url name ua
        ([], 0)).2.1) := by
  have hsorted := Ingest_trace_sorted fail cancel fetched url name ua
  obtain ⟨δ, hδk, hstruct⟩ := Ingest_trace_structure fail cancel fetched url name ua
  have hδtouch : StoreEv.touch ∉ δ := fun hm => by
    have := evRank_loop (hδk _ hm)
    simp [evRank] at this
  refine ⟨?_, ?_, ?_, ?_, ?_⟩
  · intro xs ys h
    obtain ⟨hl, hr⟩ := pairwise_rank_split _ xs ys _ hsorted h
    refine ⟨fun hm => ?_, fun hm => ?_, fun hm => ?_⟩
    · have := hr _ hm; simp [evRank] at this
    · have := hl _ hm; simp [evRank] at this
    · have := hl _ hm; simp [evRank] at this
  · intro xs ys h
    obtain ⟨-, hr⟩ := pairwise_rank_split _ xs ys _ hsorted h
    refine ⟨fun hm => ?_, fun hm => ?_⟩
    · have := hr _ hm; simp [evRank] at this
    · have := hr _ hm; simp [evRank] at this
  · intro xs ys h
    obtain ⟨-, hr⟩ := pairwise_rank_split _ xs ys _ hsorted h
    refine ⟨fun hm => ?_, fun hm => ?_, fun hm => ?_⟩
    · have := hr _ hm; simp [evRank] at this
    · have := hr _ hm; simp [evRank] at this
    · have := hr _ hm; simp [evRank] at this
  · intro htouch
    rcases hstruct with ⟨-, htr | htr | htr | htr | htr⟩ | ⟨-, htr⟩ <;>
      rw [htr] at htouch ⊢
    · cases htouch
    · rcases List.mem_cons.1 htouch with h | h
      · cases h
      · exact absurd h hδtouch
    all_goals
      first
      | (rcases List.mem_cons.1 htouch with h | h
         · cases h
         · rcases List.mem_append.1 h with h | h
           · exact absurd h hδtouch
           · simp at h)
      | (constructor <;> simp)
  · intro hres
    rcases hstruct with ⟨-, htr | htr | htr | htr | htr⟩ | ⟨⟨p, hp⟩, -⟩
    · rw [htr]; exact List.not_mem_nil _
    all_goals try {
      rw [htr]
      intro htouch
      rcases List.mem_cons.1 htouch with h | h
      · cases h
      · first
        | exact absurd h hδtouch
        | (rcases List.mem_append.1 h with h | h
           · exact absurd h hδtouch
           · simp at h) }
    rw [hp] at hres
    cases hres

end PV

namespace PV

/-- Witness for `C4_ingest_op_order`: a concrete successful one-entry run
whose trace stamps the sync time, hence performed both prunes. -/
theorem C4_ingest_op_order_witness :
    StoreEv.removeStale ∈ (Ingest (traceOps (fun _ => false)) (fun _ => false)
        (some [entryC7]) "u" "s" "" ([], 0)).2.1 ∧
    StoreEv.removeOrphans ∈ (Ingest (traceOps (fun _ => false)) (fun _ => false)
        (some [entryC7]) "u" "s" "" ([], 0)).2.1 :=
  (C4_ingest_op_order (fun _ => false) (fun _ => false) (some [entryC7])
    "u" "s" "").2.2.2.1 (by decide)

end PV

namespace PV

/-- A concrete channel row for the C7 witness. -/
def chanC7 : Channel :=
  { id := 1, name := "c", url := "u", image := none, mediaType := 0,
    sourceId := 1, groupId := none, favorite := false, embedding := none }

set_option maxRecDepth 8000 in
/-- Witness for `C7_stores_after_all_embeds`: with the first batch failing,
neither pipeline writes a single vector. -/
theorem C7_stores_after_all_embeds_witness :
    (generateEmbeddingsTrace (List.range 130) (List.replicate 130 entryC7)
        (fun _ => false)).filter isStore = [] ∧
    (RefreshEmbeddingsTrace [(chanC7, none)] (fun _ => false)).filter isStore =
      [] :=
  ⟨(C7_stores_after_all_embeds (List.range 130) (List.replicate 130 entryC7)
      [(chanC7, none)] (fun _ => false) (fun _ => false)).2.1 (by decide),
   (C7_stores_after_all_embeds (List.range 130) (List.replicate 130 entryC7)
      [(chanC7, none)] (fun _ => false) (fun _ => false)).2.2.2 (by decide)⟩

end PV

namespace PV

/-! ### C9: the `filterHash` cache key

`filterHash` renders the filter with
`fmt.Sprintf("%v|%v|%v|%v|%s|%d|%d", f.SourceID, f.GroupID, f.MediaType,
f.Favorite, f.Search, f.Limit, f.Offset)` and keys the cache on the truncated
SHA-256 of that string.  `SourceID`, `GroupID`, `MediaType` and `Favorite` are
**pointers** (`*int64`, `*int16`, `*bool`), and Go's `%v` on a pointer to a
scalar prints the pointer *address* (`0x…`), not the value — only `nil`
prints `<nil>`.  A Go pointer is therefore modelled as `Option (address ×
value)`, and the pre-hash string is modelled exactly; since SHA-256 is
injective on these strings short of a hash collision, key equality is decided
by this raw string. -/

/-- `store.ChannelFilter` as Ingest's HTTP layer builds it: each optional
filter is a pointer (allocation address paired with the pointed-to value). -/
structure ChannelFilter where
  sourceId : Option (Nat × Nat)
  groupId : Option (Nat × Nat)
  mediaType : Option (Nat × Int)
  favorite : Option (Nat × Bool)
  search : String
  limit : Int
  offset : Int
deriving Repr, DecidableEq

/-- Go `%v` of a pointer to a scalar: the hex address, or `<nil>`. -/
def fmtPtr (p : Option (Nat × α)) : String :=
  match p with
  | none => "<nil>"
  | some (addr, _) => "0x" ++ String.mk (Nat.toDigits 16 addr)

/-- The string `filterHash` feeds to SHA-256. -/
def filterHashRaw (f : ChannelFilter) : String :=
  fmtPtr f.sourceId ++ "|" ++ fmtPtr f.groupId ++ "|" ++ fmtPtr f.mediaType ++
    "|" ++ fmtPtr f.favorite ++ "|" ++ f.search ++ "|" ++ toString f.limit ++
    "|" ++ toString f.offset

/-- The value tuple of a filter — what the claim says the key is a function
of. -/
def filterValues (f : ChannelFilter) :
    Option Nat × Option Nat × Option Int × Option Bool × String × Int × Int :=
  (f.sourceId.map Prod.snd, f.groupId.map Prod.snd, f.mediaType.map Prod.snd,
   f.favorite.map Prod.snd, f.search, f.limit, f.offset)

/-- Two filters with identical field values whose `SourceID` pointers live at
different addresses. -/
def filterA : ChannelFilter :=
  { sourceId := some (10, 42), groupId := none, mediaType := none,
    favorite := none, search := "", limit := 50, offset := 0 }

def filterB : ChannelFilter :=
  { sourceId := some (11, 42), groupId := none, mediaType := none,
    favorite := none, search := "", limit := 50, offset := 0 }

/-- C9 (code bug): `filterHash` is **not** a deterministic function of the
filter's field values — two filters with pairwise-equal source/group/media/
favorite targets, search substring, limit and offset feed *different* strings
to SHA-256 when a pointer field is allocated at a different address, so their
cache keys differ (short of a SHA-256 collision).  This contradicts the
function's own doc comment ("a short deterministic hash for a
ChannelFilter"). -/
theorem C9_filterHash_address_dependent :
    filterValues filterA = filterValues filterB ∧
    filterHashRaw filterA ≠ filterHashRaw filterB := by
  constructor
  · rfl
  · decide

end PV

namespace PV

/-! ### C8: cache invalidation in the `CachedStore` decorator

The Redis cache is a pure key/value map.  The decorator is modelled exactly
as in Go: each method wraps an abstract inner `Store` (a record of
operations, like the Go interface), serves reads from the cache when the key
is present, and deletes the listed keys/glob patterns after a successful
write.  The hash helpers feed `fmt`-rendered strings to truncated SHA-256;
since distinct keys are what matters, the model keys the cache on the
pre-hash strings themselves. -/

inductive CacheVal where
  | sourcesV : List Source → CacheVal
  | sourceV : Source → CacheVal
  | channelsV : List Channel → Nat → CacheVal
  | channelV : Channel → CacheVal
  | groupsV : List Group → CacheVal
  | searchV : List (Channel × Int) → CacheVal
deriving Repr, DecidableEq

/-- The Redis keyspace: an association map from key to cached JSON value. -/
abbrev Cache := List (String × CacheVal)

/-- `cache.Get`. -/
def cacheGet (c : Cache) (k : String) : Option CacheVal := c.lookup k

/-- `cache.Set` (TTLs only bound staleness and are not modelled). -/
def cacheSet (c : Cache) (k : String) (v : CacheVal) : Cache :=
  (k, v) :: c.filter (fun kv => !(kv.1 == k))

/-- `cache.Del`: delete exact keys. -/
def cacheDel (c : Cache) (ks : List String) : Cache :=
  c.filter (fun kv => !(ks.contains kv.1))

/-- Redis glob match, for the patterns the decorator uses (a fixed stem
followed by `*`); written over the character lists so it evaluates inside the
kernel. -/
def globMatch (pat key : String) : Bool :=
  if pat.data.getLast? == some '*' then pat.data.dropLast.isPrefixOf key.data
  else pat == key

/-- `cache.DelPattern` over each pattern (SCAN + DEL). -/
def cacheDelPattern (c : Cache) (pats : List String) : Cache :=
  c.filter (fun kv => !(pats.any (fun p => globMatch p kv.1)))

/-- The slice of the `store.Store` interface the modelled decorator methods
use, over an abstract state `σ` (the Go `CachedStore.inner` field). -/
structure InnerStore (σ : Type) where
  upsertChannel : σ → ChannelInput → Option Nat × σ
  toggleChannelFavorite : σ → Nat → Bool → Option Unit × σ
  semanticSearch : σ → Vec → ChannelFilter → Option (List (Channel × Int)) × σ

/-- `CachedStore.SemanticSearch`: key `search:{vecHash}:{filterHash}`, serve
from cache on a hit, else delegate and fill the cache. -/
def CachedSemanticSearch (inner : InnerStore σ) (vh : Vec → String)
    (fh : ChannelFilter → String) (st : σ) (cache : Cache) (queryVec : Vec)
    (filter : ChannelFilter) : Option (List (Channel × Int)) × σ × Cache :=
  let key := "search:" ++ vh queryVec ++ ":" ++ fh filter
  match cacheGet cache key with
  | some (CacheVal.searchV r) => (some r, st, cache)
  | _ =>
    match inner.semanticSearch st queryVec filter with
    | (none, st) => (none, st, cache)
    | (some results, st) =>
      (some results, st, cacheSet cache key (CacheVal.searchV results))

/-- `CachedStore.ToggleChannelFavorite`: delegate, then invalidate
`channel:{id}` and the `channels:*` family — and nothing else. -/
def CachedToggleChannelFavorite (inner : InnerStore σ) (st : σ) (cache : Cache)
    (channelId : Nat) (favorite : Bool) : Option Unit × σ × Cache :=
  match inner.toggleChannelFavorite st channelId favorite with
  | (none, st) => (none, st, cache)
  | (some _, st) =>
    (some (), st,
      cacheDelPattern (cacheDel cache ["channel:" ++ toString channelId])
        ["channels:*"])

/-- `CachedStore.UpsertChannel`: delegate, then invalidate `channel:{id}` and
the `channels:*` family — and nothing else. -/
def CachedUpsertChannel (inner : InnerStore σ) (st : σ) (cache : Cache)
    (ch : ChannelInput) : Option Nat × σ × Cache :=
  match inner.upsertChannel st ch with
  | (none, st) => (none, st, cache)
  | (some id, st) =>
    (some id, st,
      cacheDelPattern (cacheDel cache ["channel:" ++ toString id])
        ["channels:*"])

/-- The filter predicate of `SemanticSearch`'s WHERE clause (source, group,
media type and favorite only — no name search). -/
def passesFilter (f : ChannelFilter) (c : Channel) : Bool :=
  (match f.sourceId with | some p => c.sourceId == p.2 | none => true) &&
  (match f.groupId with | some p => c.groupId == some p.2 | none => true) &&
  (match f.mediaType with | some p => c.mediaType == p.2 | none => true) &&
  (match f.favorite with | some p => c.favorite == p.2 | none => true)

/-- A stable sort (`ORDER BY`), structural so it evaluates in the kernel. -/
def insertBy (le : α → α → Bool) (a : α) : List α → List α
  | [] => [a]
  | b :: bs => if le a b then a :: b :: bs else b :: insertBy le a bs

def sortBy (le : α → α → Bool) : List α → List α
  | [] => []
  | a :: as => insertBy le a (sortBy le as)

/-- `Postgres.SemanticSearch`: channels with a non-null embedding matching the
filter, ordered by vector distance to the query (the pgvector `<=>` operator
is an abstract distance `dist`), similarity `1 - distance`, limit applied
(default 50, cap 200). -/
def SemanticSearch (db : DB) (dist : Vec → Vec → Int) (queryVec : Vec)
    (f : ChannelFilter) : List (Channel × Int) :=
  let limit := if f.limit ≤ 0 then (50 : Int) else if 200 < f.limit then 200 else f.limit
  let rows := db.channels.filter (fun c => c.embedding.isSome && passesFilter f c)
  let sorted := sortBy (fun a b =>
    dist (a.embedding.getD []) queryVec ≤ dist (b.embedding.getD []) queryVec) rows
  (sorted.map (fun c => (c, 1 - dist (c.embedding.getD []) queryVec))).take
    limit.toNat

/-- The rendered string fed to SHA-256 by `vecHash` (`fmt "%v"` of the
vector). -/
def vecHashRaw (v : Vec) : String := toString v

/-- The Postgres store as the decorator's inner store. -/
def dbInner (dist : Vec → Vec → Int) : InnerStore DB where
  upsertChannel := fun db ch =>
    let (id, db) := UpsertChannel db ch
    (some id, db)
  toggleChannelFavorite := fun db cid fav =>
    match ToggleChannelFavorite db cid fav with
    | some db => (some (), db)
    | none => (none, db)
  semanticSearch := fun db qv f => (some (SemanticSearch db dist qv f), db)

end PV

namespace PV

/-- One favorite-able channel with an embedding, for the C8 scenario. -/
def chanC8 : Channel :=
  { id := 1, name := "n", url := "u", image := none, mediaType := 0,
    sourceId := 1, groupId := none, favorite := false, embedding := some [1] }

def dbC8 : DB :=
  { sources := [], groups := [], channels := [chanC8], headers := [],
    nextSourceId := 2, nextGroupId := 1, nextChannelId := 2 }

def filterC8 : ChannelFilter :=
  { sourceId := none, groupId := none, mediaType := none, favorite := none,
    search := "", limit := 50, offset := 0 }

def distC8 : Vec → Vec → Int := fun _ _ => 0

/-- Scenario: similarity search (fills the cache), then toggle the channel's
favorite flag, then repeat the identical search. -/
def c8Run1 : Option (List (Channel × Int)) × DB × Cache :=
  CachedSemanticSearch (dbInner distC8) vecHashRaw filterHashRaw dbC8 []
    [1] filterC8

def c8Run2 : Option Unit × DB × Cache :=
  CachedToggleChannelFavorite (dbInner distC8) c8Run1.2.1 c8Run1.2.2 1 true

def c8Run3 : Option (List (Channel × Int)) × DB × Cache :=
  CachedSemanticSearch (dbInner distC8) vecHashRaw filterHashRaw c8Run2.2.1
    c8Run2.2.2 [1] filterC8

/-- C8 counterexample: after `ToggleChannelFavorite` has returned, the same
similarity search issued through the decorator still returns the pre-write
row (`favorite = false`) from the cache, although the store now says
`favorite = true` — the toggle invalidates `channel:{id}` and `channels:*`
but **no** similarity-search cache key. -/
theorem C8_counterexample :
    c8Run3.1 = some [(chanC8, 1)] ∧
    chanC8.favorite = false ∧
    c8Run2.2.1.channels.map Channel.favorite = [true] ∧
    c8Run2.2.2 = c8Run1.2.2 ∧
    c8Run1.2.2 ≠ [] := by
  refine ⟨by decide, rfl, by decide, by decide, by decide⟩

/-- C8 (amended): a successful favorite toggle or channel upsert invalidates
exactly the single `channel:{id}` key and the `channels:*` family before
returning; every other cache entry — similarity-search keys included — is
left in place, so channel-by-id and channel-list reads after the write are
consistent while `search:*` entries may keep serving pre-write data until
their TTL. -/
theorem C8_channel_write_invalidation (σ : Type) (inner : InnerStore σ)
    (st₁ st₁' st₂ st₂' : σ) (cache : Cache) (cid rid : Nat) (fav : Bool)
    (ch : ChannelInput)
    (h1 : inner.toggleChannelFavorite st₁ cid fav = (some (), st₁'))
    (h2 : inner.upsertChannel st₂ ch = (some rid, st₂')) :
    CachedToggleChannelFavorite inner st₁ cache cid fav =
      (some (), st₁', cache.filter (fun kv =>
        !(kv.1 == "channel:" ++ toString cid) &&
        !("channels:".data.isPrefixOf kv.1.data))) ∧
    CachedUpsertChannel inner st₂ cache ch =
      (some rid, st₂', cache.filter (fun kv =>
        !(kv.1 == "channel:" ++ toString rid) &&
        !("channels:".data.isPrefixOf kv.1.data))) := by
  have hg : ∀ k, globMatch "channels:*" k = "channels:".data.isPrefixOf k.data := by
    intro k
    rw [globMatch,
      if_pos (show ("channels:*".data.getLast? == some '*') = true by decide),
      show "channels:*".data.dropLast = "channels:".data from by decide]
  have hcachekey : ∀ (key : String),
      cacheDelPattern (cacheDel cache [key]) ["channels:*"] =
      cache.filter (fun kv =>
        !(kv.1 == key) && !("channels:".data.isPrefixOf kv.1.data)) := by
    intro key
    rw [cacheDelPattern, cacheDel, List.filter_filter]
    refine List.filter_congr fun kv _ => ?_
    have hc : ([key].contains kv.1) = (kv.1 == key) := by
      show (kv.1 == key || [].elem kv.1) = (kv.1 == key)
      simp
    rw [hc]
    have ha : (["channels:*"].any fun p => globMatch p kv.1) =
        "channels:".data.isPrefixOf kv.1.data := by
      rw [List.any_cons, List.any_nil, hg, Bool.or_false]
    rw [ha, Bool.and_comm]
  constructor
  · rw [CachedToggleChannelFavorite, h1]
    simp only []
    rw [hcachekey]
  · rw [CachedUpsertChannel, h2]
    simp only []
    rw [hcachekey]

/-- A three-family cache and the post-write stores for the C8 witness. -/
def cacheC8 : Cache :=
  [("search:x", CacheVal.searchV []), ("channels:abc", CacheVal.channelsV [] 0),
   ("channel:1", CacheVal.channelV chanC8)]

def dbC8Fav : DB :=
  { dbC8 with channels := [{ chanC8 with favorite := true }] }

theorem C8_channel_write_invalidation_witness :
    CachedToggleChannelFavorite (dbInner distC8) dbC8 cacheC8 1 true =
      (some (), dbC8Fav, cacheC8.filter (fun kv =>
        !(kv.1 == "channel:" ++ toString 1) &&
        !("channels:".data.isPrefixOf kv.1.data))) :=
  (C8_channel_write_invalidation DB (dbInner distC8) dbC8 dbC8Fav dbC8 dbC8
    cacheC8 1 1 true
    { name := "n", image := none, url := "u", mediaType := 0, sourceId := 1,
      groupId := none, favorite := true }
    (by decide) (by decide)).1

end PV

namespace PV

/-! ### C1/C2: reconciliation idempotence

The development characterises one Ingest run over the pure store `dbOps`:
the upsert loop rewrites the rows whose `(name, source, url)` key occurs in
the feed to the values of the *last* entry with that key, appends fresh rows
for unseen keys, and memoises group resolution; the prunes then cut the
tables back to exactly the feed.  Idempotence follows because a second run
over the pruned state performs only identity rewrites. -/

/-- The channel key entry `e` upserts under source `sid`. -/
def ekey (sid : Nat) (e : Entry) : String × Nat × String := (e.name, sid, e.url)

/-- The group name the loop associates to an entry (`nil` and `""` mean no
group). -/
def entryGroup (e : Entry) : Option String :=
  match e.group with
  | some g => if g = "" then none else some g
  | none => none

/-- The group id the loop links for entry `e` under memo map `m`. -/
def resolveEntryGid (m : List (String × Nat)) (e : Entry) : Option Nat :=
  match entryGroup e with
  | none => none
  | some g => m.lookup g

/-- The last entry of `r` with channel key `k` (later entries overwrite
earlier ones at the same key). -/
def lastEntry (sid : Nat) (r : List Entry) (k : String × Nat × String) :
    Option Entry :=
  r.foldl (fun acc e => if ekey sid e == k then some e else acc) none

/-- The first entry of `E` carrying group `g` (its image is what the run
passes to `GetOrCreateGroup`). -/
def firstEntryWithGroup (E : List Entry) (g : String) : Option Entry :=
  E.find? (fun e => entryGroup e == some g)

/-- What the whole remaining feed `r` does to one stored channel row: rewrite
display fields to the last entry with the row's key (favorite and embedding
are never touched), or leave the row alone. -/
def rwLast (sid : Nat) (r : List Entry) (m : List (String × Nat))
    (c : Channel) : Channel :=
  match lastEntry sid r (c.key) with
  | some e => { c with image := e.image, mediaType := e.mediaType,
                       groupId := resolveEntryGid m e }
  | none => c

/-- What the remaining feed does to one stored group row: when the row's name
is newly memoised by this part of the run, its image is coalesced with the
image of the first feed entry in that group; otherwise nothing. -/
def gUpd (sid : Nat) (E : List Entry) (m m' : List (String × Nat))
    (G : Group) : Group :=
  if G.sourceId == sid && (m.lookup G.name).isNone &&
      (m'.lookup G.name).isSome then
    match firstEntryWithGroup E G.name with
    | some e₀ => { G with image := coalesce e₀.image G.image }
    | none => G
  else G

theorem lastEntry_nil (sid : Nat) (k : String × Nat × String) :
    lastEntry sid [] k = none := rfl

/-- Folding the last-entry accumulator from an arbitrary start. -/
theorem foldl_lastEntry (sid : Nat) (r : List Entry) (k : String × Nat × String) :
    ∀ init : Option Entry,
      r.foldl (fun acc e => if ekey sid e == k then some e else acc) init =
      match lastEntry sid r k with
      | some e => some e
      | none => init := by
  induction r with
  | nil => intro init; simp [lastEntry]
  | cons e rest ih =>
    intro init
    show rest.foldl _ (if ekey sid e == k then some e else init) = _
    rw [ih]
    have h : lastEntry sid (e :: rest) k =
        match lastEntry sid rest k with
        | some e' => some e'
        | none => if ekey sid e == k then some e else none := by
      show rest.foldl _ (if ekey sid e == k then some e else none) = _
      rw [ih]
    rw [h]
    cases lastEntry sid rest k with
    | some e' => rfl
    | none => by_cases he : ekey sid e == k <;> simp [he]

theorem lastEntry_cons (sid : Nat) (e : Entry) (rest : List Entry)
    (k : String × Nat × String) :
    lastEntry sid (e :: rest) k =
      match lastEntry sid rest k with
      | some e' => some e'
      | none => if ekey sid e == k then some e else none := by
  show rest.foldl _ (if ekey sid e == k then some e else none) = _
  rw [foldl_lastEntry]

/-- A key has a last entry iff it occurs in the feed. -/
theorem lastEntry_isSome_iff (sid : Nat) (r : List Entry)
    (k : String × Nat × String) :
    (lastEntry sid r k).isSome ↔ k ∈ r.map (ekey sid) := by
  induction r with
  | nil => simp [lastEntry]
  | cons e rest ih =>
    rw [lastEntry_cons]
    cases h : lastEntry sid rest k with
    | some e' =>
      simp only [Option.isSome_some, true_iff]
      rw [List.map_cons, List.mem_cons]
      exact Or.inr (ih.1 (by rw [h]; rfl))
    | none =>
      rw [List.map_cons, List.mem_cons]
      constructor
      · intro hs
        by_cases he : ekey sid e == k
        · exact Or.inl (by simpa using (beq_iff_eq.1 he).symm)
        · rw [if_neg (by simpa using he)] at hs
          cases hs
      · intro hm
        rcases hm with hm | hm
        · rw [if_pos (beq_iff_eq.2 hm.symm)]
          rfl
        · exact absurd (ih.2 hm) (by rw [h]; simp)

/-- The last entry with key `k` itself has key `k`. -/
theorem lastEntry_key (sid : Nat) (r : List Entry) (k : String × Nat × String)
    (e : Entry) (h : lastEntry sid r k = some e) : ekey sid e = k ∧ e ∈ r := by
  induction r with
  | nil => cases h
  | cons e' rest ih =>
    rw [lastEntry_cons] at h
    cases h' : lastEntry sid rest k with
    | some e'' =>
      rw [h'] at h
      injection h with h2
      subst h2
      obtain ⟨h1, h3⟩ := ih h'
      exact ⟨h1, List.mem_cons_of_mem _ h3⟩
    | none =>
      rw [h'] at h
      by_cases he : ekey sid e' == k
      · rw [if_pos he] at h
        injection h with h
        subst h
        exact ⟨beq_iff_eq.1 he, List.mem_cons_self _ _⟩
      · rw [if_neg he] at h
        cases h

end PV

namespace PV

theorem dbOps_createOrGetSource (now : Nat) (db : DB) (a b : String) (c : Int)
    (d : String) :
    (dbOps now).createOrGetSource db a b c d =
      (some (CreateOrGetSource db a b c d).1, (CreateOrGetSource db a b c d).2) := rfl

theorem dbOps_getOrCreateGroup (now : Nat) (db : DB) (sid : Nat) (g : String)
    (img : Option String) :
    (dbOps now).getOrCreateGroup db sid g img =
      (some (GetOrCreateGroup db sid g img).1, (GetOrCreateGroup db sid g img).2) := rfl

theorem dbOps_upsertChannel (now : Nat) (db : DB) (ch : ChannelInput) :
    (dbOps now).upsertChannel db ch =
      (some (UpsertChannel db ch).1, (UpsertChannel db ch).2) := rfl

theorem dbOps_upsertChannelHeaders (now : Nat) (db : DB) (cid : Nat)
    (h : HeadersInput) :
    (dbOps now).upsertChannelHeaders db cid h =
      (some (), UpsertChannelHeaders db cid h) := rfl

theorem dbOps_removeStaleChannels (now : Nat) (db : DB) (sid : Nat)
    (keep : List Nat) :
    (dbOps now).removeStaleChannels db sid keep =
      (some (RemoveStaleChannels db sid keep).1,
        (RemoveStaleChannels db sid keep).2) := rfl

theorem dbOps_removeOrphanedGroups (now : Nat) (db : DB) (sid : Nat) :
    (dbOps now).removeOrphanedGroups db sid =
      (some (RemoveOrphanedGroups db sid).1, (RemoveOrphanedGroups db sid).2) := rfl

theorem dbOps_updateSourceLastUpdated (now : Nat) (db : DB) (sid : Nat) :
    (dbOps now).updateSourceLastUpdated db sid =
      (some (), UpdateSourceLastUpdated db sid now) := rfl

theorem dbOps_countChannelsBySource (now : Nat) (db : DB) (sid : Nat) :
    (dbOps now).countChannelsBySource db sid =
      (CountChannelsBySource db sid, db) := rfl

/-- The key predicate of `UpsertChannel` for the input the loop builds is the
channel-key comparison. -/
theorem entryInput_match (sid : Nat) (e : Entry) (gid : Option Nat)
    (c : Channel) :
    (c.name == (entryInput sid e gid).name &&
     c.sourceId == (entryInput sid e gid).sourceId &&
     c.url == (entryInput sid e gid).url) = (c.key == ekey sid e) := by
  rw [Bool.eq_iff_iff]
  simp [entryInput, Channel.key, ekey, Prod.ext_iff, and_assoc]

theorem UpsertChannel_found (db : DB) (ch : ChannelInput) (c : Channel)
    (h : db.channels.find? (fun c =>
      c.name == ch.name && c.sourceId == ch.sourceId && c.url == ch.url) =
      some c) :
    UpsertChannel db ch = (c.id,
      { db with channels := db.channels.map (fun d =>
          if d.name == ch.name && d.sourceId == ch.sourceId && d.url == ch.url
          then
            { d with image := ch.image, mediaType := ch.mediaType,
                     groupId := ch.groupId }
          else d) }) := by
  rw [UpsertChannel, h]

theorem UpsertChannel_new (db : DB) (ch : ChannelInput)
    (h : db.channels.find? (fun c =>
      c.name == ch.name && c.sourceId == ch.sourceId && c.url == ch.url) =
      none) :
    UpsertChannel db ch = (db.nextChannelId,
      { db with
        channels := db.channels ++
          [{ id := db.nextChannelId, name := ch.name, url := ch.url,
             image := ch.image, mediaType := ch.mediaType,
             sourceId := ch.sourceId, groupId := ch.groupId,
             favorite := ch.favorite, embedding := none }],
        nextChannelId := db.nextChannelId + 1 }) := by
  rw [UpsertChannel, h]

theorem GetOrCreateGroup_found (db : DB) (sid : Nat) (g : String)
    (img : Option String) (G : Group)
    (h : db.groups.find? (fun h => h.name == g && h.sourceId == sid) = some G) :
    GetOrCreateGroup db sid g img = (G.id,
      { db with groups := db.groups.map (fun h =>
          if h.name == g && h.sourceId == sid then
            { h with image := coalesce img h.image }
          else h) }) := by
  rw [GetOrCreateGroup, h]

theorem GetOrCreateGroup_new (db : DB) (sid : Nat) (g : String)
    (img : Option String)
    (h : db.groups.find? (fun h => h.name == g && h.sourceId == sid) = none) :
    GetOrCreateGroup db sid g img = (db.nextGroupId,
      { db with
        groups := db.groups ++
          [{ id := db.nextGroupId, name := g, image := img, sourceId := sid }],
        nextGroupId := db.nextGroupId + 1 }) := by
  rw [GetOrCreateGroup, h]

/-- `resolveGroup` over the pure store, phrased through `entryGroup`. -/
theorem resolveGroup_dbOps (now sid : Nat) (e : Entry)
    (memo : List (String × Nat)) (db : DB) :
    resolveGroup (dbOps now) sid e memo db =
      match entryGroup e with
      | none => (some (none, memo), db)
      | some g =>
        match memo.lookup g with
        | some gid => (some (some gid, memo), db)
        | none =>
          (some (some (GetOrCreateGroup db sid g e.image).1,
            (g, (GetOrCreateGroup db sid g e.image).1) :: memo),
           (GetOrCreateGroup db sid g e.image).2) := by
  rw [resolveGroup, entryGroup]
  rcases e.group with - | g
  · rfl
  · simp only
    by_cases hg : g = ""
    · rw [if_pos hg, if_pos hg]
    · rw [if_neg hg, if_neg hg]
      simp only
      rcases memo.lookup g with - | gid
      · rw [dbOps_getOrCreateGroup]
      · rfl

end PV

namespace PV

theorem chan_pred_iff (ch : ChannelInput) (d : Channel) :
    (d.name == ch.name && d.sourceId == ch.sourceId && d.url == ch.url) = true ↔
    d.key = (ch.name, ch.sourceId, ch.url) := by
  simp [Channel.key, Prod.ext_iff, and_assoc]

theorem grp_pred_iff (g : String) (sid : Nat) (G : Group) :
    (G.name == g && G.sourceId == sid) = true ↔ G.key = (g, sid) := by
  simp [Group.key, Prod.ext_iff]

theorem WF_upsertChannel (db : DB) (ch : ChannelInput) (hwf : WF db) :
    WF (UpsertChannel db ch).2 := by
  rcases hfind : db.channels.find? (fun c =>
      c.name == ch.name && c.sourceId == ch.sourceId && c.url == ch.url)
    with - | c
  · rw [UpsertChannel_new db ch hfind]
    have hnew : ∀ d ∈ db.channels, ¬(d.key = (ch.name, ch.sourceId, ch.url)) := by
      intro d hd hk
      have := List.find?_eq_none.1 hfind d hd
      exact this ((chan_pred_iff ch d).2 hk)
    refine ⟨?_, ?_, ?_, hwf.grpIdsNodup, hwf.grpIdsLt, hwf.grpKeysNodup,
      hwf.srcIdsNodup, hwf.srcIdsLt, hwf.srcNamesNodup⟩
    · rw [List.map_append, List.nodup_append]
      refine ⟨hwf.chanIdsNodup, by simp, ?_⟩
      intro i hi
      simp only [List.map_cons, List.map_nil, List.mem_singleton]
      obtain ⟨d, hd, rfl⟩ := List.mem_map.1 hi
      intro he
      exact absurd (he ▸ hwf.chanIdsLt d hd) (lt_irrefl _)
    · intro d hd
      rcases List.mem_append.1 hd with hd | hd
      · exact Nat.lt_succ_of_lt (hwf.chanIdsLt d hd)
      · rw [List.mem_singleton] at hd
        subst hd
        exact Nat.lt_succ_self _
    · rw [List.map_append, List.nodup_append]
      refine ⟨hwf.chanKeysNodup, by simp, ?_⟩
      intro k hk
      simp only [List.map_cons, List.map_nil, List.mem_singleton]
      obtain ⟨d, hd, rfl⟩ := List.mem_map.1 hk
      intro he
      exact hnew d hd (by rw [he]; rfl)
  · rw [UpsertChannel_found db ch c hfind]
    have hid : ∀ d : Channel,
        (if d.name == ch.name && d.sourceId == ch.sourceId && d.url == ch.url
         then { d with image := ch.image, mediaType := ch.mediaType,
                       groupId := ch.groupId } else d).id = d.id := by
      intro d
      by_cases hd : d.name == ch.name && d.sourceId == ch.sourceId && d.url == ch.url <;>
        simp [hd]
    have hkey : ∀ d : Channel,
        (if d.name == ch.name && d.sourceId == ch.sourceId && d.url == ch.url
         then { d with image := ch.image, mediaType := ch.mediaType,
                       groupId := ch.groupId } else d).key = d.key := by
      intro d
      by_cases hd : d.name == ch.name && d.sourceId == ch.sourceId && d.url == ch.url <;>
        simp [hd, Channel.key]
    refine ⟨?_, ?_, ?_, hwf.grpIdsNodup, hwf.grpIdsLt, hwf.grpKeysNodup,
      hwf.srcIdsNodup, hwf.srcIdsLt, hwf.srcNamesNodup⟩
    · rw [List.map_map]
      rw [show (Channel.id ∘ fun d =>
          if d.name == ch.name && d.sourceId == ch.sourceId && d.url == ch.url
          then { d with image := ch.image, mediaType := ch.mediaType,
                        groupId := ch.groupId } else d) =
          Channel.id from funext fun d => hid d]
      exact hwf.chanIdsNodup
    · intro d hd
      obtain ⟨d₀, hd₀, rfl⟩ := List.mem_map.1 hd
      rw [hid d₀]
      exact hwf.chanIdsLt d₀ hd₀
    · rw [List.map_map]
      rw [show (Channel.key ∘ fun d =>
          if d.name == ch.name && d.sourceId == ch.sourceId && d.url == ch.url
          then { d with image := ch.image, mediaType := ch.mediaType,
                        groupId := ch.groupId } else d) =
          Channel.key from funext fun d => hkey d]
      exact hwf.chanKeysNodup

theorem WF_getOrCreateGroup (db : DB) (sid : Nat) (g : String)
    (img : Option String) (hwf : WF db) :
    WF (GetOrCreateGroup db sid g img).2 := by
  rcases hfind : db.groups.find? (fun h => h.name == g && h.sourceId == sid)
    with - | G
  · rw [GetOrCreateGroup_new db sid g img hfind]
    have hnew : ∀ G ∈ db.groups, ¬(G.key = (g, sid)) := by
      intro G hG hk
      exact (List.find?_eq_none.1 hfind G hG) ((grp_pred_iff g sid G).2 hk)
    refine ⟨hwf.chanIdsNodup, hwf.chanIdsLt, hwf.chanKeysNodup, ?_, ?_, ?_,
      hwf.srcIdsNodup, hwf.srcIdsLt, hwf.srcNamesNodup⟩
    · rw [List.map_append, List.nodup_append]
      refine ⟨hwf.grpIdsNodup, by simp, ?_⟩
      intro i hi
      simp only [List.map_cons, List.map_nil, List.mem_singleton]
      obtain ⟨G, hG, rfl⟩ := List.mem_map.1 hi
      intro he
      exact absurd (he ▸ hwf.grpIdsLt G hG) (lt_irrefl _)
    · intro G hG
      rcases List.mem_append.1 hG with hG | hG
      · exact Nat.lt_succ_of_lt (hwf.grpIdsLt G hG)
      · rw [List.mem_singleton] at hG
        subst hG
        exact Nat.lt_succ_self _
    · rw [List.map_append, List.nodup_append]
      refine ⟨hwf.grpKeysNodup, by simp, ?_⟩
      intro k hk
      simp only [List.map_cons, List.map_nil, List.mem_singleton]
      obtain ⟨G, hG, rfl⟩ := List.mem_map.1 hk
      intro he
      exact hnew G hG (by rw [he]; rfl)
  · rw [GetOrCreateGroup_found db sid g img G hfind]
    have hid : ∀ H : Group,
        (if H.name == g && H.sourceId == sid
         then { H with image := coalesce img H.image } else H).id = H.id := by
      intro H
      by_cases hH : H.name == g && H.sourceId == sid <;> simp [hH]
    have hkey : ∀ H : Group,
        (if H.name == g && H.sourceId == sid
         then { H with image := coalesce img H.image } else H).key = H.key := by
      intro H
      by_cases hH : H.name == g && H.sourceId == sid <;> simp [hH, Group.key]
    refine ⟨hwf.chanIdsNodup, hwf.chanIdsLt, hwf.chanKeysNodup, ?_, ?_, ?_,
      hwf.srcIdsNodup, hwf.srcIdsLt, hwf.srcNamesNodup⟩
    · rw [List.map_map,
        show (Group.id ∘ fun H => if H.name == g && H.sourceId == sid
          then { H with image := coalesce img H.image } else H) = Group.id
          from funext fun H => hid H]
      exact hwf.grpIdsNodup
    · intro G' hG'
      obtain ⟨G₀, hG₀, rfl⟩ := List.mem_map.1 hG'
      rw [hid G₀]
      exact hwf.grpIdsLt G₀ hG₀
    · rw [List.map_map,
        show (Group.key ∘ fun H => if H.name == g && H.sourceId == sid
          then { H with image := coalesce img H.image } else H) = Group.key
          from funext fun H => hkey H]
      exact hwf.grpKeysNodup

theorem WF_createOrGetSource (db : DB) (name url : String) (ty : Int)
    (ua : String) (hwf : WF db) :
    WF (CreateOrGetSource db name url ty ua).2 := by
  rcases hfind : db.sources.find? (fun s => s.name == name) with - | s
  · rw [CreateOrGetSource, hfind]
    refine ⟨hwf.chanIdsNodup, hwf.chanIdsLt, hwf.chanKeysNodup,
      hwf.grpIdsNodup, hwf.grpIdsLt, hwf.grpKeysNodup, ?_, ?_, ?_⟩
    · rw [List.map_append, List.nodup_append]
      refine ⟨hwf.srcIdsNodup, by simp, ?_⟩
      intro i hi
      simp only [List.map_cons, List.map_nil, List.mem_singleton]
      obtain ⟨t, ht, rfl⟩ := List.mem_map.1 hi
      intro he
      exact absurd (he ▸ hwf.srcIdsLt t ht) (lt_irrefl _)
    · intro t ht
      rcases List.mem_append.1 ht with ht | ht
      · exact Nat.lt_succ_of_lt (hwf.srcIdsLt t ht)
      · rw [List.mem_singleton] at ht
        subst ht
        exact Nat.lt_succ_self _
    · rw [List.map_append, List.nodup_append]
      refine ⟨hwf.srcNamesNodup, by simp, ?_⟩
      intro n hn
      simp only [List.map_cons, List.map_nil, List.mem_singleton]
      obtain ⟨t, ht, rfl⟩ := List.mem_map.1 hn
      intro he
      have := List.find?_eq_none.1 hfind t ht
      simp [he] at this
  · rw [CreateOrGetSource, hfind]
    have hid : ∀ t : Source,
        (if t.name == name
         then { t with url := url, userAgent := nullifEmpty ua } else t).id =
        t.id := by
      intro t
      by_cases ht : t.name == name <;> simp [ht]
    have hname : ∀ t : Source,
        (if t.name == name
         then { t with url := url, userAgent := nullifEmpty ua } else t).name =
        t.name := by
      intro t
      by_cases ht : t.name == name <;> simp [ht]
    refine ⟨hwf.chanIdsNodup, hwf.chanIdsLt, hwf.chanKeysNodup,
      hwf.grpIdsNodup, hwf.grpIdsLt, hwf.grpKeysNodup, ?_, ?_, ?_⟩
    · rw [List.map_map,
        show (Source.id ∘ fun t => if t.name == name
          then { t with url := url, userAgent := nullifEmpty ua } else t) =
          Source.id from funext fun t => hid t]
      exact hwf.srcIdsNodup
    · intro t ht
      obtain ⟨t₀, ht₀, rfl⟩ := List.mem_map.1 ht
      rw [hid t₀]
      exact hwf.srcIdsLt t₀ ht₀
    · rw [List.map_map,
        show (Source.name ∘ fun t => if t.name == name
          then { t with url := url, userAgent := nullifEmpty ua } else t) =
          Source.name from funext fun t => hname t]
      exact hwf.srcNamesNodup

theorem WF_upsertChannelHeaders (db : DB) (cid : Nat) (h : HeadersInput)
    (hwf : WF db) : WF (UpsertChannelHeaders db cid h) := by
  rcases hfind : db.headers.find? (fun r => r.channelId == cid) with - | r <;>
    rw [UpsertChannelHeaders, hfind] <;>
    exact ⟨hwf.chanIdsNodup, hwf.chanIdsLt, hwf.chanKeysNodup,
      hwf.grpIdsNodup, hwf.grpIdsLt, hwf.grpKeysNodup,
      hwf.srcIdsNodup, hwf.srcIdsLt, hwf.srcNamesNodup⟩

theorem WF_removeStaleChannels (db : DB) (sid : Nat) (keep : List Nat)
    (hwf : WF db) : WF (RemoveStaleChannels db sid keep).2 := by
  have hch : (RemoveStaleChannels db sid keep).2.channels =
      db.channels.filter (fun c => !(staleFor sid keep c)) :=
    RemoveStaleChannels_channels db sid keep
  have hgrp : (RemoveStaleChannels db sid keep).2.groups = db.groups := by
    rw [RemoveStaleChannels]
    by_cases hk : keep.isEmpty <;> simp [hk]
  have hsrc : (RemoveStaleChannels db sid keep).2.sources = db.sources := by
    rw [RemoveStaleChannels]
    by_cases hk : keep.isEmpty <;> simp [hk]
  have hnc : (RemoveStaleChannels db sid keep).2.nextChannelId =
      db.nextChannelId := by
    rw [RemoveStaleChannels]
    by_cases hk : keep.isEmpty <;> simp [hk]
  have hng : (RemoveStaleChannels db sid keep).2.nextGroupId =
      db.nextGroupId := by
    rw [RemoveStaleChannels]
    by_cases hk : keep.isEmpty <;> simp [hk]
  have hns : (RemoveStaleChannels db sid keep).2.nextSourceId =
      db.nextSourceId := by
    rw [RemoveStaleChannels]
    by_cases hk : keep.isEmpty <;> simp [hk]
  have hsub := List.filter_sublist (l := db.channels)
    (p := fun c => !(staleFor sid keep c))
  refine ⟨?_, ?_, ?_, ?_, ?_, ?_, ?_, ?_, ?_⟩
  · rw [hch]
    exact (hsub.map Channel.id).nodup hwf.chanIdsNodup
  · rw [hch, hnc]
    intro c hc
    exact hwf.chanIdsLt c (hsub.mem hc)
  · rw [hch]
    exact (hsub.map Channel.key).nodup hwf.chanKeysNodup
  · rw [hgrp]; exact hwf.grpIdsNodup
  · rw [hgrp, hng]; exact hwf.grpIdsLt
  · rw [hgrp]; exact hwf.grpKeysNodup
  · rw [hsrc]; exact hwf.srcIdsNodup
  · rw [hsrc, hns]; exact hwf.srcIdsLt
  · rw [hsrc]; exact hwf.srcNamesNodup

theorem WF_removeOrphanedGroups (db : DB) (sid : Nat) (hwf : WF db) :
    WF (RemoveOrphanedGroups db sid).2 := by
  rw [RemoveOrphanedGroups]
  have hsub := List.filter_sublist (l := db.groups)
    (p := fun g => !(g.sourceId == sid && !((usedGroupIds db sid).contains g.id)))
  exact ⟨hwf.chanIdsNodup, hwf.chanIdsLt, hwf.chanKeysNodup,
    (hsub.map Group.id).nodup hwf.grpIdsNodup,
    fun g hg => hwf.grpIdsLt g (hsub.mem hg),
    (hsub.map Group.key).nodup hwf.grpKeysNodup,
    hwf.srcIdsNodup, hwf.srcIdsLt, hwf.srcNamesNodup⟩

theorem WF_updateSourceLastUpdated (db : DB) (sid now : Nat) (hwf : WF db) :
    WF (UpdateSourceLastUpdated db sid now) := by
  rw [UpdateSourceLastUpdated]
  have hid : ∀ t : Source,
      (if t.id == sid then { t with lastUpdated := some now } else t).id =
      t.id := by
    intro t
    by_cases ht : t.id == sid <;> simp [ht]
  have hname : ∀ t : Source,
      (if t.id == sid then { t with lastUpdated := some now } else t).name =
      t.name := by
    intro t
    by_cases ht : t.id == sid <;> simp [ht]
  refine ⟨hwf.chanIdsNodup, hwf.chanIdsLt, hwf.chanKeysNodup,
    hwf.grpIdsNodup, hwf.grpIdsLt, hwf.grpKeysNodup, ?_, ?_, ?_⟩
  · rw [List.map_map,
      show (Source.id ∘ fun t => if t.id == sid
        then { t with lastUpdated := some now } else t) = Source.id
        from funext fun t => hid t]
    exact hwf.srcIdsNodup
  · intro t ht
    obtain ⟨t₀, ht₀, rfl⟩ := List.mem_map.1 ht
    rw [hid t₀]
    exact hwf.srcIdsLt t₀ ht₀
  · rw [List.map_map,
      show (Source.name ∘ fun t => if t.id == sid
        then { t with lastUpdated := some now } else t) = Source.name
        from funext fun t => hname t]
    exact hwf.srcNamesNodup

end PV

namespace PV

/-! ### C1 machinery, part 1: characterizations and frame lemmas -/

theorem CreateOrGetSource_found (db : DB) (name url : String) (ty : Int)
    (ua : String) (s : Source)
    (h : db.sources.find? (fun s => s.name == name) = some s) :
    CreateOrGetSource db name url ty ua = (s.id,
      { db with sources := db.sources.map (fun t =>
          if t.name == name then
            { t with url := url, userAgent := nullifEmpty ua }
          else t) }) := by
  rw [CreateOrGetSource, h]

theorem CreateOrGetSource_new (db : DB) (name url : String) (ty : Int)
    (ua : String)
    (h : db.sources.find? (fun s => s.name == name) = none) :
    CreateOrGetSource db name url ty ua = (db.nextSourceId,
      { db with
        sources := db.sources ++
          [{ id := db.nextSourceId, name := name, url := url,
             sourceType := ty, userAgent := nullifEmpty ua,
             enabled := true, lastUpdated := none }],
        nextSourceId := db.nextSourceId + 1 }) := by
  rw [CreateOrGetSource, h]

theorem CreateOrGetSource_frame (db : DB) (name url : String) (ty : Int)
    (ua : String) :
    (CreateOrGetSource db name url ty ua).2.channels = db.channels ∧
    (CreateOrGetSource db name url ty ua).2.groups = db.groups ∧
    (CreateOrGetSource db name url ty ua).2.headers = db.headers ∧
    (CreateOrGetSource db name url ty ua).2.nextChannelId = db.nextChannelId ∧
    (CreateOrGetSource db name url ty ua).2.nextGroupId = db.nextGroupId := by
  rcases hfind : db.sources.find? (fun s => s.name == name) with - | s <;>
    rw [CreateOrGetSource, hfind] <;> exact ⟨rfl, rfl, rfl, rfl, rfl⟩

theorem GetOrCreateGroup_frame (db : DB) (sid : Nat) (g : String)
    (img : Option String) :
    (GetOrCreateGroup db sid g img).2.channels = db.channels ∧
    (GetOrCreateGroup db sid g img).2.sources = db.sources ∧
    (GetOrCreateGroup db sid g img).2.headers = db.headers ∧
    (GetOrCreateGroup db sid g img).2.nextChannelId = db.nextChannelId ∧
    (GetOrCreateGroup db sid g img).2.nextSourceId = db.nextSourceId ∧
    db.nextGroupId ≤ (GetOrCreateGroup db sid g img).2.nextGroupId := by
  rcases hfind : db.groups.find? (fun h => h.name == g && h.sourceId == sid)
    with - | G <;> rw [GetOrCreateGroup, hfind]
  · exact ⟨rfl, rfl, rfl, rfl, rfl, Nat.le_succ _⟩
  · exact ⟨rfl, rfl, rfl, rfl, rfl, Nat.le_refl _⟩

theorem UpsertChannel_frame (db : DB) (ch : ChannelInput) :
    (UpsertChannel db ch).2.groups = db.groups ∧
    (UpsertChannel db ch).2.sources = db.sources ∧
    (UpsertChannel db ch).2.headers = db.headers ∧
    (UpsertChannel db ch).2.nextGroupId = db.nextGroupId ∧
    (UpsertChannel db ch).2.nextSourceId = db.nextSourceId ∧
    db.nextChannelId ≤ (UpsertChannel db ch).2.nextChannelId := by
  rcases hfind : db.channels.find? (fun c =>
      c.name == ch.name && c.sourceId == ch.sourceId && c.url == ch.url)
    with - | c <;> rw [UpsertChannel, hfind]
  · exact ⟨rfl, rfl, rfl, rfl, rfl, Nat.le_succ _⟩
  · exact ⟨rfl, rfl, rfl, rfl, rfl, Nat.le_refl _⟩

theorem UpsertChannelHeaders_frame (db : DB) (cid : Nat) (h : HeadersInput) :
    (UpsertChannelHeaders db cid h).channels = db.channels ∧
    (UpsertChannelHeaders db cid h).groups = db.groups ∧
    (UpsertChannelHeaders db cid h).sources = db.sources ∧
    (UpsertChannelHeaders db cid h).nextChannelId = db.nextChannelId ∧
    (UpsertChannelHeaders db cid h).nextGroupId = db.nextGroupId ∧
    (UpsertChannelHeaders db cid h).nextSourceId = db.nextSourceId := by
  rcases hfind : db.headers.find? (fun r => r.channelId == cid) with - | r <;>
    rw [UpsertChannelHeaders, hfind] <;> exact ⟨rfl, rfl, rfl, rfl, rfl, rfl⟩

theorem RemoveStaleChannels_frame (db : DB) (sid : Nat) (keep : List Nat) :
    (RemoveStaleChannels db sid keep).2.groups = db.groups ∧
    (RemoveStaleChannels db sid keep).2.sources = db.sources ∧
    (RemoveStaleChannels db sid keep).2.nextChannelId = db.nextChannelId ∧
    (RemoveStaleChannels db sid keep).2.nextGroupId = db.nextGroupId ∧
    (RemoveStaleChannels db sid keep).2.nextSourceId = db.nextSourceId := by
  rw [RemoveStaleChannels]
  by_cases hk : keep.isEmpty <;> simp [hk]

theorem RemoveOrphanedGroups_groups (db : DB) (sid : Nat) :
    (RemoveOrphanedGroups db sid).2.groups = db.groups.filter (fun g =>
      !(g.sourceId == sid && !((usedGroupIds db sid).contains g.id))) := rfl

theorem RemoveOrphanedGroups_frame (db : DB) (sid : Nat) :
    (RemoveOrphanedGroups db sid).2.channels = db.channels ∧
    (RemoveOrphanedGroups db sid).2.sources = db.sources ∧
    (RemoveOrphanedGroups db sid).2.headers = db.headers ∧
    (RemoveOrphanedGroups db sid).2.nextChannelId = db.nextChannelId ∧
    (RemoveOrphanedGroups db sid).2.nextGroupId = db.nextGroupId ∧
    (RemoveOrphanedGroups db sid).2.nextSourceId = db.nextSourceId :=
  ⟨rfl, rfl, rfl, rfl, rfl, rfl⟩

theorem UpdateSourceLastUpdated_frame (db : DB) (sid now : Nat) :
    (UpdateSourceLastUpdated db sid now).channels = db.channels ∧
    (UpdateSourceLastUpdated db sid now).groups = db.groups ∧
    (UpdateSourceLastUpdated db sid now).nextChannelId = db.nextChannelId ∧
    (UpdateSourceLastUpdated db sid now).nextGroupId = db.nextGroupId ∧
    (UpdateSourceLastUpdated db sid now).nextSourceId = db.nextSourceId :=
  ⟨rfl, rfl, rfl, rfl, rfl⟩

/-- `rwLast` never touches identity, key, favorite or embedding. -/
theorem rwLast_frame (sid : Nat) (r : List Entry) (m : List (String × Nat))
    (c : Channel) :
    (rwLast sid r m c).id = c.id ∧ (rwLast sid r m c).name = c.name ∧
    (rwLast sid r m c).url = c.url ∧
    (rwLast sid r m c).sourceId = c.sourceId ∧
    (rwLast sid r m c).favorite = c.favorite ∧
    (rwLast sid r m c).embedding = c.embedding ∧
    (rwLast sid r m c).key = c.key := by
  rw [rwLast]
  rcases hl : lastEntry sid r c.key with - | e <;>
    exact ⟨rfl, rfl, rfl, rfl, rfl, rfl, rfl⟩

theorem coalesce_idem (a b : Option α) :
    coalesce a (coalesce a b) = coalesce a b := by
  cases a <;> rfl

theorem coalesce_self (a : Option α) : coalesce a a = a := by
  cases a <;> rfl

/-- Rows of a list with nodup images under `f` are determined by their
image. -/
theorem nodup_key_eq (f : α → β) (l : List α) (hn : (l.map f).Nodup)
    {a b : α} (ha : a ∈ l) (hb : b ∈ l) (hf : f a = f b) : a = b :=
  List.inj_on_of_nodup_map hn ha hb hf

theorem lookup_cons (k a : String) (b : Nat) (l : List (String × Nat)) :
    ((a, b) :: l).lookup k = if k == a then some b else l.lookup k := by
  by_cases h : k == a <;> simp [List.lookup, h]

theorem firstEntryWithGroup_cons (e : Entry) (E : List Entry) (g : String) :
    firstEntryWithGroup (e :: E) g =
      if entryGroup e == some g then some e
      else firstEntryWithGroup E g := by
  by_cases h : entryGroup e == some g <;>
    simp [firstEntryWithGroup, List.find?_cons, h]

/-- The invariant tying a group memo map to the store: every memoised name is
the name of a stored group of the source, with the memoised id. -/
def MemoOK (sid : Nat) (db : DB) (m : List (String × Nat)) : Prop :=
  ∀ g i, m.lookup g = some i →
    ∃ G ∈ db.groups, G.name = g ∧ G.sourceId = sid ∧ G.id = i

theorem MemoOK_nil (sid : Nat) (db : DB) : MemoOK sid db [] := by
  intro g i h
  cases h

end PV

namespace PV

theorem resolveEntryGid_of_none (m : List (String × Nat)) (e : Entry)
    (h : entryGroup e = none) : resolveEntryGid m e = none := by
  rw [resolveEntryGid, h]

theorem resolveEntryGid_of_some (m : List (String × Nat)) (e : Entry)
    (g : String) (h : entryGroup e = some g) :
    resolveEntryGid m e = m.lookup g := by
  rw [resolveEntryGid, h]

/-- A display-field rewrite does not change a channel's key. -/
theorem chanUpd_key (c : Channel) (i : Option String) (mt : Int)
    (g : Option Nat) :
    ({ c with image := i, mediaType := mt, groupId := g } : Channel).key =
      c.key := rfl

/-- Composing one found-branch upsert rewrite with the tail of the feed gives
the rewrite of the whole feed. -/
theorem rwLast_step (sid : Nat) (e₀ : Entry) (rest : List Entry)
    (m : List (String × Nat)) (c : Channel) :
    rwLast sid rest m
      (if c.key == ekey sid e₀
       then { c with image := e₀.image, mediaType := e₀.mediaType,
                     groupId := resolveEntryGid m e₀ }
       else c) =
    rwLast sid (e₀ :: rest) m c := by
  by_cases hk : c.key == ekey sid e₀
  · rw [if_pos hk]
    rw [rwLast, rwLast, chanUpd_key, lastEntry_cons]
    have hsym : (ekey sid e₀ == c.key) = true :=
      beq_iff_eq.2 (beq_iff_eq.1 hk).symm
    rcases hl : lastEntry sid rest c.key with - | e
    · rw [if_pos hsym]
    · rfl
  · rw [if_neg hk]
    rw [rwLast, rwLast, lastEntry_cons]
    have hsym : (ekey sid e₀ == c.key) = false := by
      rw [beq_eq_false_iff_ne]
      exact fun he => hk (beq_iff_eq.2 he.symm)
    rcases hl : lastEntry sid rest c.key with - | e
    · rw [if_neg (by simp [hsym])]
    · rfl

/-- Entries that resolve without touching the group table (no group, or a memo
hit) leave the per-row group action unchanged. -/
theorem gUpd_skip (sid : Nat) (e₀ : Entry) (rest : List Entry)
    (m m' : List (String × Nat))
    (h : ∀ g, entryGroup e₀ = some g → (m.lookup g).isSome)
    (G : Group) :
    gUpd sid rest m m' G = gUpd sid (e₀ :: rest) m m' G := by
  rw [gUpd, gUpd]
  by_cases hc : G.sourceId == sid && (m.lookup G.name).isNone &&
      (m'.lookup G.name).isSome
  · rw [if_pos hc, if_pos hc]
    have hne : ¬(entryGroup e₀ == some G.name) = true := by
      intro hb
      have hs := h G.name (beq_iff_eq.1 hb)
      simp only [Bool.and_eq_true] at hc
      rw [Option.isSome_iff_exists] at hs
      obtain ⟨i, hi⟩ := hs
      rw [hi] at hc
      exact absurd hc.1.2 (by simp)
    rw [firstEntryWithGroup_cons, if_neg hne]
  · rw [if_neg hc, if_neg hc]

/-- Composing a found-branch group image refresh for entry `e₀` (group `g`,
first memoised here) with the tail of the feed. -/
theorem gUpd_touch (sid : Nat) (e₀ : Entry) (g : String) (rest : List Entry)
    (m m' : List (String × Nat)) (gid₀ : Nat)
    (hg : entryGroup e₀ = some g) (hmiss : m.lookup g = none)
    (hm' : m'.lookup g = some gid₀) (G : Group) :
    gUpd sid rest ((g, gid₀) :: m) m'
      (if G.name == g && G.sourceId == sid
       then { G with image := coalesce e₀.image G.image } else G) =
    gUpd sid (e₀ :: rest) m m' G := by
  by_cases hp : G.name == g && G.sourceId == sid
  · rw [if_pos hp]
    simp only [Bool.and_eq_true] at hp
    have hname : G.name = g := beq_iff_eq.1 hp.1
    have hsid : (G.sourceId == sid) = true := hp.2
    rw [gUpd, gUpd]
    have hL : ¬(((({ G with image := coalesce e₀.image G.image } : Group).sourceId
        == sid) &&
        ((((g, gid₀) :: m).lookup
          ({ G with image := coalesce e₀.image G.image } : Group).name).isNone) &&
        ((m'.lookup
          ({ G with image := coalesce e₀.image G.image } : Group).name).isSome))
        = true) := by
      show ¬(((G.sourceId == sid) &&
        ((((g, gid₀) :: m).lookup G.name).isNone) &&
        ((m'.lookup G.name).isSome)) = true)
      rw [hname, lookup_cons, if_pos (beq_iff_eq.2 rfl)]
      simp
    rw [if_neg hL]
    have hR : ((G.sourceId == sid) && ((m.lookup G.name).isNone) &&
        ((m'.lookup G.name).isSome)) = true := by
      rw [hname, hmiss, hm', hsid]
      rfl
    rw [if_pos hR]
    rw [hname, firstEntryWithGroup_cons, if_pos (by rw [hg]; exact beq_iff_eq.2 rfl)]
  · rw [if_neg hp]
    rw [gUpd, gUpd]
    by_cases hn : G.name == g
    · have hsid : ¬(G.sourceId == sid) = true := by
        intro hs
        exact hp (by rw [Bool.and_eq_true]; exact ⟨hn, hs⟩)
      have hcond : ∀ b c : Bool, ¬(((G.sourceId == sid) && b && c) = true) := by
        intro b c hb
        rw [Bool.and_eq_true, Bool.and_eq_true] at hb
        exact hsid hb.1.1
      rw [if_neg (hcond _ _), if_neg (hcond _ _)]
    · have hlk : (((g, gid₀) :: m).lookup G.name) = m.lookup G.name := by
        rw [lookup_cons, if_neg (by simpa using hn)]
      by_cases hc : ((G.sourceId == sid) && ((m.lookup G.name).isNone) &&
          ((m'.lookup G.name).isSome)) = true
      · rw [if_pos (by rw [hlk]; exact hc), if_pos hc]
        have hne : ¬(entryGroup e₀ == some G.name) = true := by
          rw [hg]
          intro hb
          exact hn (beq_iff_eq.2 (Option.some.inj (beq_iff_eq.1 hb)).symm)
        rw [firstEntryWithGroup_cons, if_neg hne]
      · rw [if_neg (by rw [hlk]; exact hc), if_neg hc]

/-- Composing a create-branch group insertion (entry `e₀`, group `g` absent
from the table) with the tail of the feed, for the pre-existing rows. -/
theorem gUpd_create (sid : Nat) (e₀ : Entry) (g : String) (rest : List Entry)
    (m m' : List (String × Nat)) (gid₀ : Nat)
    (hg : entryGroup e₀ = some g) (G : Group)
    (hnot : ¬(G.name == g && G.sourceId == sid) = true) :
    gUpd sid rest ((g, gid₀) :: m) m' G = gUpd sid (e₀ :: rest) m m' G := by
  rw [gUpd, gUpd]
  by_cases hn : G.name == g
  · have hsid : ¬(G.sourceId == sid) = true := by
      intro hs
      exact hnot (by rw [Bool.and_eq_true]; exact ⟨hn, hs⟩)
    have hcond : ∀ b c : Bool, ¬(((G.sourceId == sid) && b && c) = true) := by
      intro b c hb
      rw [Bool.and_eq_true, Bool.and_eq_true] at hb
      exact hsid hb.1.1
    rw [if_neg (hcond _ _), if_neg (hcond _ _)]
  · have hlk : (((g, gid₀) :: m).lookup G.name) = m.lookup G.name := by
      rw [lookup_cons, if_neg (by simpa using hn)]
    by_cases hc : ((G.sourceId == sid) && ((m.lookup G.name).isNone) &&
        ((m'.lookup G.name).isSome)) = true
    · rw [if_pos (by rw [hlk]; exact hc), if_pos hc]
      have hne : ¬(entryGroup e₀ == some G.name) = true := by
        rw [hg]
        intro hb
        exact hn (beq_iff_eq.2 (Option.some.inj (beq_iff_eq.1 hb)).symm)
      rw [firstEntryWithGroup_cons, if_neg hne]
    · rw [if_neg (by rw [hlk]; exact hc), if_neg hc]

end PV

namespace PV

/-- The found-branch group refresh preserves name, source and id. -/
theorem grpTouch_frame (g : String) (sid : Nat) (img : Option String)
    (G : Group) :
    ((if G.name == g && G.sourceId == sid
      then { G with image := coalesce img G.image } else G) : Group).name =
      G.name ∧
    ((if G.name == g && G.sourceId == sid
      then { G with image := coalesce img G.image } else G) : Group).sourceId =
      G.sourceId ∧
    ((if G.name == g && G.sourceId == sid
      then { G with image := coalesce img G.image } else G) : Group).id =
      G.id := by
  by_cases h : G.name == g && G.sourceId == sid <;> simp [h]


/-- One group-resolution step over the pure store, fully characterised. -/
theorem resolveGroup_char (now sid : Nat) (e₀ : Entry)
    (memo : List (String × Nat)) (db : DB) (hwf : WF db)
    (hmemo : MemoOK sid db memo) :
    ∃ gid₀ memo₁ dbg,
      resolveGroup (dbOps now) sid e₀ memo db = (some (gid₀, memo₁), dbg) ∧
      gid₀ = resolveEntryGid memo₁ e₀ ∧
      WF dbg ∧ MemoOK sid dbg memo₁ ∧
      dbg.channels = db.channels ∧ dbg.sources = db.sources ∧
      dbg.nextChannelId = db.nextChannelId ∧
      dbg.nextSourceId = db.nextSourceId ∧
      db.nextGroupId ≤ dbg.nextGroupId ∧
      (∀ g i, memo.lookup g = some i → memo₁.lookup g = some i) ∧
      (∀ g, entryGroup e₀ = some g → (memo₁.lookup g).isSome) ∧
      (∀ G ∈ db.groups, ∃ G₁ ∈ dbg.groups,
        G₁.name = G.name ∧ G₁.sourceId = G.sourceId ∧ G₁.id = G.id) ∧
      (∀ g G, G ∈ db.groups → G.name = g → G.sourceId = sid →
        entryGroup e₀ = some g → memo₁.lookup g = some G.id) ∧
      ((memo₁ = memo ∧ dbg = db ∧
          (∀ g, entryGroup e₀ = some g → (memo.lookup g).isSome)) ∨
       (∃ g gid, entryGroup e₀ = some g ∧ memo.lookup g = none ∧
          memo₁ = (g, gid) :: memo ∧
          ((dbg.groups = db.groups.map (fun G =>
              if G.name == g && G.sourceId == sid
              then { G with image := coalesce e₀.image G.image } else G) ∧
            dbg.nextGroupId = db.nextGroupId) ∨
           (dbg.groups = db.groups ++
              [{ id := gid, name := g, image := e₀.image, sourceId := sid }] ∧
            gid = db.nextGroupId ∧ dbg.nextGroupId = db.nextGroupId + 1 ∧
            ∀ G ∈ db.groups,
              ¬((G.name == g && G.sourceId == sid) = true))))) := by
  rw [resolveGroup_dbOps]
  rcases hge : entryGroup e₀ with - | g
  · refine ⟨none, memo, db, rfl, (resolveEntryGid_of_none memo e₀ hge).symm,
      hwf, hmemo, rfl, rfl, rfl, rfl, Nat.le_refl _,
      fun g i h => h, ?_, ?_, ?_, Or.inl ⟨rfl, rfl, ?_⟩⟩
    · intro g h
      cases h
    · intro G hG
      exact ⟨G, hG, rfl, rfl, rfl⟩
    · intro g G hG hn hs h
      cases h
    · intro g h
      cases h
  · simp only []
    rcases hm : memo.lookup g with - | gid
    · simp only []
      rcases hfind : db.groups.find? (fun h => h.name == g && h.sourceId == sid)
        with - | G₀
      · -- group absent: create
        rw [GetOrCreateGroup_new db sid g e₀.image hfind]
        have hnone := List.find?_eq_none.1 hfind
        refine ⟨some db.nextGroupId, (g, db.nextGroupId) :: memo, _, rfl,
          ?_, ?_, ?_, rfl, rfl, rfl, rfl, Nat.le_succ _, ?_, ?_, ?_, ?_, ?_⟩
        · rw [resolveEntryGid_of_some _ _ _ hge, lookup_cons,
            if_pos (beq_iff_eq.2 rfl)]
        · have := WF_getOrCreateGroup db sid g e₀.image hwf
          rwa [GetOrCreateGroup_new db sid g e₀.image hfind] at this
        · intro g' i h'
          rw [lookup_cons] at h'
          by_cases he : g' == g
          · rw [if_pos he] at h'
            injection h' with h'
            refine ⟨{ id := db.nextGroupId, name := g, image := e₀.image, sourceId := sid }, ?_, (beq_iff_eq.1 he).symm, rfl, h'⟩
            simp
          · rw [if_neg he] at h'
            obtain ⟨G, hG, h1, h2, h3⟩ := hmemo g' i h'
            exact ⟨G, by simp [hG], h1, h2, h3⟩
        · intro g' i h'
          rw [lookup_cons]
          rw [if_neg ?_]
          · exact h'
          · intro he
            rw [beq_iff_eq.1 he] at h'
            rw [hm] at h'
            cases h'
        · intro g' h'
          injection h' with h'
          subst h'
          rw [lookup_cons, if_pos (beq_iff_eq.2 rfl)]
          rfl
        · intro G hG
          exact ⟨G, by simp [hG], rfl, rfl, rfl⟩
        · intro g' G hG hn hs h'
          injection h' with h'
          subst h'
          exact absurd (by rw [hn, hs]; simp :
              (G.name == g && G.sourceId == sid) = true) (hnone G hG)
        · exact Or.inr ⟨g, db.nextGroupId, rfl, hm, rfl,
            Or.inr ⟨rfl, rfl, rfl, fun G hG => hnone G hG⟩⟩
      · -- group found: image refresh
        rw [GetOrCreateGroup_found db sid g e₀.image G₀ hfind]
        have hmem₀ := List.mem_of_find?_eq_some hfind
        have hp₀ := List.find?_some hfind
        rw [Bool.and_eq_true] at hp₀
        have hn₀ : G₀.name = g := beq_iff_eq.1 hp₀.1
        have hs₀ : G₀.sourceId = sid := beq_iff_eq.1 hp₀.2
        refine ⟨some G₀.id, (g, G₀.id) :: memo, _, rfl, ?_, ?_, ?_,
          rfl, rfl, rfl, rfl, Nat.le_refl _, ?_, ?_, ?_, ?_, ?_⟩
        · rw [resolveEntryGid_of_some _ _ _ hge, lookup_cons,
            if_pos (beq_iff_eq.2 rfl)]
        · have := WF_getOrCreateGroup db sid g e₀.image hwf
          rwa [GetOrCreateGroup_found db sid g e₀.image G₀ hfind] at this
        · intro g' i h'
          rw [lookup_cons] at h'
          by_cases he : g' == g
          · rw [if_pos he] at h'
            injection h' with h'
            refine ⟨_, List.mem_map.2 ⟨G₀, hmem₀, rfl⟩, ?_, ?_, ?_⟩
            · rw [(grpTouch_frame g sid e₀.image G₀).1, hn₀,
                (beq_iff_eq.1 he)]
            · rw [(grpTouch_frame g sid e₀.image G₀).2.1, hs₀]
            · rw [(grpTouch_frame g sid e₀.image G₀).2.2, h']
          · rw [if_neg he] at h'
            obtain ⟨G, hG, h1, h2, h3⟩ := hmemo g' i h'
            refine ⟨_, List.mem_map.2 ⟨G, hG, rfl⟩, ?_, ?_, ?_⟩
            · rw [(grpTouch_frame g sid e₀.image G).1, h1]
            · rw [(grpTouch_frame g sid e₀.image G).2.1, h2]
            · rw [(grpTouch_frame g sid e₀.image G).2.2, h3]
        · intro g' i h'
          rw [lookup_cons]
          rw [if_neg ?_]
          · exact h'
          · intro he
            rw [beq_iff_eq.1 he] at h'
            rw [hm] at h'
            cases h'
        · intro g' h'
          injection h' with h'
          subst h'
          rw [lookup_cons, if_pos (beq_iff_eq.2 rfl)]
          rfl
        · intro G hG
          refine ⟨_, List.mem_map.2 ⟨G, hG, rfl⟩,
            (grpTouch_frame g sid e₀.image G).1,
            (grpTouch_frame g sid e₀.image G).2.1,
            (grpTouch_frame g sid e₀.image G).2.2⟩
        · intro g' G hG hn hs h'
          injection h' with h'
          subst h'
          have hGG : G = G₀ := by
            refine nodup_key_eq Group.key db.groups hwf.grpKeysNodup hG hmem₀ ?_
            rw [Group.key, Group.key, hn, hs, hn₀, hs₀]
          rw [lookup_cons, if_pos (beq_iff_eq.2 rfl), hGG]
        · exact Or.inr ⟨g, G₀.id, rfl, hm, rfl, Or.inl ⟨rfl, rfl⟩⟩
    · -- memo hit
      refine ⟨some gid, memo, db, rfl,
        by rw [resolveEntryGid_of_some _ _ _ hge, hm],
        hwf, hmemo, rfl, rfl, rfl, rfl, Nat.le_refl _,
        fun g i h => h, ?_, ?_, ?_, Or.inl ⟨rfl, rfl, ?_⟩⟩
      · intro g' h'
        injection h' with h'
        subst h'
        rw [hm]
        rfl
      · intro G hG
        exact ⟨G, hG, rfl, rfl, rfl⟩
      · intro g' G hG hn hs h'
        injection h' with h'
        subst h'
        obtain ⟨G', hG', h1, h2, h3⟩ := hmemo g gid hm
        have hGG : G = G' := by
          refine nodup_key_eq Group.key db.groups hwf.grpKeysNodup hG hG' ?_
          rw [Group.key, Group.key, hn, hs, h1, h2]
        rw [hm, hGG, h3]
      · intro g' h'
        injection h' with h'
        subst h'
        rw [hm]
        rfl

/-- The per-row rewrite of an upsert found-branch preserves identity, key,
favorite and embedding. -/
theorem chanStep_frame (sid : Nat) (e₀ : Entry) (gid : Option Nat)
    (c : Channel) :
    ((if c.key == ekey sid e₀
      then { c with image := e₀.image, mediaType := e₀.mediaType,
                    groupId := gid }
      else c) : Channel).id = c.id ∧
    ((if c.key == ekey sid e₀
      then { c with image := e₀.image, mediaType := e₀.mediaType,
                    groupId := gid }
      else c) : Channel).key = c.key ∧
    ((if c.key == ekey sid e₀
      then { c with image := e₀.image, mediaType := e₀.mediaType,
                    groupId := gid }
      else c) : Channel).sourceId = c.sourceId ∧
    ((if c.key == ekey sid e₀
      then { c with image := e₀.image, mediaType := e₀.mediaType,
                    groupId := gid }
      else c) : Channel).favorite = c.favorite ∧
    ((if c.key == ekey sid e₀
      then { c with image := e₀.image, mediaType := e₀.mediaType,
                    groupId := gid }
      else c) : Channel).embedding = c.embedding := by
  by_cases h : c.key == ekey sid e₀
  · rw [if_pos h]
    exact ⟨rfl, rfl, rfl, rfl, rfl⟩
  · rw [if_neg h]
    exact ⟨rfl, rfl, rfl, rfl, rfl⟩

/-- One channel-upsert step of the loop over the pure store, fully
characterised. -/
theorem upsert_char (now sid : Nat) (e₀ : Entry)
    (memo₁ : List (String × Nat)) (db : DB) (hwf : WF db) :
    ∃ cid dbu,
      (dbOps now).upsertChannel db
        (entryInput sid e₀ (resolveEntryGid memo₁ e₀)) = (some cid, dbu) ∧
      WF dbu ∧
      dbu.groups = db.groups ∧ dbu.sources = db.sources ∧
      dbu.nextGroupId = db.nextGroupId ∧ dbu.nextSourceId = db.nextSourceId ∧
      db.nextChannelId ≤ dbu.nextChannelId ∧
      (∃ newC₀, dbu.channels = db.channels.map (fun c =>
          if c.key == ekey sid e₀
          then { c with image := e₀.image, mediaType := e₀.mediaType,
                        groupId := resolveEntryGid memo₁ e₀ }
          else c) ++ newC₀ ∧
        (∀ c ∈ newC₀, c.sourceId = sid ∧ db.nextChannelId ≤ c.id ∧
          c.embedding = none ∧ c.key = ekey sid e₀ ∧ c.image = e₀.image ∧
          c.mediaType = e₀.mediaType ∧
          c.groupId = resolveEntryGid memo₁ e₀) ∧
        ((∃ c ∈ db.channels, c.key = ekey sid e₀) → newC₀ = [])) ∧
      (∃ crow ∈ dbu.channels, crow.id = cid ∧ crow.key = ekey sid e₀ ∧
        crow.sourceId = sid) := by
  rw [dbOps_upsertChannel]
  have hwfu := WF_upsertChannel db (entryInput sid e₀ (resolveEntryGid memo₁ e₀)) hwf
  have hfr := UpsertChannel_frame db (entryInput sid e₀ (resolveEntryGid memo₁ e₀))
  rcases hfind : db.channels.find? (fun c =>
      c.name == (entryInput sid e₀ (resolveEntryGid memo₁ e₀)).name &&
      c.sourceId == (entryInput sid e₀ (resolveEntryGid memo₁ e₀)).sourceId &&
      c.url == (entryInput sid e₀ (resolveEntryGid memo₁ e₀)).url)
    with - | cbar
  · -- no existing row: a fresh row is appended
    rw [UpsertChannel_new _ _ hfind] at hwfu hfr ⊢
    have hnone : ∀ c ∈ db.channels, ¬(c.key == ekey sid e₀) = true := by
      intro c hc hk
      have := List.find?_eq_none.1 hfind c hc
      rw [entryInput_match] at this
      exact this hk
    refine ⟨db.nextChannelId, _, rfl, hwfu, rfl, rfl, rfl, rfl, Nat.le_succ _,
      ⟨[{ id := db.nextChannelId, name := e₀.name, url := e₀.url, image := e₀.image, mediaType := e₀.mediaType, sourceId := sid, groupId := resolveEntryGid memo₁ e₀, favorite := e₀.favorite, embedding := none }], ?_, ?_, ?_⟩, ?_⟩
    · have hid : db.channels.map (fun c =>
          if c.key == ekey sid e₀
          then { c with image := e₀.image, mediaType := e₀.mediaType,
                        groupId := resolveEntryGid memo₁ e₀ }
          else c) = db.channels := by
        rw [show db.channels.map (fun c =>
            if c.key == ekey sid e₀
            then { c with image := e₀.image, mediaType := e₀.mediaType,
                          groupId := resolveEntryGid memo₁ e₀ }
            else c) = db.channels.map id from
          List.map_congr_left fun c hc => by rw [if_neg (hnone c hc)]; rfl]
        exact List.map_id _
      rw [hid]
      rfl
    · intro c hc
      rw [List.mem_singleton] at hc
      subst hc
      exact ⟨rfl, Nat.le_refl _, rfl, rfl, rfl, rfl, rfl⟩
    · intro hex
      obtain ⟨c, hc, hk⟩ := hex
      exact absurd (beq_iff_eq.2 hk) (hnone c hc)
    · refine ⟨{ id := db.nextChannelId, name := e₀.name, url := e₀.url, image := e₀.image, mediaType := e₀.mediaType, sourceId := sid, groupId := resolveEntryGid memo₁ e₀, favorite := e₀.favorite, embedding := none }, ?_, rfl, rfl, rfl⟩
      exact List.mem_append.2 (Or.inr (List.mem_singleton.2 rfl))
  · -- existing row: found-branch rewrite
    rw [UpsertChannel_found _ _ cbar hfind] at hwfu hfr ⊢
    have hmemb := List.mem_of_find?_eq_some hfind
    have hpb := List.find?_some hfind
    rw [entryInput_match] at hpb
    have hkb : cbar.key = ekey sid e₀ := beq_iff_eq.1 hpb
    have hmapeq : db.channels.map (fun d =>
        if d.name == (entryInput sid e₀ (resolveEntryGid memo₁ e₀)).name &&
           d.sourceId == (entryInput sid e₀ (resolveEntryGid memo₁ e₀)).sourceId &&
           d.url == (entryInput sid e₀ (resolveEntryGid memo₁ e₀)).url
        then { d with image := (entryInput sid e₀ (resolveEntryGid memo₁ e₀)).image, mediaType := (entryInput sid e₀ (resolveEntryGid memo₁ e₀)).mediaType, groupId := (entryInput sid e₀ (resolveEntryGid memo₁ e₀)).groupId }
        else d) =
        db.channels.map (fun c =>
          if c.key == ekey sid e₀
          then { c with image := e₀.image, mediaType := e₀.mediaType,
                        groupId := resolveEntryGid memo₁ e₀ }
          else c) :=
      List.map_congr_left fun d _ => by rw [entryInput_match]; rfl
    refine ⟨cbar.id, _, rfl, hwfu, rfl, rfl, rfl, rfl, Nat.le_refl _,
      ⟨[], ?_, ?_, fun _ => rfl⟩, ?_⟩
    · rw [List.append_nil]
      exact hmapeq.symm ▸ rfl
    · intro c hc
      cases hc
    · refine ⟨(fun c =>
          if c.key == ekey sid e₀
          then { c with image := e₀.image, mediaType := e₀.mediaType,
                        groupId := resolveEntryGid memo₁ e₀ }
          else c) cbar, ?_, ?_, ?_, ?_⟩
      · rw [show ({ db with channels := db.channels.map (fun d =>
            if d.name == (entryInput sid e₀ (resolveEntryGid memo₁ e₀)).name &&
               d.sourceId == (entryInput sid e₀ (resolveEntryGid memo₁ e₀)).sourceId &&
               d.url == (entryInput sid e₀ (resolveEntryGid memo₁ e₀)).url
            then { d with image := (entryInput sid e₀ (resolveEntryGid memo₁ e₀)).image, mediaType := (entryInput sid e₀ (resolveEntryGid memo₁ e₀)).mediaType, groupId := (entryInput sid e₀ (resolveEntryGid memo₁ e₀)).groupId }
            else d) } : DB).channels = db.channels.map (fun c =>
          if c.key == ekey sid e₀
          then { c with image := e₀.image, mediaType := e₀.mediaType,
                        groupId := resolveEntryGid memo₁ e₀ }
          else c) from hmapeq]
        exact List.mem_map.2 ⟨cbar, hmemb, rfl⟩
      · exact (chanStep_frame sid e₀ (resolveEntryGid memo₁ e₀) cbar).1
      · rw [(chanStep_frame sid e₀ (resolveEntryGid memo₁ e₀) cbar).2.1, hkb]
      · rw [(chanStep_frame sid e₀ (resolveEntryGid memo₁ e₀) cbar).2.2.1]
        exact congrArg (fun k => k.2.1) hkb

/-- `rwLast` of the empty feed is the identity. -/
theorem rwLast_nil (sid : Nat) (m : List (String × Nat)) (c : Channel) :
    rwLast sid [] m c = c := by
  rw [rwLast, lastEntry_nil]

/-- `gUpd` with identical start and end memo maps is the identity. -/
theorem gUpd_same (sid : Nat) (E : List Entry) (m : List (String × Nat))
    (G : Group) : gUpd sid E m m G = G := by
  rw [gUpd]
  rcases hl : m.lookup G.name with - | i <;> simp [hl]

/-- Everything one successful pass of Ingest's upsert loop over the pure store
guarantees, relating start state `db`/`keep`/`memo`/`count` to end state. -/
structure LoopChar (sid : Nat) (r : List Entry) (db : DB)
    (keep : List Nat) (memo : List (String × Nat)) (count : Nat)
    (keep' : List Nat) (m' : List (String × Nat)) (count' : Nat)
    (db' : DB) : Prop where
  srcFrame : db'.sources = db.sources
  nextSrc : db'.nextSourceId = db.nextSourceId
  wf : WF db'
  stable : ∀ g i, memo.lookup g = some i → m'.lookup g = some i
  memoOK : MemoOK sid db' m'
  dfound : ∀ g G, G ∈ db.groups → G.name = g → G.sourceId = sid →
    (∃ e ∈ r, entryGroup e = some g) → m'.lookup g = some G.id
  memoised : ∀ e ∈ r, ∀ g, entryGroup e = some g → (m'.lookup g).isSome
  count_eq : count' = count + r.length
  chanMono : db.nextChannelId ≤ db'.nextChannelId
  grpMono : db.nextGroupId ≤ db'.nextGroupId
  groups : ∃ newG, db'.groups = db.groups.map (gUpd sid r memo m') ++ newG ∧
    ∀ G ∈ newG, G.sourceId = sid ∧ db.nextGroupId ≤ G.id ∧
      memo.lookup G.name = none ∧
      ∀ e₀, firstEntryWithGroup r G.name = some e₀ →
        coalesce e₀.image G.image = G.image
  chans : ∃ newC, db'.channels = db.channels.map (rwLast sid r m') ++ newC ∧
    (∀ c ∈ newC, c.sourceId = sid ∧ db.nextChannelId ≤ c.id ∧
      c.embedding = none ∧
      ∃ e, lastEntry sid r c.key = some e ∧ c.image = e.image ∧
        c.mediaType = e.mediaType ∧ c.groupId = resolveEntryGid m' e) ∧
    ((∀ e ∈ r, ∃ c ∈ db.channels, c.key = ekey sid e) → newC = [])
  keeps : ∃ δ, keep' = keep ++ δ ∧
    (∀ i ∈ δ, ∃ c ∈ db'.channels, c.id = i ∧ c.sourceId = sid ∧
      c.key ∈ r.map (ekey sid)) ∧
    ∀ e ∈ r, ∃ c ∈ db'.channels, c.key = ekey sid e ∧ c.id ∈ keep'

/-- The empty pass changes nothing. -/
theorem LoopChar_nil (sid : Nat) (db : DB) (keep : List Nat)
    (memo : List (String × Nat)) (count : Nat) (hwf : WF db)
    (hmemo : MemoOK sid db memo) :
    LoopChar sid [] db keep memo count keep memo count db := by
  refine ⟨rfl, rfl, hwf, fun g i h => h, hmemo, ?_, ?_, (Nat.add_zero count).symm,
    Nat.le_refl _, Nat.le_refl _, ⟨[], ?_, ?_⟩, ⟨[], ?_, ?_, fun _ => rfl⟩,
    ⟨[], (List.append_nil keep).symm, ?_, ?_⟩⟩
  · intro g G hG hn hs hex
    obtain ⟨e, he, -⟩ := hex
    cases he
  · intro e he
    cases he
  · rw [show db.groups.map (gUpd sid [] memo memo) = db.groups.map id from
      List.map_congr_left fun G _ => gUpd_same sid [] memo G,
      List.map_id, List.append_nil]
  · intro G hG
    cases hG
  · rw [show db.channels.map (rwLast sid [] memo) = db.channels.map id from
      List.map_congr_left fun c _ => rwLast_nil sid memo c,
      List.map_id, List.append_nil]
  · intro c hc
    cases hc
  · intro i hi
    cases hi
  · intro e he
    cases he

set_option maxHeartbeats 1000000 in
/-- Composing one loop iteration (resolve + upsert + optional headers) with a
characterised pass over the remaining entries. -/
theorem LoopChar_cons (sid : Nat) (e₀ : Entry) (rest : List Entry)
    (db db₁ : DB) (keep : List Nat) (memo memo₁ : List (String × Nat))
    (count cid : Nat) (keep' : List Nat) (m' : List (String × Nat))
    (count' : Nat) (db' : DB)
    (hsrc : db₁.sources = db.sources)
    (hnsrc : db₁.nextSourceId = db.nextSourceId)
    (hstab : ∀ g i, memo.lookup g = some i → memo₁.lookup g = some i)
    (hmem1 : ∀ g, entryGroup e₀ = some g → (memo₁.lookup g).isSome)
    (hpers : ∀ G ∈ db.groups, ∃ G₁ ∈ db₁.groups,
      G₁.name = G.name ∧ G₁.sourceId = G.sourceId ∧ G₁.id = G.id)
    (hdf : ∀ g G, G ∈ db.groups → G.name = g → G.sourceId = sid →
      entryGroup e₀ = some g → memo₁.lookup g = some G.id)
    (hcm : db.nextChannelId ≤ db₁.nextChannelId)
    (hgm : db.nextGroupId ≤ db₁.nextGroupId)
    (hchan : ∃ newC₀, db₁.channels = db.channels.map (fun c =>
        if c.key == ekey sid e₀
        then { c with image := e₀.image, mediaType := e₀.mediaType,
                      groupId := resolveEntryGid memo₁ e₀ }
        else c) ++ newC₀ ∧
      (∀ c ∈ newC₀, c.sourceId = sid ∧ db.nextChannelId ≤ c.id ∧
        c.embedding = none ∧ c.key = ekey sid e₀ ∧ c.image = e₀.image ∧
        c.mediaType = e₀.mediaType ∧ c.groupId = resolveEntryGid memo₁ e₀) ∧
      ((∃ c ∈ db.channels, c.key = ekey sid e₀) → newC₀ = []))
    (hkeeprow : ∃ crow ∈ db₁.channels, crow.id = cid ∧
      crow.key = ekey sid e₀ ∧ crow.sourceId = sid)
    (hgrp : (memo₁ = memo ∧ db₁.groups = db.groups ∧
        (∀ g, entryGroup e₀ = some g → (memo.lookup g).isSome)) ∨
      (∃ g gid, entryGroup e₀ = some g ∧ memo.lookup g = none ∧
        memo₁ = (g, gid) :: memo ∧
        ((db₁.groups = db.groups.map (fun G =>
            if G.name == g && G.sourceId == sid
            then { G with image := coalesce e₀.image G.image } else G)) ∨
         (db₁.groups = db.groups ++
            [{ id := gid, name := g, image := e₀.image, sourceId := sid }] ∧
          db.nextGroupId ≤ gid ∧
          ∀ G ∈ db.groups, ¬((G.name == g && G.sourceId == sid) = true)))))
    (hrest : LoopChar sid rest db₁ (keep ++ [cid]) memo₁ (count + 1)
      keep' m' count' db') :
    LoopChar sid (e₀ :: rest) db keep memo count keep' m' count' db' := by
  obtain ⟨newC₀, hc0, hc0spec, hc0cond⟩ := hchan
  obtain ⟨newC₁, hc1, hc1spec, hc1cond⟩ := hrest.chans
  obtain ⟨newG₁, hG1, hGspec⟩ := hrest.groups
  obtain ⟨δ₁, hδ1, hsound1, hcomp1⟩ := hrest.keeps
  obtain ⟨crow, hcrow, hrid, hrkey, hrsid⟩ := hkeeprow
  have hgid : resolveEntryGid memo₁ e₀ = resolveEntryGid m' e₀ := by
    rcases hge' : entryGroup e₀ with - | g
    · rw [resolveEntryGid_of_none _ _ hge', resolveEntryGid_of_none _ _ hge']
    · rw [resolveEntryGid_of_some _ _ _ hge', resolveEntryGid_of_some _ _ _ hge']
      obtain ⟨i, hi⟩ := Option.isSome_iff_exists.1 (hmem1 g hge')
      rw [hi, hrest.stable g i hi]
  have hlift1 : rwLast sid rest m' crow ∈ db'.channels := by
    rw [hc1]
    exact List.mem_append.2 (Or.inl (List.mem_map.2 ⟨crow, hcrow, rfl⟩))
  have hfrc := rwLast_frame sid rest m' crow
  refine ⟨hrest.srcFrame.trans hsrc, hrest.nextSrc.trans hnsrc, hrest.wf,
    fun g i h => hrest.stable g i (hstab g i h), hrest.memoOK,
    ?_, ?_, ?_, le_trans hcm hrest.chanMono, le_trans hgm hrest.grpMono,
    ?_, ?_, ?_⟩
  · -- dfound
    intro g G hG hn hs hex
    obtain ⟨e, he, hge⟩ := hex
    rcases List.mem_cons.1 he with rfl | he'
    · exact hrest.stable g G.id (hdf g G hG hn hs hge)
    · obtain ⟨G₁, hG₁, h1, h2, h3⟩ := hpers G hG
      have hd := hrest.dfound g G₁ hG₁ (h1.trans hn) (h2.trans hs) ⟨e, he', hge⟩
      rw [h3] at hd
      exact hd
  · -- memoised
    intro e he g hge
    rcases List.mem_cons.1 he with rfl | he'
    · obtain ⟨i, hi⟩ := Option.isSome_iff_exists.1 (hmem1 g hge)
      rw [hrest.stable g i hi]
      rfl
    · exact hrest.memoised e he' g hge
  · -- count
    rw [hrest.count_eq, List.length_cons]
    omega
  · -- groups
    rcases hgrp with ⟨hmeq, hgeq, hskipmem⟩ | ⟨g, gid, hge, hmiss, hm1, hbranch⟩
    · refine ⟨newG₁, ?_, ?_⟩
      · rw [hG1, hgeq, hmeq]
        congr 1
        exact List.map_congr_left fun G _ => gUpd_skip sid e₀ rest memo m' hskipmem G
      · intro G hGn
        obtain ⟨s1, s2, s3, s4⟩ := hGspec G hGn
        rw [hmeq] at s3
        refine ⟨s1, le_trans hgm s2, s3, ?_⟩
        intro e₂ he₂
        rw [firstEntryWithGroup_cons] at he₂
        by_cases hb : entryGroup e₀ == some G.name
        · exfalso
          have hsome := hskipmem G.name (beq_iff_eq.1 hb)
          rw [s3] at hsome
          cases hsome
        · rw [if_neg hb] at he₂
          exact s4 e₂ he₂
    · have hm1g : memo₁.lookup g = some gid := by
        rw [hm1, lookup_cons, if_pos (beq_iff_eq.2 rfl)]
      have hm'g : m'.lookup g = some gid := hrest.stable g gid hm1g
      rcases hbranch with htouch | ⟨happ, hgle, hforall⟩
      · -- found-branch refresh
        refine ⟨newG₁, ?_, ?_⟩
        · rw [hG1, htouch, List.map_map]
          congr 1
          refine List.map_congr_left fun G _ => ?_
          show gUpd sid rest memo₁ m'
            (if G.name == g && G.sourceId == sid
             then { G with image := coalesce e₀.image G.image } else G) =
            gUpd sid (e₀ :: rest) memo m' G
          rw [hm1]
          exact gUpd_touch sid e₀ g rest memo m' gid hge hmiss hm'g G
        · intro G hGn
          obtain ⟨s1, s2, s3, s4⟩ := hGspec G hGn
          have hne : ¬(G.name == g) = true := by
            intro hb
            rw [hm1, lookup_cons, if_pos hb] at s3
            cases s3
          have s3' : memo.lookup G.name = none := by
            rw [hm1, lookup_cons, if_neg hne] at s3
            exact s3
          refine ⟨s1, le_trans hgm s2, s3', ?_⟩
          intro e₂ he₂
          rw [firstEntryWithGroup_cons] at he₂
          have hb : ¬(entryGroup e₀ == some G.name) = true := by
            rw [hge]
            intro hb
            exact hne (beq_iff_eq.2 (Option.some.inj (beq_iff_eq.1 hb)).symm)
          rw [if_neg hb] at he₂
          exact s4 e₂ he₂
      · -- create-branch insertion
        have hGnewEq : gUpd sid rest memo₁ m'
            { id := gid, name := g, image := e₀.image, sourceId := sid } =
            { id := gid, name := g, image := e₀.image, sourceId := sid } := by
          rw [gUpd]
          rw [if_neg ?_]
          intro hb
          rw [Bool.and_eq_true, Bool.and_eq_true] at hb
          have hx := hb.1.2
          rw [show (({ id := gid, name := g, image := e₀.image, sourceId := sid } : Group)).name = g from rfl, hm1g] at hx
          cases hx
        refine ⟨({ id := gid, name := g, image := e₀.image, sourceId := sid } : Group) :: newG₁, ?_, ?_⟩
        · rw [hG1, happ, List.map_append, List.map_cons, List.map_nil,
            hGnewEq, List.append_assoc]
          congr 1
          refine List.map_congr_left fun G hGm => ?_
          rw [hm1]
          exact gUpd_create sid e₀ g rest memo m' gid hge G (hforall G hGm)
        · intro G hGn
          rcases List.mem_cons.1 hGn with rfl | hGn'
          · refine ⟨rfl, hgle, hmiss, ?_⟩
            intro e₂ he₂
            rw [firstEntryWithGroup_cons,
              if_pos (by rw [hge]; exact beq_iff_eq.2 rfl)] at he₂
            injection he₂ with he₂
            subst he₂
            exact coalesce_self _
          · obtain ⟨s1, s2, s3, s4⟩ := hGspec G hGn'
            have hne : ¬(G.name == g) = true := by
              intro hb
              rw [hm1, lookup_cons, if_pos hb] at s3
              cases s3
            have s3' : memo.lookup G.name = none := by
              rw [hm1, lookup_cons, if_neg hne] at s3
              exact s3
            refine ⟨s1, le_trans hgm s2, s3', ?_⟩
            intro e₂ he₂
            rw [firstEntryWithGroup_cons] at he₂
            have hb : ¬(entryGroup e₀ == some G.name) = true := by
              rw [hge]
              intro hb
              exact hne (beq_iff_eq.2 (Option.some.inj (beq_iff_eq.1 hb)).symm)
            rw [if_neg hb] at he₂
            exact s4 e₂ he₂
  · -- channels
    refine ⟨newC₀.map (rwLast sid rest m') ++ newC₁, ?_, ?_, ?_⟩
    · rw [hc1, hc0, List.map_append, List.map_map, List.append_assoc]
      congr 1
      refine List.map_congr_left fun c _ => ?_
      show rwLast sid rest m'
        (if c.key == ekey sid e₀
         then { c with image := e₀.image, mediaType := e₀.mediaType, groupId := resolveEntryGid memo₁ e₀ }
         else c) = rwLast sid (e₀ :: rest) m' c
      rw [hgid]
      exact rwLast_step sid e₀ rest m' c
    · intro x hx
      rcases List.mem_append.1 hx with hx | hx
      · obtain ⟨c₀, hc₀, rfl⟩ := List.mem_map.1 hx
        obtain ⟨t1, t2, t3, t4, t5, t6, t7⟩ := hc0spec c₀ hc₀
        have hfr := rwLast_frame sid rest m' c₀
        refine ⟨hfr.2.2.2.1.trans t1, ?_, hfr.2.2.2.2.2.1.trans t3, ?_⟩
        · rw [hfr.1]
          exact t2
        · rw [hfr.2.2.2.2.2.2]
          rcases hle : lastEntry sid rest c₀.key with - | e
          · refine ⟨e₀, ?_, ?_, ?_, ?_⟩
            · rw [lastEntry_cons, hle,
                if_pos (beq_iff_eq.2 t4.symm)]
            · rw [rwLast, hle]
              exact t5
            · rw [rwLast, hle]
              exact t6
            · rw [rwLast, hle, t7, hgid]
          · refine ⟨e, ?_, ?_, ?_, ?_⟩
            · rw [lastEntry_cons, hle]
            · rw [rwLast, hle]
            · rw [rwLast, hle]
            · rw [rwLast, hle]
      · obtain ⟨t1, t2, t3, t4⟩ := hc1spec x hx
        obtain ⟨e, he1, he2, he3, he4⟩ := t4
        refine ⟨t1, le_trans hcm t2, t3, e, ?_, he2, he3, he4⟩
        rw [lastEntry_cons, he1]
    · intro hall
      have hnc0 : newC₀ = [] := hc0cond (hall e₀ (List.mem_cons_self e₀ rest))
      have hnc1 : newC₁ = [] := by
        apply hc1cond
        intro e he
        obtain ⟨c, hc, hk⟩ := hall e (List.mem_cons_of_mem e₀ he)
        refine ⟨(fun c => if c.key == ekey sid e₀
            then { c with image := e₀.image, mediaType := e₀.mediaType, groupId := resolveEntryGid memo₁ e₀ }
            else c) c, ?_, ?_⟩
        · rw [hc0, hnc0, List.append_nil]
          exact List.mem_map.2 ⟨c, hc, rfl⟩
        · rw [(chanStep_frame sid e₀ (resolveEntryGid memo₁ e₀) c).2.1]
          exact hk
      rw [hnc0, hnc1, List.map_nil, List.nil_append]
  · -- keep ids
    refine ⟨cid :: δ₁, ?_, ?_, ?_⟩
    · rw [hδ1, List.append_assoc]
      rfl
    · intro i hi
      rcases List.mem_cons.1 hi with rfl | hi'
      · refine ⟨rwLast sid rest m' crow, hlift1, hfrc.1.trans hrid,
          hfrc.2.2.2.1.trans hrsid, ?_⟩
        rw [hfrc.2.2.2.2.2.2, hrkey, List.map_cons]
        exact List.mem_cons_self _ _
      · obtain ⟨c, hc, h1, h2, h3⟩ := hsound1 i hi'
        refine ⟨c, hc, h1, h2, ?_⟩
        rw [List.map_cons]
        exact List.mem_cons_of_mem _ h3
    · intro e he
      rcases List.mem_cons.1 he with rfl | he'
      · refine ⟨rwLast sid rest m' crow, hlift1,
          hfrc.2.2.2.2.2.2.trans hrkey, ?_⟩
        rw [hδ1]
        exact List.mem_append.2 (Or.inl (List.mem_append.2
          (Or.inr (List.mem_singleton.2 (hfrc.1.trans hrid)))))
      · exact hcomp1 e he'

theorem MemoOK_congr (sid : Nat) (db db' : DB) (m : List (String × Nat))
    (h : db'.groups = db.groups) (hm : MemoOK sid db m) : MemoOK sid db' m :=
  fun g i hl => by
    rw [h]
    exact hm g i hl

set_option maxHeartbeats 1000000 in
/-- The upsert loop over the pure store never fails and satisfies the full
characterisation. -/
theorem ingestLoop_char (now sid : Nat) :
    ∀ (r : List Entry) (db : DB) (keep : List Nat)
      (memo : List (String × Nat)) (count : Nat),
      WF db → MemoOK sid db memo →
      ∃ keep' m' count' db',
        ingestLoop (dbOps now) (fun _ => false) sid r db keep memo count =
          (some (keep', m', count'), db') ∧
        LoopChar sid r db keep memo count keep' m' count' db' := by
  intro r
  induction r with
  | nil =>
    intro db keep memo count hwf hmemo
    exact ⟨keep, memo, count, db, rfl,
      LoopChar_nil sid db keep memo count hwf hmemo⟩
  | cons e₀ rest ih =>
    intro db keep memo count hwf hmemo
    obtain ⟨gid₀, memo₁, dbg, hres, hgid0, hwfg, hmemog, hgch, hgsrc, hgnc,
      hgnsrc, hgng, hgstab, hgmem, hgpers, hgdf, hgbranch⟩ :=
      resolveGroup_char now sid e₀ memo db hwf hmemo
    subst hgid0
    obtain ⟨cid, dbu, hup, hwfu, hug, hus, hung, hunsrc, hucm, huchan, hurow⟩ :=
      upsert_char now sid e₀ memo₁ dbg hwfg
    have hcf : ¬(((fun _ : Nat => false) count) = true) :=
      fun hx => Bool.false_ne_true hx
    rcases hh : e₀.headers with - | hdr
    · -- no per-entry headers
      obtain ⟨keep', m', count', db', hrec, hchar⟩ :=
        ih dbu (keep ++ [cid]) memo₁ (count + 1) hwfu
          (MemoOK_congr sid dbg dbu memo₁ hug hmemog)
      refine ⟨keep', m', count', db', ?_, ?_⟩
      · rw [ingestLoop, if_neg hcf, hres]
        simp only []
        rw [hup]
        simp only []
        rw [hh]
        exact hrec
      · refine LoopChar_cons sid e₀ rest db dbu keep memo memo₁ count cid
          keep' m' count' db' (hus.trans hgsrc) (hunsrc.trans hgnsrc)
          hgstab hgmem ?_ hgdf ?_ ?_ ?_ hurow ?_ hchar
        · intro G hG
          obtain ⟨G₁, hmemg, f1, f2, f3⟩ := hgpers G hG
          refine ⟨G₁, ?_, f1, f2, f3⟩
          rw [hug]
          exact hmemg
        · rw [← hgnc]
          exact hucm
        · rw [hung]
          exact hgng
        · obtain ⟨newC₀, u1, u2, u3⟩ := huchan
          refine ⟨newC₀, ?_, ?_, ?_⟩
          · rw [u1, hgch]
          · intro c hc
            obtain ⟨a1, a2, a3, a4, a5, a6, a7⟩ := u2 c hc
            refine ⟨a1, ?_, a3, a4, a5, a6, a7⟩
            rw [← hgnc]
            exact a2
          · intro hex
            apply u3
            rw [hgch]
            exact hex
        · rcases hgbranch with ⟨a, b, c⟩ | ⟨g, gid, b1, b2, b3, hbr⟩
          · refine Or.inl ⟨a, ?_, c⟩
            rw [hug, b]
          · refine Or.inr ⟨g, gid, b1, b2, b3, ?_⟩
            rcases hbr with ⟨hb1, hb2⟩ | ⟨hb1, hb2, hb3, hb4⟩
            · refine Or.inl ?_
              rw [hug]
              exact hb1
            · refine Or.inr ⟨?_, Nat.le_of_eq hb2.symm, hb4⟩
              rw [hug]
              exact hb1
    · -- per-entry headers upserted after the channel row
      have hhfr := UpsertChannelHeaders_frame dbu cid hdr
      have hwf₁ := WF_upsertChannelHeaders dbu cid hdr hwfu
      obtain ⟨keep', m', count', db', hrec, hchar⟩ :=
        ih (UpsertChannelHeaders dbu cid hdr) (keep ++ [cid]) memo₁
          (count + 1) hwf₁
          (MemoOK_congr sid dbg (UpsertChannelHeaders dbu cid hdr) memo₁
            (hhfr.2.1.trans hug) hmemog)
      refine ⟨keep', m', count', db', ?_, ?_⟩
      · rw [ingestLoop, if_neg hcf, hres]
        simp only []
        rw [hup]
        simp only []
        rw [hh]
        simp only []
        rw [dbOps_upsertChannelHeaders]
        exact hrec
      · refine LoopChar_cons sid e₀ rest db (UpsertChannelHeaders dbu cid hdr)
          keep memo memo₁ count cid keep' m' count' db'
          (hhfr.2.2.1.trans (hus.trans hgsrc))
          (hhfr.2.2.2.2.2.trans (hunsrc.trans hgnsrc))
          hgstab hgmem ?_ hgdf ?_ ?_ ?_ ?_ ?_ hchar
        · intro G hG
          obtain ⟨G₁, hmemg, f1, f2, f3⟩ := hgpers G hG
          refine ⟨G₁, ?_, f1, f2, f3⟩
          rw [hhfr.2.1, hug]
          exact hmemg
        · rw [hhfr.2.2.2.1, ← hgnc]
          exact hucm
        · rw [hhfr.2.2.2.2.1, hung]
          exact hgng
        · obtain ⟨newC₀, u1, u2, u3⟩ := huchan
          refine ⟨newC₀, ?_, ?_, ?_⟩
          · rw [hhfr.1, u1, hgch]
          · intro c hc
            obtain ⟨a1, a2, a3, a4, a5, a6, a7⟩ := u2 c hc
            refine ⟨a1, ?_, a3, a4, a5, a6, a7⟩
            rw [← hgnc]
            exact a2
          · intro hex
            apply u3
            rw [hgch]
            exact hex
        · obtain ⟨crow, k1, k2, k3, k4⟩ := hurow
          refine ⟨crow, ?_, k2, k3, k4⟩
          rw [hhfr.1]
          exact k1
        · rcases hgbranch with ⟨a, b, c⟩ | ⟨g, gid, b1, b2, b3, hbr⟩
          · refine Or.inl ⟨a, ?_, c⟩
            rw [hhfr.2.1, hug, b]
          · refine Or.inr ⟨g, gid, b1, b2, b3, ?_⟩
            rcases hbr with ⟨hb1, hb2⟩ | ⟨hb1, hb2, hb3, hb4⟩
            · refine Or.inl ?_
              rw [hhfr.2.1, hug]
              exact hb1
            · refine Or.inr ⟨?_, Nat.le_of_eq hb2.symm, hb4⟩
              rw [hhfr.2.1, hug]
              exact hb1

/-- `gUpd` only ever touches the image. -/
theorem gUpd_frame (sid : Nat) (E : List Entry) (m m' : List (String × Nat))
    (G : Group) :
    (gUpd sid E m m' G).name = G.name ∧
    (gUpd sid E m m' G).sourceId = G.sourceId ∧
    (gUpd sid E m m' G).id = G.id := by
  rw [gUpd]
  by_cases h : G.sourceId == sid && (m.lookup G.name).isNone &&
      (m'.lookup G.name).isSome
  · rw [if_pos h]
    rcases hf : firstEntryWithGroup E G.name with - | e₀
    · exact ⟨rfl, rfl, rfl⟩
    · exact ⟨rfl, rfl, rfl⟩
  · rw [if_neg h]
    exact ⟨rfl, rfl, rfl⟩

/-- The last-updated touch preserves a source row's name and id. -/
theorem srcTouch_frame (sid now : Nat) (t : Source) :
    ((if t.id == sid then { t with lastUpdated := some now } else t) :
      Source).name = t.name ∧
    ((if t.id == sid then { t with lastUpdated := some now } else t) :
      Source).id = t.id := by
  by_cases h : t.id == sid
  · rw [if_pos h]
    exact ⟨rfl, rfl⟩
  · rw [if_neg h]
    exact ⟨rfl, rfl⟩

theorem staleFor_false_of_keep (sid : Nat) (keep : List Nat) (c : Channel)
    (h : c.id ∈ keep) : staleFor sid keep c = false := by
  rw [staleFor]
  have hc : keep.contains c.id = true := List.elem_iff.2 h
  rw [hc]
  simp

theorem mem_keep_of_staleFor_false (sid : Nat) (keep : List Nat) (c : Channel)
    (hs : c.sourceId = sid) (h : staleFor sid keep c = false) :
    c.id ∈ keep := by
  rw [staleFor, hs] at h
  simp only [beq_self_eq_true, Bool.true_and] at h
  simp at h
  exact h

theorem CreateOrGetSource_src (db : DB) (name url : String) (ty : Int)
    (ua : String) :
    ∃ s ∈ (CreateOrGetSource db name url ty ua).2.sources,
      s.name = name ∧ s.id = (CreateOrGetSource db name url ty ua).1 := by
  rcases hfind : db.sources.find? (fun s => s.name == name) with - | s
  · rw [CreateOrGetSource_new db name url ty ua hfind]
    exact ⟨_, List.mem_append.2 (Or.inr (List.mem_singleton.2 rfl)), rfl, rfl⟩
  · rw [CreateOrGetSource_found db name url ty ua s hfind]
    have hps := List.find?_some hfind
    simp only [] at hps
    have hpn : s.name = name := beq_iff_eq.1 hps
    refine ⟨_, List.mem_map.2 ⟨s, List.mem_of_find?_eq_some hfind, rfl⟩, ?_, ?_⟩
    · by_cases h : s.name == name
      · rw [if_pos h]
        exact hpn
      · rw [if_neg h]
        exact hpn
    · by_cases h : s.name == name
      · rw [if_pos h]
      · rw [if_neg h]

/-- The invariant a completed Ingest run establishes on the store, for source
`sid` named `nm` and feed `E`: well-formedness, the source row, every
source channel written from the last feed entry with its key and linked to a
stored group of the source, every feed key present, every source group still
referenced, and every source group's image a fixed point of the feed. -/
structure PostInv (sid : Nat) (nm : String) (E : List Entry) (db : DB) :
    Prop where
  wf : WF db
  src : ∃ s ∈ db.sources, s.name = nm ∧ s.id = sid
  chanContent : ∀ c ∈ db.channels, c.sourceId = sid →
    ∃ e, lastEntry sid E c.key = some e ∧ c.image = e.image ∧
      c.mediaType = e.mediaType ∧
      ((entryGroup e = none ∧ c.groupId = none) ∨
       (∃ g G, entryGroup e = some g ∧ G ∈ db.groups ∧ G.name = g ∧
         G.sourceId = sid ∧ c.groupId = some G.id))
  chanComplete : ∀ e ∈ E, ∃ c ∈ db.channels, c.key = ekey sid e
  grpRef : ∀ G ∈ db.groups, G.sourceId = sid →
    G.id ∈ usedGroupIds db sid
  grpStable : ∀ G ∈ db.groups, G.sourceId = sid →
    ∀ e₀, firstEntryWithGroup E G.name = some e₀ →
      coalesce e₀.image G.image = G.image

set_option maxHeartbeats 1600000 in
/-- A full Ingest run over the pure store from any well-formed state: it
succeeds, returns the feed length as its channel count, establishes the
post-run invariant, and preserves id, key, favorite and embedding of every
pre-existing source channel whose key is still in the feed. -/
theorem Ingest_run (now : Nat) (db : DB) (entries : List Entry)
    (url name ua : String) (hwf : WF db) (hurl : ¬(url = "")) :
    ∃ sid db',
      Ingest (dbOps now) (fun _ => false) (some entries) url name ua db =
        (some (sid, entries.length), db') ∧
      PostInv sid (if name = "" then "m3u" else name) entries db' ∧
      (∀ c ∈ db.channels, c.sourceId = sid →
        (∃ e ∈ entries, ekey sid e = c.key) →
        ∃ c' ∈ db'.channels, c'.id = c.id ∧ c'.key = c.key ∧
          c'.favorite = c.favorite ∧ c'.embedding = c.embedding) := by
  have hframe := CreateOrGetSource_frame db (if name = "" then "m3u" else name)
    url SourceTypeM3ULink ua
  have hwfS := WF_createOrGetSource db (if name = "" then "m3u" else name)
    url SourceTypeM3ULink ua hwf
  have hsrcS := CreateOrGetSource_src db (if name = "" then "m3u" else name)
    url SourceTypeM3ULink ua
  rcases hCG : CreateOrGetSource db (if name = "" then "m3u" else name)
    url SourceTypeM3ULink ua with ⟨sid, dbs⟩
  rw [hCG] at hframe hwfS hsrcS
  simp only [] at hframe hwfS hsrcS
  obtain ⟨hfc, hfg, hfh, hfnc, hfng⟩ := hframe
  obtain ⟨keep₁, m₁, count₁, dbL, hloop, hchar⟩ :=
    ingestLoop_char now sid entries dbs [] [] 0 hwfS (MemoOK_nil sid dbs)
  rcases hRS : RemoveStaleChannels dbL sid keep₁ with ⟨nS, dbS⟩
  rcases hRO : RemoveOrphanedGroups dbS sid with ⟨nO, dbO⟩
  have hchS := RemoveStaleChannels_channels dbL sid keep₁
  rw [hRS] at hchS
  simp only [] at hchS
  have hfrS := RemoveStaleChannels_frame dbL sid keep₁
  rw [hRS] at hfrS
  simp only [] at hfrS
  obtain ⟨hSg, hSs, hSnc, hSng, hSns⟩ := hfrS
  have hgO := RemoveOrphanedGroups_groups dbS sid
  rw [hRO] at hgO
  simp only [] at hgO
  have hfrO := RemoveOrphanedGroups_frame dbS sid
  rw [hRO] at hfrO
  simp only [] at hfrO
  obtain ⟨hOc, hOs, hOh, hOnc, hOng, hOns⟩ := hfrO
  have hwfS2 := WF_removeStaleChannels dbL sid keep₁ hchar.wf
  rw [hRS] at hwfS2
  simp only [] at hwfS2
  have hwfO := WF_removeOrphanedGroups dbS sid hwfS2
  rw [hRO] at hwfO
  simp only [] at hwfO
  have hfrT := UpdateSourceLastUpdated_frame dbO sid now
  obtain ⟨hTc, hTg, hTnc, hTng, hTns⟩ := hfrT
  have hwfT := WF_updateSourceLastUpdated dbO sid now hwfO
  have hCdbp : (UpdateSourceLastUpdated dbO sid now).channels =
      dbS.channels := hTc.trans hOc
  have hGdbp : (UpdateSourceLastUpdated dbO sid now).groups = dbO.groups := hTg
  have husedEq : usedGroupIds (UpdateSourceLastUpdated dbO sid now) sid =
      usedGroupIds dbS sid := by
    rw [usedGroupIds, usedGroupIds, hCdbp]
  have hGsurv : ∀ G ∈ dbL.groups, ∀ cR ∈ dbS.channels, cR.sourceId = sid →
      cR.groupId = some G.id → G ∈ dbO.groups := by
    intro G hGL cR hcR hcRs hcRg
    rw [hgO]
    refine List.mem_filter.2 ⟨by rw [hSg]; exact hGL, ?_⟩
    have hused : (usedGroupIds dbS sid).contains G.id = true := by
      apply List.elem_iff.2
      rw [usedGroupIds]
      exact List.mem_filterMap.2
        ⟨cR, List.mem_filter.2 ⟨hcR, beq_iff_eq.2 hcRs⟩, hcRg⟩
    show (!(G.sourceId == sid && !((usedGroupIds dbS sid).contains G.id))) = true
    rw [hused]
    simp
  obtain ⟨δ, hδeq, hsound, hcomp⟩ := hchar.keeps
  rw [List.nil_append] at hδeq
  refine ⟨sid, UpdateSourceLastUpdated dbO sid now, ?_, ?_, ?_⟩
  · -- the run equation
    rw [Ingest, if_neg hurl]
    simp only [dbOps_createOrGetSource]
    rw [hCG]
    simp only []
    rw [hloop]
    simp only [dbOps_countChannelsBySource]
    rw [dbOps_removeStaleChannels, hRS]
    simp only []
    rw [dbOps_removeOrphanedGroups, hRO]
    simp only []
    rw [dbOps_updateSourceLastUpdated]
    simp only []
    rw [hchar.count_eq, Nat.zero_add]
  · -- PostInv
    refine ⟨hwfT, ?_, ?_, ?_, ?_, ?_⟩
    · -- the source row
      obtain ⟨s, hsS, hsname, hsid⟩ := hsrcS
      have hsO : s ∈ dbO.sources := by
        rw [hOs, hSs, hchar.srcFrame]
        exact hsS
      refine ⟨_, List.mem_map.2 ⟨s, hsO, rfl⟩, ?_, ?_⟩
      · rw [(srcTouch_frame sid now s).1]
        exact hsname
      · rw [(srcTouch_frame sid now s).2]
        exact hsid
    · -- channel content
      intro c hc hcsid
      rw [hCdbp] at hc
      have hcF := hc
      rw [hchS] at hcF
      obtain ⟨hcL, hstale⟩ := List.mem_filter.1 hcF
      have hstale' : staleFor sid keep₁ c = false := by
        revert hstale
        cases staleFor sid keep₁ c <;> simp
      have hkeepmem : c.id ∈ keep₁ :=
        mem_keep_of_staleFor_false sid keep₁ c hcsid hstale'
      rw [hδeq] at hkeepmem
      obtain ⟨ρ, hρL, hρid, hρsid, hρkey⟩ := hsound c.id hkeepmem
      have hρeq : ρ = c :=
        nodup_key_eq Channel.id dbL.channels hchar.wf.chanIdsNodup hρL hcL hρid
      rw [hρeq] at hρkey
      have hsomeE : (lastEntry sid entries c.key).isSome :=
        (lastEntry_isSome_iff sid entries c.key).2 hρkey
      rcases hle : lastEntry sid entries c.key with - | e
      · rw [hle] at hsomeE
        cases hsomeE
      obtain ⟨newC, hNC, hNCspec, -⟩ := hchar.chans
      rw [hNC] at hcL
      rcases List.mem_append.1 hcL with hcM | hcN
      · obtain ⟨c₀, hc₀, hc₀eq⟩ := List.mem_map.1 hcM
        have hkey0 : c.key = c₀.key := by
          rw [← hc₀eq]
          exact (rwLast_frame sid entries m₁ c₀).2.2.2.2.2.2
        rw [hkey0] at hle
        rw [rwLast, hle] at hc₀eq
        simp only [] at hc₀eq
        have hemem : e ∈ entries := (lastEntry_key sid entries c₀.key e hle).2
        subst hc₀eq
        refine ⟨e, rfl, rfl, rfl, ?_⟩
        rcases hge : entryGroup e with - | g
        · refine Or.inl ⟨rfl, ?_⟩
          show resolveEntryGid m₁ e = none
          exact resolveEntryGid_of_none m₁ e hge
        · obtain ⟨i, hi⟩ := Option.isSome_iff_exists.1
            (hchar.memoised e hemem g hge)
          obtain ⟨G, hGL, hGname, hGsid, hGid⟩ := hchar.memoOK g i hi
          have hggid : resolveEntryGid m₁ e = some G.id := by
            rw [resolveEntryGid_of_some m₁ e g hge, hi, hGid]
          refine Or.inr ⟨g, G, rfl, ?_, hGname, hGsid, hggid⟩
          rw [hGdbp]
          exact hGsurv G hGL _ hc hcsid hggid
      · obtain ⟨t1, t2, t3, e', he1', he2', he3', he4'⟩ := hNCspec c hcN
        have hemem' : e' ∈ entries := (lastEntry_key sid entries c.key e' he1').2
        refine ⟨e', by rw [hle] at he1'; exact he1', he2', he3', ?_⟩
        rcases hge : entryGroup e' with - | g
        · exact Or.inl ⟨rfl, by rw [he4', resolveEntryGid_of_none m₁ e' hge]⟩
        · obtain ⟨i, hi⟩ := Option.isSome_iff_exists.1
            (hchar.memoised e' hemem' g hge)
          obtain ⟨G, hGL, hGname, hGsid, hGid⟩ := hchar.memoOK g i hi
          have hggid : c.groupId = some G.id := by
            rw [he4', resolveEntryGid_of_some m₁ e' g hge, hi, hGid]
          refine Or.inr ⟨g, G, rfl, ?_, hGname, hGsid, hggid⟩
          rw [hGdbp]
          exact hGsurv G hGL c hc hcsid hggid
    · -- completeness
      intro e he
      obtain ⟨cR, hcRL, hcRkey, hcRkeep⟩ := hcomp e he
      refine ⟨cR, ?_, hcRkey⟩
      rw [hCdbp, hchS]
      refine List.mem_filter.2 ⟨hcRL, ?_⟩
      rw [staleFor_false_of_keep sid keep₁ cR hcRkeep]
      rfl
    · -- groups still referenced
      intro G hG hGs
      rw [hGdbp, hgO] at hG
      obtain ⟨hGS, hpred⟩ := List.mem_filter.1 hG
      have hcontains : (usedGroupIds dbS sid).contains G.id = true := by
        simp only [hGs, beq_self_eq_true, Bool.true_and] at hpred
        revert hpred
        cases (usedGroupIds dbS sid).contains G.id <;> simp
      rw [husedEq]
      exact List.elem_iff.1 hcontains
    · -- group image stability
      intro G hG hGs e₀ hfe
      rw [hGdbp, hgO] at hG
      obtain ⟨hGS, -⟩ := List.mem_filter.1 hG
      rw [hSg] at hGS
      obtain ⟨newG, hNG, hNGspec⟩ := hchar.groups
      rw [hNG] at hGS
      rcases List.mem_append.1 hGS with hGm | hGn
      · obtain ⟨G₀, hG₀, hG₀eq⟩ := List.mem_map.1 hGm
        have hfr0 := gUpd_frame sid entries [] m₁ G₀
        have hname : G.name = G₀.name := by
          rw [← hG₀eq]
          exact hfr0.1
        have hsid0 : G₀.sourceId = sid := by
          rw [← hfr0.2.1, hG₀eq]
          exact hGs
        rw [hname] at hfe
        have hp := List.find?_some hfe
        simp only [] at hp
        have hgeq : entryGroup e₀ = some G₀.name := beq_iff_eq.1 hp
        have hememo := hchar.memoised e₀ (List.mem_of_find?_eq_some hfe)
          G₀.name hgeq
        obtain ⟨i, hi⟩ := Option.isSome_iff_exists.1 hememo
        have hcond : (G₀.sourceId == sid &&
            (([] : List (String × Nat)).lookup G₀.name).isNone &&
            (m₁.lookup G₀.name).isSome) = true := by
          rw [hsid0, hi]
          simp [List.lookup]
        rw [gUpd, if_pos hcond, hfe] at hG₀eq
        subst hG₀eq
        exact coalesce_idem _ _
      · exact (hNGspec G hGn).2.2.2 e₀ hfe
  · -- favorite and embedding preservation for surviving keys
    intro c hc hcsid hex
    obtain ⟨e, he, hekey⟩ := hex
    have hcs' : c ∈ dbs.channels := by
      rw [hfc]
      exact hc
    obtain ⟨newC, hNC, -, -⟩ := hchar.chans
    have hcL : rwLast sid entries m₁ c ∈ dbL.channels := by
      rw [hNC]
      exact List.mem_append.2 (Or.inl (List.mem_map.2 ⟨c, hcs', rfl⟩))
    have hfrc := rwLast_frame sid entries m₁ c
    obtain ⟨ρ, hρL, hρkey, hρkeep⟩ := hcomp e he
    have hkeyeq : ρ.key = (rwLast sid entries m₁ c).key := by
      rw [hρkey, hfrc.2.2.2.2.2.2, ← hekey]
    have hρeq : ρ = rwLast sid entries m₁ c :=
      nodup_key_eq Channel.key dbL.channels hchar.wf.chanKeysNodup hρL hcL hkeyeq
    have hkeep : (rwLast sid entries m₁ c).id ∈ keep₁ := hρeq ▸ hρkeep
    refine ⟨rwLast sid entries m₁ c, ?_, hfrc.1, hfrc.2.2.2.2.2.2,
      hfrc.2.2.2.2.1, hfrc.2.2.2.2.2.1⟩
    rw [hCdbp, hchS]
    refine List.mem_filter.2 ⟨hcL, ?_⟩
    rw [staleFor_false_of_keep sid keep₁ _ hkeep]
    rfl

set_option maxHeartbeats 1600000 in
/-- Re-running Ingest on a store satisfying the post-run invariant for the
same feed returns the same result and leaves the channel and group tables
unchanged. -/
theorem Ingest_idem (now : Nat) (db1 : DB) (entries : List Entry)
    (url name ua : String) (sid : Nat)
    (hpost : PostInv sid (if name = "" then "m3u" else name) entries db1)
    (hurl : ¬(url = "")) :
    ∃ db2,
      Ingest (dbOps now) (fun _ => false) (some entries) url name ua db1 =
        (some (sid, entries.length), db2) ∧
      db2.channels = db1.channels ∧ db2.groups = db1.groups := by
  obtain ⟨s, hs, hsname, hsid⟩ := hpost.src
  have hframe := CreateOrGetSource_frame db1 (if name = "" then "m3u" else name)
    url SourceTypeM3ULink ua
  have hwf1' := WF_createOrGetSource db1 (if name = "" then "m3u" else name)
    url SourceTypeM3ULink ua hpost.wf
  rcases hfind : db1.sources.find?
      (fun t => t.name == (if name = "" then "m3u" else name)) with - | s'
  · exact absurd (beq_iff_eq.2 hsname) (List.find?_eq_none.1 hfind s hs)
  have hCGeq := CreateOrGetSource_found db1 (if name = "" then "m3u" else name)
    url SourceTypeM3ULink ua s' hfind
  have hs'mem := List.mem_of_find?_eq_some hfind
  have hps' := List.find?_some hfind
  simp only [] at hps'
  have hs'name : s'.name = (if name = "" then "m3u" else name) :=
    beq_iff_eq.1 hps'
  have hs'eq : s' = s := nodup_key_eq Source.name db1.sources
    hpost.wf.srcNamesNodup hs'mem hs (hs'name.trans hsname.symm)
  rcases hCG : CreateOrGetSource db1 (if name = "" then "m3u" else name)
    url SourceTypeM3ULink ua with ⟨sid₂, db1'⟩
  rw [hCG] at hframe hwf1' hCGeq
  simp only [] at hframe hwf1'
  obtain ⟨hfc1', hfg1', hfh1', hfnc1', hfng1'⟩ := hframe
  have hsid₂ : sid₂ = sid := by
    have := congrArg Prod.fst hCGeq
    simp only [] at this
    rw [this, hs'eq, hsid]
  rw [hsid₂] at hCG
  obtain ⟨keep₂, m₂, count₂, dbL2, hloop, hchar⟩ :=
    ingestLoop_char now sid entries db1' [] [] 0 hwf1' (MemoOK_nil sid db1')
  obtain ⟨newC2, hNC, hNCspec, hNCcond⟩ := hchar.chans
  have hnc : newC2 = [] := by
    apply hNCcond
    intro e he
    rw [hfc1']
    exact hpost.chanComplete e he
  have hrwid : ∀ c ∈ db1'.channels, rwLast sid entries m₂ c = c := by
    intro c hc
    rw [hfc1'] at hc
    by_cases hcs : c.sourceId = sid
    · obtain ⟨e, hle, him, hmt, hdisj⟩ := hpost.chanContent c hc hcs
      rw [rwLast, hle]
      simp only []
      rcases hdisj with ⟨hgn, hcg⟩ | ⟨g, G, hgs, hGmem, hGname, hGsid, hcg⟩
      · have hres : resolveEntryGid m₂ e = c.groupId := by
          rw [hcg]
          exact resolveEntryGid_of_none m₂ e hgn
        rw [← him, ← hmt, hres]
      · have hemem : e ∈ entries := (lastEntry_key sid entries c.key e hle).2
        have hm₂g : m₂.lookup g = some G.id :=
          hchar.dfound g G (by rw [hfg1']; exact hGmem) hGname hGsid
            ⟨e, hemem, hgs⟩
        have hres : resolveEntryGid m₂ e = c.groupId := by
          rw [hcg, resolveEntryGid_of_some m₂ e g hgs, hm₂g]
        rw [← him, ← hmt, hres]
    · have hln : lastEntry sid entries c.key = none := by
        rcases h : lastEntry sid entries c.key with - | e
        · rfl
        · obtain ⟨hk, -⟩ := lastEntry_key sid entries c.key e h
          exact absurd (congrArg (fun k => k.2.1) hk).symm hcs
      rw [rwLast, hln]
  have hchL : dbL2.channels = db1.channels := by
    rw [hNC, hnc, List.append_nil,
      show db1'.channels.map (rwLast sid entries m₂) = db1'.channels.map id
        from List.map_congr_left hrwid,
      List.map_id, hfc1']
  obtain ⟨newG2, hNG, hNGspec⟩ := hchar.groups
  have hguid : ∀ G ∈ db1'.groups, gUpd sid entries [] m₂ G = G := by
    intro G hG
    rw [hfg1'] at hG
    rw [gUpd]
    by_cases hcnd : (G.sourceId == sid &&
        (([] : List (String × Nat)).lookup G.name).isNone &&
        (m₂.lookup G.name).isSome) = true
    · rw [if_pos hcnd]
      rcases hf : firstEntryWithGroup entries G.name with - | e₀
      · rfl
      · have hGsid : G.sourceId = sid := by
          rw [Bool.and_eq_true, Bool.and_eq_true] at hcnd
          exact beq_iff_eq.1 hcnd.1.1
        have hst := hpost.grpStable G hG hGsid e₀ hf
        simp only []
        rw [hst]
    · rw [if_neg hcnd]
  have hgrL : dbL2.groups = db1.groups ++ newG2 := by
    rw [hNG,
      show db1'.groups.map (gUpd sid entries [] m₂) = db1'.groups.map id
        from List.map_congr_left hguid,
      List.map_id, hfg1']
  obtain ⟨δ, hδ, hsound, hcomp⟩ := hchar.keeps
  have hstaleall : ∀ c ∈ dbL2.channels, (!(staleFor sid keep₂ c)) = true := by
    intro c hc
    have hc1 := hc
    rw [hchL] at hc1
    by_cases hcs : c.sourceId = sid
    · obtain ⟨e, hle, -, -, -⟩ := hpost.chanContent c hc1 hcs
      have hekey := lastEntry_key sid entries c.key e hle
      obtain ⟨ρ, hρ, hρkey, hρkeep⟩ := hcomp e hekey.2
      have hρeq : ρ = c := nodup_key_eq Channel.key dbL2.channels
        hchar.wf.chanKeysNodup hρ hc (hρkey.trans hekey.1)
      have hidk : c.id ∈ keep₂ := by
        rw [← hρeq]
        exact hρkeep
      rw [staleFor_false_of_keep sid keep₂ c hidk]
      rfl
    · rw [staleFor]
      have hb : (c.sourceId == sid) = false := by
        rw [beq_eq_false_iff_ne]
        exact hcs
      rw [hb]
      rfl
  rcases hRS : RemoveStaleChannels dbL2 sid keep₂ with ⟨nS, dbS2⟩
  have hchS := RemoveStaleChannels_channels dbL2 sid keep₂
  rw [hRS] at hchS
  simp only [] at hchS
  have hfrS := RemoveStaleChannels_frame dbL2 sid keep₂
  rw [hRS] at hfrS
  simp only [] at hfrS
  obtain ⟨hSg, hSs, hSnc, hSng, hSns⟩ := hfrS
  have hSid : dbS2.channels = db1.channels := by
    rw [hchS, List.filter_eq_self.2 hstaleall, hchL]
  rcases hRO : RemoveOrphanedGroups dbS2 sid with ⟨nO, dbO2⟩
  have hgO := RemoveOrphanedGroups_groups dbS2 sid
  rw [hRO] at hgO
  simp only [] at hgO
  have hfrO := RemoveOrphanedGroups_frame dbS2 sid
  rw [hRO] at hfrO
  simp only [] at hfrO
  obtain ⟨hOc, hOs, hOh, hOnc, hOng, hOns⟩ := hfrO
  have husedEq : usedGroupIds dbS2 sid = usedGroupIds db1 sid := by
    rw [usedGroupIds, usedGroupIds, hSid]
  have hkeepG : ∀ G ∈ db1.groups,
      (!(G.sourceId == sid && !((usedGroupIds dbS2 sid).contains G.id))) =
        true := by
    intro G hG
    by_cases hGs : G.sourceId = sid
    · have hcont : (usedGroupIds dbS2 sid).contains G.id = true := by
        rw [husedEq]
        exact List.elem_iff.2 (hpost.grpRef G hG hGs)
      rw [hcont]
      simp
    · have hb : (G.sourceId == sid) = false := by
        rw [beq_eq_false_iff_ne]
        exact hGs
      rw [hb]
      rfl
  have hdropG : ∀ G ∈ newG2,
      (!(G.sourceId == sid && !((usedGroupIds dbS2 sid).contains G.id))) =
        false := by
    intro G hG
    obtain ⟨hGs, hGle, -, -⟩ := hNGspec G hG
    have hcont : (usedGroupIds dbS2 sid).contains G.id = false := by
      cases hcx : (usedGroupIds dbS2 sid).contains G.id with
      | false => rfl
      | true =>
        exfalso
        have hmemu : G.id ∈ usedGroupIds db1 sid := by
          rw [← husedEq]
          exact List.elem_iff.1 hcx
        rw [usedGroupIds] at hmemu
        obtain ⟨c, hcf, hcg⟩ := List.mem_filterMap.1 hmemu
        obtain ⟨hcmem, hcsb⟩ := List.mem_filter.1 hcf
        obtain ⟨e, -, -, -, hdisj⟩ :=
          hpost.chanContent c hcmem (beq_iff_eq.1 hcsb)
        rcases hdisj with ⟨-, hcg'⟩ | ⟨g, G', -, hG'mem, -, -, hcg'⟩
        · rw [hcg'] at hcg
          cases hcg
        · rw [hcg'] at hcg
          injection hcg with hcg
          have hlt := hpost.wf.grpIdsLt G' hG'mem
          rw [hfng1'] at hGle
          omega
    rw [hcont, beq_iff_eq.2 hGs]
    rfl
  have hGO : dbO2.groups = db1.groups := by
    rw [hgO, hSg, hgrL, List.filter_append,
      List.filter_eq_self.2 hkeepG,
      show newG2.filter (fun g =>
        !(g.sourceId == sid && !((usedGroupIds dbS2 sid).contains g.id))) = []
        from List.filter_eq_nil.2 (fun G hG => by rw [hdropG G hG]; exact
          Bool.false_ne_true),
      List.append_nil]
  have hfrT := UpdateSourceLastUpdated_frame dbO2 sid now
  obtain ⟨hTc, hTg, -, -, -⟩ := hfrT
  refine ⟨UpdateSourceLastUpdated dbO2 sid now, ?_, ?_, ?_⟩
  · rw [Ingest, if_neg hurl]
    simp only [dbOps_createOrGetSource]
    rw [hCG]
    simp only []
    rw [hloop]
    simp only [dbOps_countChannelsBySource]
    rw [dbOps_removeStaleChannels, hRS]
    simp only []
    rw [dbOps_removeOrphanedGroups, hRO]
    simp only []
    rw [dbOps_updateSourceLastUpdated]
    simp only []
    rw [hchar.count_eq, Nat.zero_add]
  · rw [hTc, hOc, hSid]
  · rw [hTg, hGO]

/-- C1: Ingest is idempotent for an unchanged feed: if the fetch yields the
same entry list twice, a second run immediately after a successful first run
returns the same source id and count and leaves the channel table (hence every
channel's favorite flag and stored embedding) and the group table exactly as
the first run left them. -/
theorem C1_ingest_idempotent (now now2 : Nat) (db0 : DB)
    (entries : List Entry) (url name ua : String) (hwf : WF db0)
    (hurl : ¬(url = "")) :
    ∃ sid db1 db2,
      Ingest (dbOps now) (fun _ => false) (some entries) url name ua db0 =
        (some (sid, entries.length), db1) ∧
      Ingest (dbOps now2) (fun _ => false) (some entries) url name ua db1 =
        (some (sid, entries.length), db2) ∧
      db2.channels = db1.channels ∧ db2.groups = db1.groups ∧
      db2.channels.map Channel.favorite = db1.channels.map Channel.favorite ∧
      db2.channels.map Channel.embedding =
        db1.channels.map Channel.embedding := by
  obtain ⟨sid, db1, heq1, hpost, -⟩ :=
    Ingest_run now db0 entries url name ua hwf hurl
  obtain ⟨db2, heq2, hch, hgr⟩ :=
    Ingest_idem now2 db1 entries url name ua sid hpost hurl
  exact ⟨sid, db1, db2, heq1, heq2, hch, hgr, by rw [hch], by rw [hch]⟩

/-- The empty store. -/
def dbW0 : DB :=
  { sources := [], groups := [], channels := [], headers := [],
    nextSourceId := 0, nextGroupId := 0, nextChannelId := 0 }

/-- A one-entry feed with a group. -/
def entryW : Entry :=
  { name := "A", url := "http://a", image := some "i", mediaType := 1,
    group := some "G", favorite := false, headers := none }

theorem C1_ingest_idempotent_witness :
    ∃ sid db1 db2,
      Ingest (dbOps 5) (fun _ => false) (some [entryW]) "u" "nm" "" dbW0 =
        (some (sid, [entryW].length), db1) ∧
      Ingest (dbOps 7) (fun _ => false) (some [entryW]) "u" "nm" "" db1 =
        (some (sid, [entryW].length), db2) ∧
      db2.channels = db1.channels ∧ db2.groups = db1.groups ∧
      db2.channels.map Channel.favorite = db1.channels.map Channel.favorite ∧
      db2.channels.map Channel.embedding =
        db1.channels.map Channel.embedding :=
  C1_ingest_idempotent 5 7 dbW0 [entryW] "u" "nm" ""
    ⟨by decide, by decide, by decide, by decide, by decide, by decide,
     by decide, by decide, by decide⟩ (by decide)

/-- C2: `UpsertChannel` matched by the `(name, source, url)` key overwrites
only the display fields `image`, `media_type` and `group_id` and never touches
`favorite` (or the stored embedding) of any row; consequently a favorite
channel whose name and URL still appear in a re-ingested feed of its source is
still favorite after the run. -/
theorem C2_upsert_frame_favorite (db : DB) (ch : ChannelInput) (now : Nat)
    (db0 : DB) (entries : List Entry) (url name ua : String) (sid n : Nat)
    (db1 : DB) (hwf : WF db0)
    (hrun : Ingest (dbOps now) (fun _ => false) (some entries) url name ua
      db0 = (some (sid, n), db1)) :
    (∀ d ∈ db.channels, ∃ d' ∈ (UpsertChannel db ch).2.channels,
      d'.id = d.id ∧ d'.name = d.name ∧ d'.url = d.url ∧
      d'.sourceId = d.sourceId ∧ d'.favorite = d.favorite ∧
      d'.embedding = d.embedding ∧
      (d.key = (ch.name, ch.sourceId, ch.url) →
        d'.image = ch.image ∧ d'.mediaType = ch.mediaType ∧
        d'.groupId = ch.groupId)) ∧
    (∀ c ∈ db0.channels, c.favorite = true → c.sourceId = sid →
      (∃ e ∈ entries, e.name = c.name ∧ e.url = c.url) →
      ∃ c' ∈ db1.channels, c'.id = c.id ∧ c'.favorite = true ∧
        c'.embedding = c.embedding) := by
  constructor
  · intro d hd
    rcases hfind : db.channels.find? (fun c =>
        c.name == ch.name && c.sourceId == ch.sourceId && c.url == ch.url)
      with - | cbar
    · rw [UpsertChannel_new db ch hfind]
      refine ⟨d, List.mem_append.2 (Or.inl hd), rfl, rfl, rfl, rfl, rfl, rfl,
        ?_⟩
      intro hk
      exact absurd ((chan_pred_iff ch d).2 hk)
        (List.find?_eq_none.1 hfind d hd)
    · rw [UpsertChannel_found db ch cbar hfind]
      by_cases hp : (d.name == ch.name && d.sourceId == ch.sourceId &&
          d.url == ch.url) = true
      · refine ⟨_, List.mem_map.2 ⟨d, hd, rfl⟩, ?_⟩
        rw [if_pos hp]
        exact ⟨rfl, rfl, rfl, rfl, rfl, rfl, fun _ => ⟨rfl, rfl, rfl⟩⟩
      · refine ⟨_, List.mem_map.2 ⟨d, hd, rfl⟩, ?_⟩
        rw [if_neg hp]
        refine ⟨rfl, rfl, rfl, rfl, rfl, rfl, ?_⟩
        intro hk
        exact absurd ((chan_pred_iff ch d).2 hk) hp
  · intro c hc hfav hcs hex
    have hurl : ¬(url = "") := by
      intro h
      rw [Ingest, if_pos h] at hrun
      simp at hrun
    obtain ⟨sid', db1', heq, hpost, hfavp⟩ :=
      Ingest_run now db0 entries url name ua hwf hurl
    rw [heq] at hrun
    injection hrun with h1 h2
    injection h1 with h1
    injection h1 with hsid' hn'
    obtain ⟨e, he, hen, heu⟩ := hex
    have hkey : ekey sid' e = c.key := by
      rw [ekey, Channel.key, hen, heu, hsid', hcs]
    obtain ⟨c', hc'mem, hc'id, hc'key, hc'fav, hc'emb⟩ :=
      hfavp c hc (by rw [hsid']; exact hcs) ⟨e, he, hkey⟩
    refine ⟨c', ?_, hc'id, by rw [hc'fav]; exact hfav, hc'emb⟩
    rw [← h2]
    exact hc'mem

/-- A stored favorite channel with an embedding. -/
def chC2 : Channel :=
  { id := 3, name := "A", url := "http://a", image := none, mediaType := 1,
    sourceId := 0, groupId := none, favorite := true, embedding := some [1] }

/-- A store holding only `chC2`. -/
def srcC2 : Source :=
  { id := 0, name := "nm", url := "u", sourceType := 1, userAgent := none,
    enabled := true, lastUpdated := none }

def dbC2 : DB :=
  { sources := [srcC2], groups := [], channels := [chC2], headers := [],
    nextSourceId := 1, nextGroupId := 0, nextChannelId := 4 }

/-- The upsert input hitting `chC2`'s key with new display fields. -/
def chInC2 : ChannelInput :=
  { name := "A", image := some "x", url := "http://a", mediaType := 2,
    sourceId := 0, groupId := some 9, favorite := false }

set_option maxRecDepth 4000 in
theorem C2_upsert_frame_favorite_witness :
    (∀ d ∈ dbC2.channels, ∃ d' ∈ (UpsertChannel dbC2 chInC2).2.channels,
      d'.id = d.id ∧ d'.name = d.name ∧ d'.url = d.url ∧
      d'.sourceId = d.sourceId ∧ d'.favorite = d.favorite ∧
      d'.embedding = d.embedding ∧
      (d.key = (chInC2.name, chInC2.sourceId, chInC2.url) →
        d'.image = chInC2.image ∧ d'.mediaType = chInC2.mediaType ∧
        d'.groupId = chInC2.groupId)) ∧
    (∀ c ∈ dbC2.channels, c.favorite = true → c.sourceId = 0 →
      (∃ e ∈ [entryW], e.name = c.name ∧ e.url = c.url) →
      ∃ c' ∈ (Ingest (dbOps 5) (fun _ => false) (some [entryW]) "u" "nm" ""
          dbC2).2.channels,
        c'.id = c.id ∧ c'.favorite = true ∧ c'.embedding = c.embedding) :=
  C2_upsert_frame_favorite dbC2 chInC2 5 dbC2 [entryW] "u" "nm" "" 0 1
    (Ingest (dbOps 5) (fun _ => false) (some [entryW]) "u" "nm" "" dbC2).2
    ⟨by decide, by decide, by decide, by decide, by decide, by decide,
     by decide, by decide, by decide⟩ (by decide)

end PV

namespace PV

/-! ### C10: the signed response index

`embeddingData.Index` is a Go `int` (`Index int` with json tag `index`), and
the placement loop's only guard is `d.Index < len(embeddings)`: an index
`≥ len(texts)` fails the guard and is skipped, but a NEGATIVE index in a
parsed 200 response passes it and `embeddings[d.Index]` panics with an
index-out-of-range runtime error.  The model below keeps the index at its
true signed type; `none` is the runtime panic.  `placeEmbeddings`/`Embed`
above are the restriction of this model to non-negative indices
(`placeEmbeddingsZ_nonneg`). -/

/-- One iteration of the placement loop over the signed index: skip an index
`≥ n`, place an index in `[0, n)`, panic (`none`) on a negative index, and
propagate an earlier panic. -/
def placeStepZ (n : Nat) :
    Option (List (Option Vec)) → Int × Vec → Option (List (Option Vec))
  | none, _ => none
  | some es, d =>
    if d.1 < (n : Int) then
      if d.1 < 0 then none else some (es.set d.1.toNat (some d.2))
    else some es

/-- The placement loop of `Embed` with the signed index. -/
def placeEmbeddingsZ (n : Nat) (data : List (Int × Vec)) :
    Option (List (Option Vec)) :=
  data.foldl (placeStepZ n) (some (List.replicate n none))

/-- `Embed` with the signed index; the empty-input early return precedes the
request, so nothing is placed then. -/
def EmbedZ (texts : List String) (respData : List (Int × Vec)) :
    Option (List (Option Vec)) :=
  if texts.isEmpty then some [] else placeEmbeddingsZ texts.length respData

/-- Over non-negative indices the signed loop is the `Nat` loop. -/
theorem foldZ_nonneg (n : Nat) :
    ∀ (data : List (Int × Vec)) (es : List (Option Vec)),
      (∀ p ∈ data, 0 ≤ p.1) →
      data.foldl (placeStepZ n) (some es) =
        some ((data.map (fun p => (p.1.toNat, p.2))).foldl
          (fun acc d => if d.1 < n then acc.set d.1 (some d.2) else acc)
          es) := by
  intro data
  induction data with
  | nil =>
    intro es h
    rfl
  | cons d rest ih =>
    intro es h
    have h0 : 0 ≤ d.1 := h d (List.mem_cons_self d rest)
    rw [List.foldl_cons, List.map_cons, List.foldl_cons]
    simp only []
    by_cases hd : d.1 < (n : Int)
    · rw [show placeStepZ n (some es) d = some (es.set d.1.toNat (some d.2))
        from by rw [placeStepZ, if_pos hd, if_neg (by omega)]]
      rw [if_pos (show d.1.toNat < n by omega)]
      exact ih _ (fun p hp => h p (List.mem_cons_of_mem d hp))
    · rw [show placeStepZ n (some es) d = some es
        from by rw [placeStepZ, if_neg hd]]
      rw [if_neg (show ¬(d.1.toNat < n) by omega)]
      exact ih _ (fun p hp => h p (List.mem_cons_of_mem d hp))

theorem placeEmbeddingsZ_nonneg (n : Nat) (data : List (Int × Vec))
    (h : ∀ p ∈ data, 0 ≤ p.1) :
    placeEmbeddingsZ n data =
      some (placeEmbeddings n (data.map (fun p => (p.1.toNat, p.2)))) := by
  rw [placeEmbeddingsZ, placeEmbeddings]
  exact foldZ_nonneg n data (List.replicate n none) h

/-- Data whose index fails the `d.Index < len` guard never changes the loop
state, panic included. -/
theorem foldZ_filter (n : Nat) :
    ∀ (data : List (Int × Vec)) (acc : Option (List (Option Vec))),
      data.foldl (placeStepZ n) acc =
        (data.filter (fun d => d.1 < (n : Int))).foldl (placeStepZ n) acc := by
  intro data
  induction data with
  | nil =>
    intro acc
    rfl
  | cons d rest ih =>
    intro acc
    rw [List.foldl_cons]
    by_cases hd : d.1 < (n : Int)
    · rw [show (d :: rest).filter (fun d => d.1 < (n : Int)) =
          d :: rest.filter (fun d => d.1 < (n : Int)) from by
        simp [List.filter_cons, hd]]
      rw [List.foldl_cons]
      exact ih _
    · have hstep : placeStepZ n acc d = acc := by
        rcases acc with - | es
        · rfl
        · rw [placeStepZ, if_neg hd]
      rw [show (d :: rest).filter (fun d => d.1 < (n : Int)) =
          rest.filter (fun d => d.1 < (n : Int)) from by
        simp [List.filter_cons, hd]]
      rw [hstep]
      exact ih acc

/-- Any datum with a negative index makes the placement loop panic (for a
non-empty slice every negative index passes the `d.Index < len` guard). -/
theorem foldZ_neg (n : Nat) :
    ∀ (data : List (Int × Vec)) (acc : Option (List (Option Vec))),
      ((∃ p ∈ data, p.1 < 0) ∨ acc = none) →
      data.foldl (placeStepZ n) acc = none := by
  intro data
  induction data with
  | nil =>
    intro acc h
    rcases h with ⟨p, hp, -⟩ | rfl
    · cases hp
    · rfl
  | cons d rest ih =>
    intro acc h
    rw [List.foldl_cons]
    rcases h with ⟨p, hp, hneg⟩ | rfl
    · rcases List.mem_cons.1 hp with rfl | hp'
      · rcases acc with - | es
        · exact ih _ (Or.inr rfl)
        · have hstep : placeStepZ n (some es) p = none := by
            rw [placeStepZ,
              if_pos (lt_of_lt_of_le hneg (Int.natCast_nonneg n)), if_pos hneg]
          rw [hstep]
          exact ih _ (Or.inr rfl)
      · exact ih _ (Or.inl ⟨p, hp', hneg⟩)
    · rw [show placeStepZ n none d = none from rfl]
      exact ih _ (Or.inr rfl)

/-- C10 counterexample: the claim says a response datum with an out-of-range
index is silently discarded, but the response index is a Go `int` and the
only guard is `d.Index < len(embeddings)`: a datum with index `-1` in a 200
response of a one-text call passes the guard and the placement panics
(`none`) instead of being dropped with the slot left `nil` (`some [none]`). -/
theorem C10_counterexample :
    EmbedZ ["a"] [((-1 : Int), ([5] : Vec))] = none ∧
    EmbedZ ["a"] [((-1 : Int), ([5] : Vec))] ≠ some [none] :=
  ⟨by decide, by decide⟩

/-- C10 (amended): for an `Embed` call whose 200-response data carries only
non-negative indices the original claim holds — the signed loop agrees with
the `Nat` model, so the result exists with one slot per text, a datum with
in-range index lands at that index, slots with no datum stay `nil` — and data
failing the `d.Index < len(texts)` guard are discarded without effect; an
empty text list returns `nil` with no HTTP request; but a datum with a
NEGATIVE index on a non-empty call is not discarded: the placement loop
panics. -/
theorem C10_embed_placement_signed (texts : List String)
    (respData : List (Int × Vec)) :
    ((∀ p ∈ respData, 0 ≤ p.1) →
      ∃ es, EmbedZ texts respData = some es ∧
        es = Embed texts (respData.map (fun p => (p.1.toNat, p.2))) ∧
        (texts ≠ [] → es.length = texts.length) ∧
        (∀ j v,
          ((respData.map (fun p => (p.1.toNat, p.2))).map Prod.fst).Nodup →
          (j, v) ∈ respData.map (fun p => (p.1.toNat, p.2)) →
          j < texts.length → es[j]? = some (some v)) ∧
        (∀ j, j < texts.length →
          j ∉ (respData.map (fun p => (p.1.toNat, p.2))).map Prod.fst →
          es[j]? = some none)) ∧
    (EmbedZ texts respData =
      EmbedZ texts (respData.filter (fun d => d.1 < (texts.length : Int)))) ∧
    (texts ≠ [] → (∃ p ∈ respData, p.1 < 0) →
      EmbedZ texts respData = none) ∧
    (EmbedZ [] respData = some [] ∧ EmbedRequests [] = []) := by
  refine ⟨?_, ?_, ?_, rfl, rfl⟩
  · intro h
    refine ⟨Embed texts (respData.map (fun p => (p.1.toNat, p.2))), ?_, rfl,
      Embed_length texts _,
      fun j v hnd hm hj => (Embed_placement_props texts _).2.1 j v hnd hm hj,
      fun j hj hnm => (Embed_placement_props texts _).2.2.2.1 j hj hnm⟩
    rw [EmbedZ, Embed]
    by_cases he : texts.isEmpty
    · rw [if_pos he, if_pos he]
    · rw [if_neg he, if_neg he]
      exact placeEmbeddingsZ_nonneg texts.length respData h
  · rw [EmbedZ, EmbedZ]
    by_cases he : texts.isEmpty
    · rw [if_pos he, if_pos he]
    · rw [if_neg he, if_neg he, placeEmbeddingsZ, placeEmbeddingsZ]
      exact foldZ_filter texts.length respData _
  · intro hne hex
    have hni : ¬(texts.isEmpty = true) := by
      intro hb
      exact hne (List.isEmpty_iff.1 hb)
    rw [EmbedZ, if_neg hni, placeEmbeddingsZ]
    exact foldZ_neg texts.length respData _ (Or.inl hex)

/-- Witness for `C10_embed_placement_signed`: a one-text call whose response
carries index `-1` panics. -/
theorem C10_embed_placement_signed_witness :
    (["a"] ≠ ([] : List String) ∧
      ∃ p ∈ [((-1 : Int), ([5] : Vec))], p.1 < 0) ∧
    EmbedZ ["a"] [((-1 : Int), ([5] : Vec))] = none :=
  ⟨⟨by decide, by decide⟩,
   (C10_embed_placement_signed ["a"] [((-1 : Int), ([5] : Vec))]).2.2.1
     (by decide) (by decide)⟩

end PV
